import Mathlib

/-!
Verification of the ftfrs trace-format codec (Fuchsia Trace Format reader/writer).

Shallow embedding notes:
* Machine integers (u8/u16/u32/u64/usize) are modelled as `Nat`; wrapping
  casts are explicit `% 2^w`.  Signed values (i32/i64) are `Int` with
  explicit two's-complement conversion at the codec boundary.
* Byte streams are `List Nat` (each element a byte value).  A reader is a
  function `List Nat → Except FtfError (α × List Nat)` returning the parsed
  value and the unconsumed rest; `read_exact` failing on a short stream is
  the `ioUnexpectedEof` error, mirroring `std::io::ErrorKind::UnexpectedEof`.
* Rust `String` is modelled by its UTF-8 byte list; `String::from_utf8` is
  a UTF-8 validity check (RFC 3629) returning the same bytes.
* The host is little-endian (as in the source's tests), so the source's
  `to_ne_bytes`/`from_ne_bytes` coincide with `to_le_bytes`/`from_le_bytes`;
  everything here is little-endian.
* `f64` argument values are modelled by their IEEE-754 bit pattern (a `Nat`),
  since the codec only moves the raw bits (`f64::from_bits` / `to_bits`).
-/

/-- Record type tags (src/header.rs `RecordType`), declared ahead of the
error enum because `FtfError::UnsupportedRecordType` carries one. -/
inductive RecordType where
  | metadata | initialization | string | thread | event
  | blob | userspace | kernel | scheduling | log | largeBlob
deriving DecidableEq, Repr

/-- The `FtfError` enum from src/lib.rs.  The two `Io` shapes distinguish
`ErrorKind::UnexpectedEof` (special-cased by `Archive::read`) from every
other I/O error kind. -/
inductive FtfError where
  | ioUnexpectedEof : FtfError
  | ioOther : FtfError
  | utf8 : FtfError
  | invalidRecordType (raw : Nat) : FtfError
  | invalidEventType (raw : Nat) : FtfError
  | invalidMetadataType (raw : Nat) : FtfError
  | invalidArgumentType (raw : Nat) : FtfError
  | unsupportedRecordType (t : RecordType) : FtfError
  | unimplemented (msg : String) : FtfError
  | parseError (msg : String) : FtfError
deriving DecidableEq, Repr

/-- Bitmask to a width: `mask_length!(v, w)` in src/bitutils.rs is
`v & ((1u64 << w) - 1)`, i.e. `v % 2^w` (all source call sites have w ≤ 40). -/
def mask_length (v w : Nat) : Nat := v % 2 ^ w

/-- Inclusive bit-range extraction: `extract_bits!(v, i, j)` in
src/bitutils.rs is `(v & (((1 << (j-i+1)) - 1) << i)) >> i`. -/
def extract_bits (v i j : Nat) : Nat := v / 2 ^ i % 2 ^ (j - i + 1)

/-- Little-endian bytes of a u64 (`u64::to_le_bytes`). -/
def toLeBytes (v : Nat) : List Nat :=
  [v % 256, v / 2^8 % 256, v / 2^16 % 256, v / 2^24 % 256,
   v / 2^32 % 256, v / 2^40 % 256, v / 2^48 % 256, v / 2^56 % 256]

/-- Little-endian u64 from a byte list (`u64::from_le_bytes`;
`from_ne_bytes` on the little-endian host). -/
def fromLeBytes (l : List Nat) : Nat :=
  l.foldr (fun b acc => b + 256 * acc) 0

/-- Big-endian u64 from an 8-byte list (`u64::from_be_bytes`), used by
`TraceInfo::new`. -/
def fromBeBytes (l : List Nat) : Nat :=
  l.foldl (fun acc b => 256 * acc + b) 0

/-- UTF-8 validity of a byte list, per RFC 3629 exactly as `String::from_utf8`
checks it (no overlongs, no surrogates, max U+10FFFF). -/
def utf8Valid : List Nat → Bool
  | [] => true
  | b :: rest =>
    if b < 0x80 then utf8Valid rest
    else if b < 0xC2 then false
    else if b < 0xE0 then
      match rest with
      | b1 :: rest' => decide (0x80 ≤ b1) && decide (b1 < 0xC0) && utf8Valid rest'
      | [] => false
    else if b < 0xF0 then
      match rest with
      | b1 :: b2 :: rest' =>
        (if b = 0xE0 then decide (0xA0 ≤ b1) && decide (b1 < 0xC0)
         else if b = 0xED then decide (0x80 ≤ b1) && decide (b1 < 0xA0)
         else decide (0x80 ≤ b1) && decide (b1 < 0xC0)) &&
        (decide (0x80 ≤ b2) && decide (b2 < 0xC0)) && utf8Valid rest'
      | _ => false
    else if b < 0xF5 then
      match rest with
      | b1 :: b2 :: b3 :: rest' =>
        (if b = 0xF0 then decide (0x90 ≤ b1) && decide (b1 < 0xC0)
         else if b = 0xF4 then decide (0x80 ≤ b1) && decide (b1 < 0x90)
         else decide (0x80 ≤ b1) && decide (b1 < 0xC0)) &&
        (decide (0x80 ≤ b2) && decide (b2 < 0xC0)) &&
        (decide (0x80 ≤ b3) && decide (b3 < 0xC0)) && utf8Valid rest'
      | _ => false
    else false

/-- Byte output of `pad_and_write_string` (src/wordutils.rs): the raw bytes,
then `8 - len % 8` zero bytes when the length is not a multiple of 8. -/
def padStringBytes (s : List Nat) : List Nat :=
  if s.length % 8 = 0 then s
  else s ++ List.replicate (8 - s.length % 8) 0

/-- Modelled from the spec: `pad_to_multiple_of_8` is imported from
`wordutils` by event.rs, metadata.rs and argument.rs but its definition is
absent from the sources; per the spec's `write_padded_string`, it right-pads
the byte slice with zero bytes to the next multiple of 8. -/
def pad_to_multiple_of_8 (s : List Nat) : List Nat :=
  if s.length % 8 = 0 then s
  else s ++ List.replicate (8 - s.length % 8) 0

/-- Consume exactly 8 bytes and read a little-endian word
(`read_u64_word` in src/wordutils.rs; `read_exact` gives `UnexpectedEof`
on a short stream). -/
def read_u64_word (s : List Nat) : Except FtfError (Nat × List Nat) :=
  if s.length < 8 then .error .ioUnexpectedEof
  else .ok (fromLeBytes (s.take 8), s.drop 8)

/-- Read a word-aligned string of a declared byte length
(`read_aligned_str` in src/wordutils.rs): consume `ceil(len/8)*8` bytes,
UTF-8-validate the declared prefix (the full buffer when `len % 8 = 0`). -/
def read_aligned_str (len : Nat) (s : List Nat) :
    Except FtfError (List Nat × List Nat) :=
  let bytes_to_read := (len + 7) / 8 * 8
  if s.length < bytes_to_read then .error .ioUnexpectedEof
  else
    let buf := s.take bytes_to_read
    if len % 8 = 0 then
      if utf8Valid buf then .ok (buf, s.drop bytes_to_read) else .error .utf8
    else
      let res := buf.take len
      if utf8Valid res then .ok (res, s.drop bytes_to_read) else .error .utf8

/-- Numeric tag of a record type (`RecordType as u8`). -/
def RecordType.toNat : RecordType → Nat
  | .metadata => 0
  | .initialization => 1
  | .string => 2
  | .thread => 3
  | .event => 4
  | .blob => 5
  | .userspace => 6
  | .kernel => 7
  | .scheduling => 8
  | .log => 9
  | .largeBlob => 15

/-- `RecordType::try_from(u8)` (src/header.rs). -/
def RecordType.tryFrom (v : Nat) : Except FtfError RecordType :=
  match v with
  | 0 => .ok .metadata
  | 1 => .ok .initialization
  | 2 => .ok .string
  | 3 => .ok .thread
  | 4 => .ok .event
  | 5 => .ok .blob
  | 6 => .ok .userspace
  | 7 => .ok .kernel
  | 8 => .ok .scheduling
  | 9 => .ok .log
  | 15 => .ok .largeBlob
  | _ => .error (.invalidRecordType v)

/-- Custom header bitfield (src/header.rs `CustomField`): value plus width. -/
structure CustomField where
  width : Nat
  value : Nat
deriving DecidableEq, Repr

/-- Header word of a record (src/header.rs `RecordHeader`). -/
structure RecordHeader where
  value : Nat
deriving DecidableEq, Repr

/-- Loop body of `RecordHeader::build`: OR each width-masked field in at the
running offset.  Rust's `<<` keeps only the low 64 bits of the result; the
accumulated offset is a `u8`. -/
def buildFields (offset : Nat) (fields : List CustomField) (res : Nat) : Nat :=
  match fields with
  | [] => res
  | f :: rest =>
      buildFields ((offset + f.width) % 256) rest
        (res ||| mask_length f.value f.width <<< offset % 2 ^ 64)

/-- `RecordHeader::build` (src/header.rs): record-type tag in bits 0–3,
size-in-words (a u8 at the call sites) in bits 4–15, then the custom fields
from bit 16 up.  The source returns `Result` but has no error path. -/
def RecordHeader.build (record_type : RecordType) (record_size : Nat)
    (fields : List CustomField) : Except FtfError RecordHeader :=
  .ok ⟨buildFields (4 + 12) fields (record_type.toNat ||| record_size <<< 4)⟩

/-- `RecordHeader::size` (src/header.rs): bits 4–15. -/
def RecordHeader.size (h : RecordHeader) : Nat := extract_bits h.value 4 15

/-- `RecordHeader::record_type` (src/header.rs): bits 0–3, validated. -/
def RecordHeader.record_type (h : RecordHeader) : Except FtfError RecordType :=
  RecordType.tryFrom (extract_bits h.value 0 3)

/-- Reference-or-inline string (src/lib.rs `StringRef`); the inline payload
is the string's UTF-8 bytes. -/
inductive StringRef where
  | inline (s : List Nat) : StringRef
  | ref (r : Nat) : StringRef
deriving DecidableEq, Repr

/-- `StringRef::to_field` (src/lib.rs): refs are masked to 15 bits, inline
lengths are truncated to u16 and tagged with the high bit. -/
def StringRef.to_field : StringRef → Nat
  | .ref r => r % 2 ^ 15
  | .inline s => s.length % 2 ^ 16 ||| 0x8000

/-- `StringRef::field_is_ref` (src/lib.rs): high bit of the 16-bit field
clear. -/
def StringRef.field_is_ref (field : Nat) : Bool :=
  field &&& 0x8000 = 0

/-- `StringRef::encoding_num_words` (src/lib.rs): payload words contributed
by the reference; the source truncates `div_ceil` to u8. -/
def StringRef.encoding_num_words : StringRef → Nat
  | .ref _ => 0
  | .inline s => (s.length + 7) / 8 % 256

/-- Payload bytes a `StringRef` contributes to a record body. -/
def StringRef.payloadBytes : StringRef → List Nat
  | .ref _ => []
  | .inline s => padStringBytes s

/-- Whether a `StringRef` is the inline arm. -/
def StringRef.isInline : StringRef → Bool
  | .inline _ => true
  | .ref _ => false

/-- Reference-or-inline thread (src/lib.rs `ThreadRef`). -/
inductive ThreadRef where
  | inline (process_koid thread_koid : Nat) : ThreadRef
  | ref (r : Nat) : ThreadRef
deriving DecidableEq, Repr

/-- `ThreadRef::to_field` (src/lib.rs): inline threads encode as the 0
sentinel. -/
def ThreadRef.to_field : ThreadRef → Nat
  | .inline _ _ => 0
  | .ref r => r

/-- Payload bytes a `ThreadRef` contributes to an event body (the
`if let ThreadRef::Inline { .. }` emit in `Event::write_event`). -/
def ThreadRef.payloadBytes : ThreadRef → List Nat
  | .inline p k => toLeBytes p ++ toLeBytes k
  | .ref _ => []

/-- Payload words a `ThreadRef` contributes (the `num_words += 2` branch of
`Event::write_event`). -/
def ThreadRef.inlineWords : ThreadRef → Nat
  | .inline _ _ => 2
  | .ref _ => 0

/-- Argument value-type tags (src/argument.rs `ArgumentType`). -/
inductive ArgumentType where
  | null | int32 | uint32 | int64 | uint64
  | float | str | pointer | kernelObjectId | boolean
deriving DecidableEq, Repr

/-- Numeric tag of an argument type (`ArgumentType as u8`). -/
def ArgumentType.toNat : ArgumentType → Nat
  | .null => 0
  | .int32 => 1
  | .uint32 => 2
  | .int64 => 3
  | .uint64 => 4
  | .float => 5
  | .str => 6
  | .pointer => 7
  | .kernelObjectId => 8
  | .boolean => 9

/-- `ArgumentType::try_from(u8)` (src/argument.rs). -/
def ArgumentType.tryFrom (v : Nat) : Except FtfError ArgumentType :=
  match v with
  | 0 => .ok .null
  | 1 => .ok .int32
  | 2 => .ok .uint32
  | 3 => .ok .int64
  | 4 => .ok .uint64
  | 5 => .ok .float
  | 6 => .ok .str
  | 7 => .ok .pointer
  | 8 => .ok .kernelObjectId
  | 9 => .ok .boolean
  | _ => .error (.invalidArgumentType v)

/-- Event argument (src/argument.rs `Argument`).  i32/i64 values are `Int`;
the f64 value is its raw IEEE-754 bit pattern. -/
inductive Argument where
  | null (name : StringRef) : Argument
  | int32 (name : StringRef) (v : Int) : Argument
  | uint32 (name : StringRef) (v : Nat) : Argument
  | int64 (name : StringRef) (v : Int) : Argument
  | uint64 (name : StringRef) (v : Nat) : Argument
  | float (name : StringRef) (bits : Nat) : Argument
  | str (name : StringRef) (v : StringRef) : Argument
  | pointer (name : StringRef) (v : Nat) : Argument
  | kernelObjectId (name : StringRef) (v : Nat) : Argument
  | boolean (name : StringRef) (v : Bool) : Argument
deriving DecidableEq, Repr

/-- Two's-complement reading of a 32-bit pattern (`as i32` on a u32). -/
def i32FromBits (n : Nat) : Int :=
  if n < 2 ^ 31 then (n : Int) else (n : Int) - 2 ^ 32

/-- Two's-complement reading of a 64-bit pattern (`as i64` on a u64). -/
def i64FromBits (n : Nat) : Int :=
  if n < 2 ^ 63 then (n : Int) else (n : Int) - 2 ^ 64

/-- Two's-complement 32-bit pattern of an i32 (`as u32` on an i32). -/
def u32OfI32 (v : Int) : Nat := (v % 2 ^ 32).toNat

/-- Two's-complement 64-bit pattern of an i64 (`as u64` on an i64). -/
def u64OfI64 (v : Int) : Nat := (v % 2 ^ 64).toNat

/-- Decode a 16-bit string-ref field plus any inline payload.  This is the
branch `if StringRef::field_is_ref(f) { Ref } else { Inline(read_aligned_str
(f & 0x7FFF)) }` that src/argument.rs spells out verbatim for the argument
name and the string argument value. -/
def decodeStrFieldArg (field : Nat) (s : List Nat) :
    Except FtfError (StringRef × List Nat) :=
  if StringRef.field_is_ref field then .ok (.ref field, s)
  else
    match read_aligned_str (mask_length field 15) s with
    | .error e => .error e
    | .ok (str, s') => .ok (.inline str, s')

/-- `Argument::read` (src/argument.rs).  The argument size field (header
bits 4–15) is read into `_arg_size` and never used. -/
def Argument.read (s : List Nat) : Except FtfError (Argument × List Nat) :=
  match read_u64_word s with
  | .error e => .error e
  | .ok (header, s) =>
    match ArgumentType.tryFrom (extract_bits header 0 3) with
    | .error e => .error e
    | .ok arg_type =>
      match decodeStrFieldArg (extract_bits header 16 31) s with
      | .error e => .error e
      | .ok (arg_name, s) =>
        match arg_type with
        | .null => .ok (.null arg_name, s)
        | .int32 => .ok (.int32 arg_name (i32FromBits (extract_bits header 32 63)), s)
        | .uint32 => .ok (.uint32 arg_name (extract_bits header 32 63), s)
        | .int64 =>
          match read_u64_word s with
          | .error e => .error e
          | .ok (w, s) => .ok (.int64 arg_name (i64FromBits w), s)
        | .uint64 =>
          match read_u64_word s with
          | .error e => .error e
          | .ok (w, s) => .ok (.uint64 arg_name w, s)
        | .float =>
          match read_u64_word s with
          | .error e => .error e
          | .ok (w, s) => .ok (.float arg_name w, s)
        | .str =>
          match decodeStrFieldArg (extract_bits header 32 47) s with
          | .error e => .error e
          | .ok (arg_value, s) => .ok (.str arg_name arg_value, s)
        | .pointer =>
          match read_u64_word s with
          | .error e => .error e
          | .ok (w, s) => .ok (.pointer arg_name w, s)
        | .kernelObjectId =>
          match read_u64_word s with
          | .error e => .error e
          | .ok (w, s) => .ok (.kernelObjectId arg_name w, s)
        | .boolean => .ok (.boolean arg_name (extract_bits header 32 32 = 1), s)

/-- `Argument::create_header` (src/argument.rs): type tag, size-in-words,
name field, 32-bit data, OR-ed into one u64. -/
def Argument.create_header (arg_type : ArgumentType) (arg_name : StringRef)
    (num_words : Nat) (data : Nat) : Nat :=
  arg_type.toNat ||| num_words <<< 4 ||| arg_name.to_field <<< 16 ||| data <<< 32

/-- Type tag of an argument (`Argument::arg_type`). -/
def Argument.arg_type : Argument → ArgumentType
  | .null _ => .null
  | .int32 _ _ => .int32
  | .uint32 _ _ => .uint32
  | .int64 _ _ => .int64
  | .uint64 _ _ => .uint64
  | .float _ _ => .float
  | .pointer _ _ => .pointer
  | .kernelObjectId _ _ => .kernelObjectId
  | .boolean _ _ => .boolean
  | .str _ _ => .str

/-- Name of an argument (`Argument::name`). -/
def Argument.name : Argument → StringRef
  | .null n => n
  | .int32 n _ => n
  | .uint32 n _ => n
  | .int64 n _ => n
  | .uint64 n _ => n
  | .float n _ => n
  | .pointer n _ => n
  | .kernelObjectId n _ => n
  | .boolean n _ => n
  | .str n _ => n

/-- `Argument::encoding_num_words` (src/argument.rs): name payload words
plus one word for the header, another for a 64-bit value, and for string
values a hard-coded 2 (header + one value word) when the value is inline.
The additions are u8 arithmetic. -/
def Argument.encoding_num_words (a : Argument) : Nat :=
  (a.name.encoding_num_words +
    match a with
    | .null _ | .int32 _ _ | .uint32 _ _ | .boolean _ _ => 1
    | .int64 _ _ | .uint64 _ _ | .pointer _ _ | .kernelObjectId _ _
    | .float _ _ => 2
    | .str _ s => if s.isInline then 2 else 1) % 256

/-- Bytes produced by `Argument::write_header_and_name` (src/argument.rs)
into a growable buffer sink: the header word, then the padded inline name
(the inline-name match is factored through `StringRef.payloadBytes`). -/
def Argument.headerAndNameBytes (a : Argument) (data : Nat) : List Nat :=
  toLeBytes (Argument.create_header a.arg_type a.name a.encoding_num_words data) ++
    a.name.payloadBytes

/-- Bytes produced by `Argument::write` (src/argument.rs).  With a
growable buffer sink the writer cannot fail, so the embedding is the pure
byte output. -/
def Argument.writeBytes : Argument → List Nat
  | a@(.null _) => a.headerAndNameBytes 0
  | a@(.int32 _ v) => a.headerAndNameBytes (u32OfI32 v)
  | a@(.uint32 _ v) => a.headerAndNameBytes v
  | a@(.int64 _ v) => a.headerAndNameBytes 0 ++ toLeBytes (u64OfI64 v)
  | a@(.uint64 _ v) => a.headerAndNameBytes 0 ++ toLeBytes v
  | a@(.float _ bits) => a.headerAndNameBytes 0 ++ toLeBytes bits
  | a@(.str _ v) => a.headerAndNameBytes v.to_field ++ v.payloadBytes
  | a@(.pointer _ v) => a.headerAndNameBytes 0 ++ toLeBytes v
  | a@(.kernelObjectId _ v) => a.headerAndNameBytes 0 ++ toLeBytes v
  | a@(.boolean _ v) => a.headerAndNameBytes (if v then 1 else 0)

/-- Event subtype tags (src/event.rs `EventType`). -/
inductive EventType where
  | instant | counter | durationBegin | durationEnd | durationComplete
  | asyncBegin | asyncInstant | asyncEnd | flowBegin | flowStep | flowEnd
deriving DecidableEq, Repr

/-- Numeric tag of an event subtype (`EventType as u8`). -/
def EventType.toNat : EventType → Nat
  | .instant => 0
  | .counter => 1
  | .durationBegin => 2
  | .durationEnd => 3
  | .durationComplete => 4
  | .asyncBegin => 5
  | .asyncInstant => 6
  | .asyncEnd => 7
  | .flowBegin => 8
  | .flowStep => 9
  | .flowEnd => 10

/-- `EventType::try_from(u8)` (src/event.rs). -/
def EventType.tryFrom (v : Nat) : Except FtfError EventType :=
  match v with
  | 0 => .ok .instant
  | 1 => .ok .counter
  | 2 => .ok .durationBegin
  | 3 => .ok .durationEnd
  | 4 => .ok .durationComplete
  | 5 => .ok .asyncBegin
  | 6 => .ok .asyncInstant
  | 7 => .ok .asyncEnd
  | 8 => .ok .flowBegin
  | 9 => .ok .flowStep
  | 10 => .ok .flowEnd
  | _ => .error (.invalidEventType v)

/-- Common event payload (src/event.rs `Event`). -/
structure Event where
  timestamp : Nat
  thread : ThreadRef
  category : StringRef
  name : StringRef
  arguments : List Argument
deriving DecidableEq, Repr

/-- Word count of an event record as `Event::write_event` computes it:
header + timestamp, inline-thread words, inline category/name words,
argument words — all in u8 arithmetic (hence the mod). -/
def Event.num_words (e : Event) : Nat :=
  (2 + e.thread.inlineWords +
    e.category.encoding_num_words + e.name.encoding_num_words +
    (e.arguments.map Argument.encoding_num_words).sum) % 256

/-- Bytes produced by `Event::write_event` (src/event.rs) into a growable
buffer sink: the built header, the timestamp, the inline thread koids,
padded inline category and name, the arguments in order, and the optional
subtype-specific trailing word.  `RecordHeader::build` never fails and a
buffer sink never fails, so the embedding is the pure byte output. -/
def Event.write_event (e : Event) (event_type : EventType)
    (event_extra_word : Option Nat) : List Nat :=
  let header := buildFields (4 + 12)
    [⟨4, event_type.toNat⟩,
     ⟨4, e.arguments.length⟩,
     ⟨8, e.thread.to_field⟩,
     ⟨16, e.category.to_field⟩,
     ⟨16, e.name.to_field⟩]
    (RecordType.event.toNat |||
      ((e.num_words + (if event_extra_word.isSome then 1 else 0)) % 256) <<< 4)
  toLeBytes header ++ toLeBytes e.timestamp ++
    e.thread.payloadBytes ++ e.category.payloadBytes ++ e.name.payloadBytes ++
    (e.arguments.map Argument.writeBytes).flatten ++
    (match event_extra_word with
     | some extra => toLeBytes extra
     | none => [])

/-- Instant event wrapper (src/event.rs `Instant`). -/
structure Instant where
  event : Event
deriving DecidableEq, Repr

/-- Counter event wrapper (src/event.rs `Counter`). -/
structure Counter where
  event : Event
  counter_id : Nat
deriving DecidableEq, Repr

/-- DurationBegin event wrapper (src/event.rs `DurationBegin`). -/
structure DurationBegin where
  event : Event
deriving DecidableEq, Repr

/-- DurationEnd event wrapper (src/event.rs `DurationEnd`). -/
structure DurationEnd where
  event : Event
deriving DecidableEq, Repr

/-- DurationComplete event wrapper (src/event.rs `DurationComplete`). -/
structure DurationComplete where
  event : Event
  end_ts : Nat
deriving DecidableEq, Repr

/-- Event record variants (src/event.rs `EventRecord`); the async/flow
family carries no payload because it is unimplemented in the source. -/
inductive EventRecord where
  | instant (e : Instant) : EventRecord
  | counter (e : Counter) : EventRecord
  | durationBegin (e : DurationBegin) : EventRecord
  | durationEnd (e : DurationEnd) : EventRecord
  | durationComplete (e : DurationComplete) : EventRecord
  | asyncBegin | asyncEnd | asyncInstant
  | flowBegin | flowEnd | flowStep
deriving DecidableEq, Repr

/-- Argument loop of `EventRecord::parse_event`: read `n` arguments in
order. -/
def readArguments : Nat → List Nat → Except FtfError (List Argument × List Nat)
  | 0, s => .ok ([], s)
  | n + 1, s =>
    match Argument.read s with
    | .error e => .error e
    | .ok (arg, s) =>
      match readArguments n s with
      | .error e => .error e
      | .ok (args, s') => .ok (arg :: args, s')

/-- `EventRecord::parse_event` (src/event.rs): decode the five header
fields, read the timestamp, the inline thread (thread field 0), inline
category and name, then `n_args` arguments. -/
def EventRecord.parse_event (header : Nat) (s : List Nat) :
    Except FtfError ((EventType × Event) × List Nat) :=
  let event_type_raw := extract_bits header 16 19
  let n_args := extract_bits header 20 23
  let thread_field := extract_bits header 24 31
  let category_field := extract_bits header 32 47
  let name_field := extract_bits header 48 63
  match EventType.tryFrom event_type_raw with
  | .error e => .error e
  | .ok event_type =>
    match read_u64_word s with
    | .error e => .error e
    | .ok (timestamp, s) =>
      match
        ((if thread_field = 0 then
          match read_u64_word s with
          | .error e => .error e
          | .ok (process_koid, s) =>
            match read_u64_word s with
            | .error e => .error e
            | .ok (thread_koid, s) => .ok (ThreadRef.inline process_koid thread_koid, s)
        else .ok (ThreadRef.ref thread_field, s)) :
          Except FtfError (ThreadRef × List Nat)) with
      | .error e => .error e
      | .ok (thread, s) =>
        match
          ((if category_field / 2 ^ 15 = 0 then .ok (StringRef.ref category_field, s)
           else
            match read_aligned_str (category_field % 2 ^ 15) s with
            | .error e => .error e
            | .ok (cat, s) => .ok (StringRef.inline cat, s)) :
            Except FtfError (StringRef × List Nat)) with
        | .error e => .error e
        | .ok (category, s) =>
          match
            ((if name_field / 2 ^ 15 = 0 then .ok (StringRef.ref name_field, s)
             else
              match read_aligned_str (name_field % 2 ^ 15) s with
              | .error e => .error e
              | .ok (n, s) => .ok (StringRef.inline n, s)) :
              Except FtfError (StringRef × List Nat)) with
          | .error e => .error e
          | .ok (name, s) =>
            match readArguments n_args s with
            | .error e => .error e
            | .ok (arguments, s) =>
              .ok ((event_type, ⟨timestamp, thread, category, name, arguments⟩), s)

/-- `EventRecord::parse` (src/event.rs): parse the common preamble, then
dispatch on the subtype; Counter and DurationComplete read one trailing
word, the async/flow family is unimplemented. -/
def EventRecord.parse (header : Nat) (s : List Nat) :
    Except FtfError (EventRecord × List Nat) :=
  match EventRecord.parse_event header s with
  | .error e => .error e
  | .ok ((event_type, event), s) =>
    match event_type with
    | .instant => .ok (.instant ⟨event⟩, s)
    | .counter =>
      match read_u64_word s with
      | .error e => .error e
      | .ok (counter_id, s) => .ok (.counter ⟨event, counter_id⟩, s)
    | .durationBegin => .ok (.durationBegin ⟨event⟩, s)
    | .durationEnd => .ok (.durationEnd ⟨event⟩, s)
    | .durationComplete =>
      match read_u64_word s with
      | .error e => .error e
      | .ok (duration_ticks, s) => .ok (.durationComplete ⟨event, duration_ticks⟩, s)
    | .asyncBegin => .error (.unimplemented "AsyncBegin event type not implemented")
    | .asyncEnd => .error (.unimplemented "AsyncEnd event type not implemented")
    | .asyncInstant => .error (.unimplemented "AsyncInstant event type not implemented")
    | .flowBegin => .error (.unimplemented "FlowBegin event type not implemented")
    | .flowStep => .error (.unimplemented "FlowStep event type not implemented")
    | .flowEnd => .error (.unimplemented "FlowEnd event type not implemented")

/-- `EventRecord::write` (src/event.rs): the five implemented variants
delegate to `Event::write_event`, everything else is unimplemented. -/
def EventRecord.write : EventRecord → Except FtfError (List Nat)
  | .counter e => .ok (e.event.write_event .counter (some e.counter_id))
  | .instant e => .ok (e.event.write_event .instant none)
  | .durationBegin e => .ok (e.event.write_event .durationBegin none)
  | .durationEnd e => .ok (e.event.write_event .durationEnd none)
  | .durationComplete e => .ok (e.event.write_event .durationComplete (some e.end_ts))
  | _ => .error (.unimplemented "Write not implemented for this type yet")

/-- Underlying thread reference of a parsed event record (statement helper:
the five payload-carrying variants project to their event's thread; the
payload-free async/flow variants, which `EventRecord::parse` never returns,
map to an arbitrary inline value). -/
def EventRecord.threadOf : EventRecord → ThreadRef
  | .instant e => e.event.thread
  | .counter e => e.event.thread
  | .durationBegin e => e.event.thread
  | .durationEnd e => e.event.thread
  | .durationComplete e => e.event.thread
  | _ => ThreadRef.inline 0 0

/-- Metadata subtype tags (src/metadata.rs `MetadataType`). -/
inductive MetadataType where
  | providerInfo | providerSection | providerEvent | traceInfo
deriving DecidableEq, Repr

/-- Numeric tag of a metadata subtype (`MetadataType as u8`). -/
def MetadataType.toNat : MetadataType → Nat
  | .providerInfo => 1
  | .providerSection => 2
  | .providerEvent => 3
  | .traceInfo => 4

/-- `MetadataType::try_from(u8)` (src/metadata.rs). -/
def MetadataType.tryFrom (v : Nat) : Except FtfError MetadataType :=
  match v with
  | 1 => .ok .providerInfo
  | 2 => .ok .providerSection
  | 3 => .ok .providerEvent
  | 4 => .ok .traceInfo
  | _ => .error (.invalidMetadataType v)

/-- TraceInfo metadata record (src/metadata.rs `TraceInfo`): the five data
bytes live in one u64 (only 40 bits used). -/
structure TraceInfo where
  trace_info_type : Nat
  data : Nat
deriving DecidableEq, Repr

/-- `TraceInfo::new` (src/metadata.rs): place the 5 data bytes at positions
3..7 of a zeroed 8-byte array and read it BIG-endian, so `data[0]` becomes
the most significant of the 40 bits. -/
def TraceInfo.new (trace_info_type d0 d1 d2 d3 d4 : Nat) : TraceInfo :=
  ⟨trace_info_type, fromBeBytes [0, 0, 0, d0, d1, d2, d3, d4]⟩

/-- Bytes of `TraceInfo::write` (src/metadata.rs): a single header word. -/
def TraceInfo.writeBytes (t : TraceInfo) : List Nat :=
  toLeBytes (buildFields (4 + 12)
    [⟨4, MetadataType.traceInfo.toNat⟩, ⟨4, t.trace_info_type⟩, ⟨40, t.data⟩]
    (RecordType.metadata.toNat ||| 1 <<< 4))

/-- ProviderInfo metadata record (src/metadata.rs `ProviderInfo`). -/
structure ProviderInfo where
  provider_id : Nat
  provider_name : List Nat
deriving DecidableEq, Repr

/-- Bytes of `ProviderInfo::write` (src/metadata.rs): header (size
`1 + ceil(len/8)` as u8), then the zero-padded name. -/
def ProviderInfo.writeBytes (p : ProviderInfo) : List Nat :=
  toLeBytes (buildFields (4 + 12)
    [⟨4, MetadataType.providerInfo.toNat⟩, ⟨32, p.provider_id⟩,
     ⟨8, p.provider_name.length⟩]
    (RecordType.metadata.toNat |||
      ((1 + (p.provider_name.length + 7) / 8) % 256) <<< 4)) ++
    pad_to_multiple_of_8 p.provider_name

/-- ProviderSection metadata record (src/metadata.rs `ProviderSection`). -/
structure ProviderSection where
  provider_id : Nat
deriving DecidableEq, Repr

/-- Bytes of `ProviderSection::write` (src/metadata.rs). -/
def ProviderSection.writeBytes (p : ProviderSection) : List Nat :=
  toLeBytes (buildFields (4 + 12)
    [⟨4, MetadataType.providerSection.toNat⟩, ⟨32, p.provider_id⟩]
    (RecordType.metadata.toNat ||| 1 <<< 4))

/-- ProviderEvent metadata record (src/metadata.rs `ProviderEvent`). -/
structure ProviderEvent where
  provider_id : Nat
  event_id : Nat
deriving DecidableEq, Repr

/-- Bytes of `ProviderEvent::write` (src/metadata.rs). -/
def ProviderEvent.writeBytes (p : ProviderEvent) : List Nat :=
  toLeBytes (buildFields (4 + 12)
    [⟨4, MetadataType.providerEvent.toNat⟩, ⟨32, p.provider_id⟩,
     ⟨4, p.event_id⟩]
    (RecordType.metadata.toNat ||| 1 <<< 4))

/-- Metadata record variants (src/metadata.rs `MetadataRecord`). -/
inductive MetadataRecord where
  | providerInfo (p : ProviderInfo) : MetadataRecord
  | providerSection (p : ProviderSection) : MetadataRecord
  | providerEvent (p : ProviderEvent) : MetadataRecord
  | traceInfo (t : TraceInfo) : MetadataRecord
  | magicNumber : MetadataRecord
deriving DecidableEq, Repr

/-- `MetadataRecord::MAGIC_NUMBER_RECORD` (src/metadata.rs). -/
def MAGIC_NUMBER_RECORD : Nat := 0x0016547846040010

/-- The spec's claimed surfacing of the five TraceInfo data bytes: the
array read as a little-endian 40-bit integer.  Modelled from the spec's
words for comparison; the source (`TraceInfo::new`, src/metadata.rs)
instead reads the bytes big-endian. -/
def specTraceInfoDataLE (d0 d1 d2 d3 d4 : Nat) : Nat :=
  fromLeBytes [d0, d1, d2, d3, d4]

/-- `MetadataRecord::parse` (src/metadata.rs): the magic word is matched
verbatim before any subtype dispatch; only ProviderInfo reads a payload. -/
def MetadataRecord.parse (header : Nat) (s : List Nat) :
    Except FtfError (MetadataRecord × List Nat) :=
  if header = MAGIC_NUMBER_RECORD then .ok (.magicNumber, s)
  else
    match MetadataType.tryFrom (extract_bits header 16 19) with
    | .error e => .error e
    | .ok mt =>
      match mt with
      | .providerInfo =>
        match read_aligned_str (extract_bits header 52 59) s with
        | .error e => .error e
        | .ok (provider_name, s) =>
          .ok (.providerInfo ⟨extract_bits header 20 51, provider_name⟩, s)
      | .providerSection => .ok (.providerSection ⟨extract_bits header 20 51⟩, s)
      | .providerEvent =>
        .ok (.providerEvent ⟨extract_bits header 20 51, extract_bits header 52 55⟩, s)
      | .traceInfo =>
        .ok (.traceInfo ⟨extract_bits header 20 23, extract_bits header 24 63⟩, s)

/-- Bytes of `MetadataRecord::write` (src/metadata.rs). -/
def MetadataRecord.writeBytes : MetadataRecord → List Nat
  | .magicNumber => toLeBytes MAGIC_NUMBER_RECORD
  | .providerEvent e => e.writeBytes
  | .providerInfo e => e.writeBytes
  | .providerSection e => e.writeBytes
  | .traceInfo e => e.writeBytes

/-- Initialization record (src/initialization.rs `InitializationRecord`). -/
structure InitializationRecord where
  ticks_per_second : Nat
deriving DecidableEq, Repr

/-- `InitializationRecord::parse` (src/initialization.rs): the header is
ignored; the payload is one u64. -/
def InitializationRecord.parse (s : List Nat) :
    Except FtfError (InitializationRecord × List Nat) :=
  match read_u64_word s with
  | .error e => .error e
  | .ok (w, s) => .ok (⟨w⟩, s)

/-- Bytes of `InitializationRecord::write` (src/initialization.rs):
header of size 2 with no custom fields, then the tick rate. -/
def InitializationRecord.writeBytes (r : InitializationRecord) : List Nat :=
  toLeBytes (buildFields (4 + 12) [] (RecordType.initialization.toNat ||| 2 <<< 4)) ++
    toLeBytes r.ticks_per_second

/-- String-intern record (src/string_rec.rs `StringRecord`). -/
structure StringRecord where
  index : Nat
  value : List Nat
deriving DecidableEq, Repr

/-- `StringRecord::parse` (src/string_rec.rs): index from bits 16–30,
length from bits 32–46, then the aligned string. -/
def StringRecord.parse (header : Nat) (s : List Nat) :
    Except FtfError (StringRecord × List Nat) :=
  match read_aligned_str (extract_bits header 32 46) s with
  | .error e => .error e
  | .ok (value, s) => .ok (⟨extract_bits header 16 30, value⟩, s)

/-- Bytes of `StringRecord::write` (src/string_rec.rs): header with the
index (15 bits), a reserved zero bit, the length (15 bits); then the
padded string.  The size-in-words is truncated to u8 at the build call. -/
def StringRecord.writeBytes (r : StringRecord) : List Nat :=
  toLeBytes (buildFields (4 + 12)
    [⟨15, r.index⟩, ⟨1, 0⟩, ⟨15, r.value.length⟩]
    (RecordType.string.toNat |||
      ((1 + (r.value.length + 7) / 8) % 256) <<< 4)) ++
    padStringBytes r.value

/-- Thread-intern record (src/thread_rec.rs `ThreadRecord`). -/
structure ThreadRecord where
  index : Nat
  process_koid : Nat
  thread_koid : Nat
deriving DecidableEq, Repr

/-- `ThreadRecord::parse` (src/thread_rec.rs): index from bits 16–23, then
two koid words. -/
def ThreadRecord.parse (header : Nat) (s : List Nat) :
    Except FtfError (ThreadRecord × List Nat) :=
  match read_u64_word s with
  | .error e => .error e
  | .ok (process_koid, s) =>
    match read_u64_word s with
    | .error e => .error e
    | .ok (thread_koid, s) =>
      .ok (⟨extract_bits header 16 23, process_koid, thread_koid⟩, s)

/-- Bytes of `ThreadRecord::write` (src/thread_rec.rs): header of size 3
with the index, then the two koids. -/
def ThreadRecord.writeBytes (r : ThreadRecord) : List Nat :=
  toLeBytes (buildFields (4 + 12) [⟨8, r.index⟩]
    (RecordType.thread.toNat ||| 3 <<< 4)) ++
    toLeBytes r.process_koid ++ toLeBytes r.thread_koid

/-- Top-level record (src/lib.rs `Record`). -/
inductive Record where
  | metadata (r : MetadataRecord) : Record
  | initialization (r : InitializationRecord) : Record
  | string (r : StringRecord) : Record
  | thread (r : ThreadRecord) : Record
  | event (r : EventRecord) : Record
  | blob | userspace | kernel | scheduling | log | largeBlob
deriving DecidableEq, Repr

/-- `Record::read` (src/lib.rs): read the header word, decode the type tag,
dispatch; the blob family is recognized but unsupported. -/
def Record.read (s : List Nat) : Except FtfError (Record × List Nat) :=
  match read_u64_word s with
  | .error e => .error e
  | .ok (header, s) =>
    match RecordType.tryFrom (extract_bits header 0 3) with
    | .error e => .error e
    | .ok record_type =>
      match record_type with
      | .metadata =>
        match MetadataRecord.parse header s with
        | .error e => .error e
        | .ok (r, s) => .ok (.metadata r, s)
      | .initialization =>
        match InitializationRecord.parse s with
        | .error e => .error e
        | .ok (r, s) => .ok (.initialization r, s)
      | .string =>
        match StringRecord.parse header s with
        | .error e => .error e
        | .ok (r, s) => .ok (.string r, s)
      | .thread =>
        match ThreadRecord.parse header s with
        | .error e => .error e
        | .ok (r, s) => .ok (.thread r, s)
      | .event =>
        match EventRecord.parse header s with
        | .error e => .error e
        | .ok (r, s) => .ok (.event r, s)
      | t => .error (.unsupportedRecordType t)

/-- `Record::write` (src/lib.rs): dispatch to the variant writer; the blob
family is unimplemented. -/
def Record.write : Record → Except FtfError (List Nat)
  | .metadata r => .ok r.writeBytes
  | .initialization r => .ok r.writeBytes
  | .string r => .ok r.writeBytes
  | .thread r => .ok r.writeBytes
  | .event r => r.write
  | _ => .error (.unimplemented "Write")

/-- Loop of `Archive::read` (src/lib.rs) with explicit fuel: accumulate
records until `Record::read` fails; `UnexpectedEof` ends iteration
normally, any other error propagates.  Each successful `Record::read`
consumes at least the 8 header bytes, so fuel `s.length + 1` (used by
`Archive.read`) never runs out before the stream does. -/
def Archive.readLoop : Nat → List Record → List Nat → Except FtfError (List Record)
  | 0, acc, _ => .ok acc.reverse
  | fuel + 1, acc, s =>
    match Record.read s with
    | .ok (r, s') => Archive.readLoop fuel (r :: acc) s'
    | .error .ioUnexpectedEof => .ok acc.reverse
    | .error e => .error e

/-- `Archive::read` (src/lib.rs): read records until end of stream. -/
def Archive.read (s : List Nat) : Except FtfError (List Record) :=
  Archive.readLoop (s.length + 1) [] s

/-- `Archive::write` (src/lib.rs): write each record in order; the first
error aborts. -/
def Archive.write : List Record → Except FtfError (List Nat)
  | [] => .ok []
  | r :: rs =>
    match Record.write r with
    | .error e => .error e
    | .ok bs =>
      match Archive.write rs with
      | .error e => .error e
      | .ok bs' => .ok (bs ++ bs')

/-- `Record::create_instant_event` (src/lib.rs) /
`EventRecord::create_instant` (src/event.rs). -/
def Record.create_instant_event (timestamp : Nat) (thread : ThreadRef)
    (category name : StringRef) (arguments : List Argument) : Record :=
  .event (.instant ⟨⟨timestamp, thread, category, name, arguments⟩⟩)

/-- `Record::create_counter_event` (src/lib.rs). -/
def Record.create_counter_event (timestamp : Nat) (thread : ThreadRef)
    (category name : StringRef) (arguments : List Argument)
    (counter_id : Nat) : Record :=
  .event (.counter ⟨⟨timestamp, thread, category, name, arguments⟩, counter_id⟩)

/-- `Record::create_trace_info` (src/lib.rs). -/
def Record.create_trace_info (trace_info_type d0 d1 d2 d3 d4 : Nat) : Record :=
  .metadata (.traceInfo (TraceInfo.new trace_info_type d0 d1 d2 d3 d4))

/-- `Record::create_magic_number` (src/lib.rs). -/
def Record.create_magic_number : Record := .metadata .magicNumber

/-! ## Basic byte-level lemmas -/

theorem toLeBytes_length (v : Nat) : (toLeBytes v).length = 8 := rfl

theorem fromLeBytes_toLeBytes {v : Nat} (h : v < 2 ^ 64) :
    fromLeBytes (toLeBytes v) = v := by
  simp only [toLeBytes, fromLeBytes, List.foldr]
  omega

theorem take_app {α} (l t : List α) : (l ++ t).take l.length = l := by
  simp

theorem drop_app {α} (l t : List α) : (l ++ t).drop l.length = t := by
  simp

theorem read_u64_word_app {v : Nat} (t : List Nat) (h : v < 2 ^ 64) :
    read_u64_word (toLeBytes v ++ t) = .ok (v, t) := by
  have hlen : (toLeBytes v ++ t).length = 8 + t.length := by
    simp [toLeBytes_length]
  have htake : (toLeBytes v ++ t).take 8 = toLeBytes v := by
    have := take_app (toLeBytes v) t
    rwa [toLeBytes_length] at this
  have hdrop : (toLeBytes v ++ t).drop 8 = t := by
    have := drop_app (toLeBytes v) t
    rwa [toLeBytes_length] at this
  simp [read_u64_word, hlen, htake, hdrop, fromLeBytes_toLeBytes h]

/-! ## Disjoint OR is addition -/

theorem lor_shift_eq_add {a : Nat} (b k : Nat) (h : a < 2 ^ k) :
    a ||| b <<< k = a + b * 2 ^ k := by
  rw [Nat.shiftLeft_eq, Nat.lor_comm, Nat.mul_comm b (2 ^ k),
    ← Nat.mul_add_lt_is_or h b]
  omega

/-! ## Additive characterization of `buildFields` -/

/-- Total width of a custom field list. -/
def sumWidths : List CustomField → Nat
  | [] => 0
  | f :: rest => f.width + sumWidths rest

/-- Width-masked fields packed consecutively, least-significant first. -/
def packF : List CustomField → Nat
  | [] => 0
  | f :: rest => mask_length f.value f.width + 2 ^ f.width * packF rest

theorem packF_lt (fields : List CustomField) :
    packF fields < 2 ^ sumWidths fields := by
  induction fields with
  | nil => simp [packF, sumWidths]
  | cons f rest ih =>
    simp only [packF, sumWidths]
    have hm : mask_length f.value f.width < 2 ^ f.width := by
      simpa [mask_length] using Nat.mod_lt _ (Nat.pos_pow_of_pos _ (by norm_num))
    calc mask_length f.value f.width + 2 ^ f.width * packF rest
        < 2 ^ f.width * (packF rest + 1) := by rw [Nat.mul_succ]; omega
      _ ≤ 2 ^ f.width * 2 ^ sumWidths rest := mul_le_mul_left' (by omega) _
      _ = 2 ^ (f.width + sumWidths rest) := by rw [pow_add]

theorem packF_append (xs ys : List CustomField) :
    packF (xs ++ ys) = packF xs + 2 ^ sumWidths xs * packF ys := by
  induction xs with
  | nil => simp [packF, sumWidths]
  | cons f rest ih =>
    simp only [List.cons_append, packF, sumWidths, List.append_eq, ih, pow_add]
    ring

theorem buildFields_eq_add (fields : List CustomField) :
    ∀ off res, res < 2 ^ off → off + sumWidths fields ≤ 64 →
      buildFields off fields res = res + 2 ^ off * packF fields := by
  induction fields with
  | nil => intro off res _ _; simp [buildFields, packF]
  | cons f rest ih =>
    intro off res hres hfit
    simp only [buildFields, sumWidths] at hfit ⊢
    have hm : mask_length f.value f.width < 2 ^ f.width := by
      simpa [mask_length] using Nat.mod_lt _ (Nat.pos_pow_of_pos _ (by norm_num))
    have hshift : mask_length f.value f.width <<< off % 2 ^ 64 =
        mask_length f.value f.width <<< off := by
      apply Nat.mod_eq_of_lt
      rw [Nat.shiftLeft_eq]
      calc mask_length f.value f.width * 2 ^ off
          < 2 ^ f.width * 2 ^ off :=
            mul_lt_mul_of_pos_right hm (Nat.pos_pow_of_pos _ (by norm_num))
        _ = 2 ^ (f.width + off) := by rw [pow_add]
        _ ≤ 2 ^ 64 := Nat.pow_le_pow_right (by norm_num) (by omega)
    have hoff : (off + f.width) % 256 = off + f.width := by
      apply Nat.mod_eq_of_lt; omega
    rw [hshift, hoff, lor_shift_eq_add _ _ hres]
    have hres' : res + mask_length f.value f.width * 2 ^ off < 2 ^ (off + f.width) := by
      have h2 : (mask_length f.value f.width + 1) * 2 ^ off ≤
          2 ^ f.width * 2 ^ off := mul_le_mul_right' (by omega) _
      rw [add_mul, one_mul] at h2
      have h3 : 2 ^ f.width * 2 ^ off = 2 ^ (off + f.width) := by
        rw [← pow_add, Nat.add_comm]
      omega
    rw [ih (off + f.width) _ hres' (by omega)]
    rw [packF]
    have h2 : 2 ^ (off + f.width) = 2 ^ off * 2 ^ f.width := by rw [pow_add]
    rw [h2]
    ring

/-! ## Extraction from additively packed words -/

theorem extract_mid (A m B i w : Nat) (hA : A < 2 ^ i) (hm : m < 2 ^ w)
    (hw : 1 ≤ w) :
    extract_bits (A + 2 ^ i * (m + 2 ^ w * B)) i (i + w - 1) = m := by
  have hj : i + w - 1 - i + 1 = w := by omega
  simp only [extract_bits, hj]
  have hdiv : (A + 2 ^ i * (m + 2 ^ w * B)) / 2 ^ i = m + 2 ^ w * B := by
    rw [Nat.add_mul_div_left _ _ (Nat.pos_pow_of_pos _ (by norm_num))]
    rw [Nat.div_eq_of_lt hA]
    omega
  rw [hdiv, Nat.add_mul_mod_self_left, Nat.mod_eq_of_lt hm]

theorem RecordType.rt_toNat_lt (t : RecordType) : t.toNat < 2 ^ 4 := by
  cases t <;> simp [RecordType.toNat]

/-- Closed additive form of a built header when the fields fit the word. -/
theorem build_val (T : RecordType) (S : Nat) (F : List CustomField)
    (hS : S < 256) (hfit : 16 + sumWidths F ≤ 64) :
    RecordHeader.build T S F =
      .ok ⟨T.toNat + 2 ^ 4 * (S + 2 ^ 12 * packF F)⟩ := by
  have hT := RecordType.rt_toNat_lt T
  have hbase : T.toNat ||| S <<< 4 = T.toNat + S * 2 ^ 4 :=
    lor_shift_eq_add S 4 hT
  have hbase_lt : T.toNat + S * 2 ^ 4 < 2 ^ 16 := by norm_num at hT ⊢; omega
  simp only [RecordHeader.build, hbase]
  rw [buildFields_eq_add F 16 _ hbase_lt hfit]
  norm_num
  ring

/-- Extraction of the size bits (4–15) from the additive header form. -/
theorem extract_size (T : RecordType) (S P : Nat) (hS : S < 2 ^ 12) :
    extract_bits (T.toNat + 2 ^ 4 * (S + 2 ^ 12 * P)) 4 15 = S := by
  have := extract_mid T.toNat S P 4 12 (RecordType.rt_toNat_lt T) hS (by norm_num)
  simpa using this

/-- Extraction of the record-type bits (0–3) from the additive form. -/
theorem extract_rt (T : RecordType) (S P : Nat) :
    extract_bits (T.toNat + 2 ^ 4 * (S + 2 ^ 12 * P)) 0 3 = T.toNat := by
  have := extract_mid 0 T.toNat (S + 2 ^ 12 * P) 0 4
    (by norm_num) (RecordType.rt_toNat_lt T) (by norm_num)
  simpa using this

theorem RecordType.rt_tryFrom_toNat (t : RecordType) :
    RecordType.tryFrom t.toNat = .ok t := by
  cases t <;> rfl

theorem EventType.et_tryFrom_toNat (t : EventType) :
    EventType.tryFrom t.toNat = .ok t := by
  cases t <;> rfl

theorem ArgumentType.at_tryFrom_toNat (t : ArgumentType) :
    ArgumentType.tryFrom t.toNat = .ok t := by
  cases t <;> rfl

theorem MetadataType.mt_tryFrom_toNat (t : MetadataType) :
    MetadataType.tryFrom t.toNat = .ok t := by
  cases t <;> rfl

/-! ## Validity of in-memory records (representability bounds)

These collect the conditions under which the bit fields of the wire format
can carry a record exactly: type-level bounds the Rust types give for free
(u32/u64 ranges), declared-width bounds the codec masks to (string refs and
lengths to 15 bits, thread refs to 8 bits, argument counts to 4 bits,
sizes-in-words to the u8 the writers cast through), the reserved 0 thread
ref (decoded as an inline thread), UTF-8 validity of strings, and the
hard-coded one-word size accounting of inline string argument values. -/

def StringRef.validB : StringRef → Bool
  | .inline s => decide (s.length ≤ 0x7FFF) && utf8Valid s
  | .ref r => decide (r ≤ 0x7FFF)

def ThreadRef.validB : ThreadRef → Bool
  | .inline p k => decide (p < 2 ^ 64) && decide (k < 2 ^ 64)
  | .ref r => decide (1 ≤ r) && decide (r ≤ 255)

def Argument.validB : Argument → Bool
  | .null n => n.validB
  | .int32 n v => n.validB && decide (-(2 ^ 31) ≤ v) && decide (v < 2 ^ 31)
  | .uint32 n v => n.validB && decide (v < 2 ^ 32)
  | .int64 n v => n.validB && decide (-(2 ^ 63) ≤ v) && decide (v < 2 ^ 63)
  | .uint64 n v => n.validB && decide (v < 2 ^ 64)
  | .float n b => n.validB && decide (b < 2 ^ 64)
  | .str n v => n.validB && v.validB &&
      (match v with
       | .inline s => decide (1 ≤ s.length) && decide (s.length ≤ 8)
       | .ref _ => true)
  | .pointer n v => n.validB && decide (v < 2 ^ 64)
  | .kernelObjectId n v => n.validB && decide (v < 2 ^ 64)
  | .boolean n _ => n.validB

/-- Exact (un-truncated) payload word count of a string reference. -/
def StringRef.trueWords : StringRef → Nat
  | .ref _ => 0
  | .inline s => (s.length + 7) / 8

/-- Exact word count of an encoded argument. -/
def Argument.trueWords (a : Argument) : Nat :=
  a.name.trueWords +
    match a with
    | .null _ | .int32 _ _ | .uint32 _ _ | .boolean _ _ => 1
    | .int64 _ _ | .uint64 _ _ | .pointer _ _ | .kernelObjectId _ _
    | .float _ _ => 2
    | .str _ s => if s.isInline then 2 else 1

/-- Exact word count of an encoded event record (header + timestamp +
inline thread + inline strings + arguments + optional trailing word). -/
def Event.trueWords (e : Event) (hasExtra : Bool) : Nat :=
  2 + e.thread.inlineWords + e.category.trueWords + e.name.trueWords +
    (e.arguments.map Argument.trueWords).sum + (if hasExtra then 1 else 0)

def Event.validB (e : Event) : Bool :=
  decide (e.timestamp < 2 ^ 64) && e.thread.validB && e.category.validB &&
    e.name.validB && decide (e.arguments.length ≤ 15) &&
    e.arguments.all Argument.validB

def EventRecord.validB : EventRecord → Bool
  | .instant ⟨e⟩ => e.validB && decide (e.trueWords false ≤ 255)
  | .counter ⟨e, cid⟩ => e.validB && decide (cid < 2 ^ 64) &&
      decide (e.trueWords true ≤ 255)
  | .durationBegin ⟨e⟩ => e.validB && decide (e.trueWords false ≤ 255)
  | .durationEnd ⟨e⟩ => e.validB && decide (e.trueWords false ≤ 255)
  | .durationComplete ⟨e, ts⟩ => e.validB && decide (ts < 2 ^ 64) &&
      decide (e.trueWords true ≤ 255)
  | _ => false

def MetadataRecord.validB : MetadataRecord → Bool
  | .magicNumber => true
  | .traceInfo ⟨t, d⟩ => decide (t < 16) && decide (d < 2 ^ 40) &&
      !(decide (t = 0) && decide (d = 0x16547846))
  | .providerInfo ⟨id, name⟩ => decide (id < 2 ^ 32) &&
      decide (name.length ≤ 255) && utf8Valid name
  | .providerSection ⟨id⟩ => decide (id < 2 ^ 32)
  | .providerEvent ⟨id, ev⟩ => decide (id < 2 ^ 32) && decide (ev < 16)

def Record.validB : Record → Bool
  | .metadata m => m.validB
  | .initialization i => decide (i.ticks_per_second < 2 ^ 64)
  | .string r => decide (r.index ≤ 0x7FFF) && decide (r.value.length ≤ 0x7FFF) &&
      utf8Valid r.value && decide (1 + (r.value.length + 7) / 8 ≤ 255)
  | .thread r => decide (r.index < 256) && decide (r.process_koid < 2 ^ 64) &&
      decide (r.thread_koid < 2 ^ 64)
  | .event er => er.validB
  | _ => false

/-! ## String-field encoding lemmas -/

theorem padStringBytes_length (s : List Nat) :
    (padStringBytes s).length = (s.length + 7) / 8 * 8 := by
  unfold padStringBytes
  split
  · omega
  · simp only [List.length_append, List.length_replicate]
    omega

theorem read_aligned_str_round {s : List Nat} (t : List Nat)
    (hu : utf8Valid s = true) :
    read_aligned_str s.length (padStringBytes s ++ t) = .ok (s, t) := by
  have hplen : (padStringBytes s).length = (s.length + 7) / 8 * 8 :=
    padStringBytes_length s
  have htake : (padStringBytes s ++ t).take ((s.length + 7) / 8 * 8) =
      padStringBytes s := by
    have := take_app (padStringBytes s) t
    rwa [hplen] at this
  have hdrop : (padStringBytes s ++ t).drop ((s.length + 7) / 8 * 8) = t := by
    have := drop_app (padStringBytes s) t
    rwa [hplen] at this
  have hlen : ¬ (padStringBytes s ++ t).length < (s.length + 7) / 8 * 8 := by
    simp [List.length_append, hplen]
  unfold read_aligned_str
  simp only [hlen, if_false, htake, hdrop]
  by_cases h8 : s.length % 8 = 0
  · have hpad : padStringBytes s = s := by unfold padStringBytes; simp [h8]
    simp [h8, hpad, hu]
  · have hpad : padStringBytes s = s ++ List.replicate (8 - s.length % 8) 0 := by
      unfold padStringBytes; simp [h8]
    have htk : (padStringBytes s).take s.length = s := by
      rw [hpad]
      have h1 : s.length ≤ s.length := le_refl _
      simp [List.take_append_of_le_length h1]
    simp [h8, htk, hu]

theorem StringRef.to_field_ref {r : Nat} (h : r ≤ 0x7FFF) :
    (StringRef.ref r).to_field = r := by
  simp only [StringRef.to_field]
  exact Nat.mod_eq_of_lt (by omega)

theorem StringRef.to_field_inline {s : List Nat} (h : s.length ≤ 0x7FFF) :
    (StringRef.inline s).to_field = s.length + 0x8000 := by
  have h2 := lor_shift_eq_add (a := s.length) 1 15 (by norm_num; omega)
  rw [Nat.shiftLeft_eq] at h2
  simp only [StringRef.to_field, Nat.mod_eq_of_lt (show s.length < 2 ^ 16 by norm_num; omega)]
  norm_num at h2 ⊢
  exact h2

theorem StringRef.to_field_lt (x : StringRef) : x.to_field < 2 ^ 16 := by
  cases x with
  | ref r =>
    simp only [StringRef.to_field]
    have : r % 2 ^ 15 < 2 ^ 15 := Nat.mod_lt _ (by norm_num)
    norm_num at this ⊢
    omega
  | inline s =>
    simp only [StringRef.to_field]
    exact Nat.or_lt_two_pow (Nat.mod_lt _ (by norm_num)) (by norm_num)

theorem StringRef.field_is_ref_iff {f : Nat} (h : f < 2 ^ 16) :
    StringRef.field_is_ref f = decide (f < 2 ^ 15) := by
  have h1 := Nat.and_two_pow f 15
  have h2 : f.testBit 15 = decide (f / 2 ^ 15 % 2 = 1) := Nat.testBit_to_div_mod
  simp only [StringRef.field_is_ref]
  norm_num at h1 h2 ⊢
  rw [h1, h2]
  by_cases hc : f < 32768
  · have hd : f / 32768 = 0 := Nat.div_eq_of_lt hc
    simp [hd, hc]
  · have hd : f / 32768 = 1 := by omega
    simp [hd, hc]

theorem decodeStrFieldArg_round {n : StringRef} (t : List Nat)
    (hv : n.validB = true) :
    decodeStrFieldArg n.to_field (n.payloadBytes ++ t) = .ok (n, t) := by
  cases n with
  | ref r =>
    simp only [StringRef.validB, decide_eq_true_eq] at hv
    have hf : (StringRef.ref r).to_field = r := StringRef.to_field_ref hv
    have hr : StringRef.field_is_ref r = true := by
      rw [StringRef.field_is_ref_iff (by norm_num; omega)]
      norm_num; omega
    simp [decodeStrFieldArg, hf, hr, StringRef.payloadBytes]
  | inline s =>
    simp only [StringRef.validB, Bool.and_eq_true, decide_eq_true_eq] at hv
    obtain ⟨hlen, hu⟩ := hv
    have hf : (StringRef.inline s).to_field = s.length + 0x8000 :=
      StringRef.to_field_inline hlen
    have hr : StringRef.field_is_ref (s.length + 0x8000) = false := by
      rw [StringRef.field_is_ref_iff (by norm_num; omega)]
      norm_num
    have hm : mask_length (s.length + 0x8000) 15 = s.length := by
      simp only [mask_length]
      omega
    simp only [decodeStrFieldArg, hf, hr, Bool.false_eq_true, if_false, hm,
      StringRef.payloadBytes, read_aligned_str_round t hu]

/-! ## Argument header lemmas -/

theorem pad_to_multiple_eq (s : List Nat) :
    pad_to_multiple_of_8 s = padStringBytes s := rfl

theorem ArgumentType.at_toNat_lt (t : ArgumentType) : t.toNat < 2 ^ 4 := by
  cases t <;> simp [ArgumentType.toNat]

theorem Argument.enc_lt (a : Argument) : a.encoding_num_words < 256 := by
  unfold Argument.encoding_num_words
  exact Nat.mod_lt _ (by norm_num)

theorem hdr4_lt {ty nw nf data : Nat} (h1 : ty < 2 ^ 4) (h2 : nw < 2 ^ 12)
    (h3 : nf < 2 ^ 16) (h4 : data < 2 ^ 32) :
    ty + nw * 2 ^ 4 + nf * 2 ^ 16 + data * 2 ^ 32 < 2 ^ 64 := by
  norm_num at *
  omega

theorem hdr4_e0 {ty nw nf data : Nat} (h1 : ty < 2 ^ 4) :
    extract_bits (ty + nw * 2 ^ 4 + nf * 2 ^ 16 + data * 2 ^ 32) 0 3 = ty := by
  have hre : ty + nw * 2 ^ 4 + nf * 2 ^ 16 + data * 2 ^ 32 =
      0 + 2 ^ 0 * (ty + 2 ^ 4 * (nw + 2 ^ 12 * (nf + 2 ^ 16 * data))) := by ring
  rw [hre]
  have := extract_mid 0 ty (nw + 2 ^ 12 * (nf + 2 ^ 16 * data)) 0 4
    (by norm_num) h1 (by norm_num)
  simpa using this

theorem hdr4_e16 {ty nw nf data : Nat} (h1 : ty < 2 ^ 4) (h2 : nw < 2 ^ 12)
    (h3 : nf < 2 ^ 16) :
    extract_bits (ty + nw * 2 ^ 4 + nf * 2 ^ 16 + data * 2 ^ 32) 16 31 = nf := by
  have hre : ty + nw * 2 ^ 4 + nf * 2 ^ 16 + data * 2 ^ 32 =
      (ty + nw * 2 ^ 4) + 2 ^ 16 * (nf + 2 ^ 16 * data) := by ring
  rw [hre]
  have hA : ty + nw * 2 ^ 4 < 2 ^ 16 := by norm_num at *; omega
  have := extract_mid (ty + nw * 2 ^ 4) nf data 16 16 hA h3 (by norm_num)
  simpa using this

theorem hdr4_e32 {ty nw nf data : Nat} (h1 : ty < 2 ^ 4) (h2 : nw < 2 ^ 12)
    (h3 : nf < 2 ^ 16) (h4 : data < 2 ^ 32) :
    extract_bits (ty + nw * 2 ^ 4 + nf * 2 ^ 16 + data * 2 ^ 32) 32 63 = data := by
  have hre : ty + nw * 2 ^ 4 + nf * 2 ^ 16 + data * 2 ^ 32 =
      (ty + nw * 2 ^ 4 + nf * 2 ^ 16) + 2 ^ 32 * (data + 2 ^ 32 * 0) := by ring
  rw [hre]
  have hA : ty + nw * 2 ^ 4 + nf * 2 ^ 16 < 2 ^ 32 := by norm_num at *; omega
  have := extract_mid (ty + nw * 2 ^ 4 + nf * 2 ^ 16) data 0 32 32 hA h4 (by norm_num)
  simpa using this

theorem hdr4_e32_16 {ty nw nf data : Nat} (h1 : ty < 2 ^ 4) (h2 : nw < 2 ^ 12)
    (h3 : nf < 2 ^ 16) (h4 : data < 2 ^ 16) :
    extract_bits (ty + nw * 2 ^ 4 + nf * 2 ^ 16 + data * 2 ^ 32) 32 47 = data := by
  have hre : ty + nw * 2 ^ 4 + nf * 2 ^ 16 + data * 2 ^ 32 =
      (ty + nw * 2 ^ 4 + nf * 2 ^ 16) + 2 ^ 32 * (data + 2 ^ 16 * 0) := by ring
  rw [hre]
  have hA : ty + nw * 2 ^ 4 + nf * 2 ^ 16 < 2 ^ 32 := by norm_num at *; omega
  have := extract_mid (ty + nw * 2 ^ 4 + nf * 2 ^ 16) data 0 32 16 hA h4 (by norm_num)
  simpa using this

theorem hdr4_e32_1 {ty nw nf data : Nat} (h1 : ty < 2 ^ 4) (h2 : nw < 2 ^ 12)
    (h3 : nf < 2 ^ 16) (h4 : data < 2) :
    extract_bits (ty + nw * 2 ^ 4 + nf * 2 ^ 16 + data * 2 ^ 32) 32 32 = data := by
  have hre : ty + nw * 2 ^ 4 + nf * 2 ^ 16 + data * 2 ^ 32 =
      (ty + nw * 2 ^ 4 + nf * 2 ^ 16) + 2 ^ 32 * (data + 2 ^ 1 * 0) := by ring
  rw [hre]
  have hA : ty + nw * 2 ^ 4 + nf * 2 ^ 16 < 2 ^ 32 := by norm_num at *; omega
  have := extract_mid (ty + nw * 2 ^ 4 + nf * 2 ^ 16) data 0 32 1 hA h4 (by norm_num)
  simpa using this

theorem create_header_val (ty : ArgumentType) (n : StringRef) (nw data : Nat)
    (hnw : nw < 2 ^ 12) :
    Argument.create_header ty n nw data =
      ty.toNat + nw * 2 ^ 4 + n.to_field * 2 ^ 16 + data * 2 ^ 32 := by
  unfold Argument.create_header
  have h1 := ArgumentType.at_toNat_lt ty
  have h3 := StringRef.to_field_lt n
  rw [lor_shift_eq_add nw 4 h1]
  rw [lor_shift_eq_add n.to_field 16 (by norm_num at h1 hnw ⊢; omega)]
  rw [lor_shift_eq_add data 32 (by norm_num at h1 hnw h3 ⊢; omega)]


/-! ## Argument round-trip -/

theorem u64OfI64_lt (v : Int) : u64OfI64 v < 2 ^ 64 := by
  unfold u64OfI64; omega

theorem i64FromBits_u64OfI64 {v : Int} (h1 : -(2 ^ 63) ≤ v) (h2 : v < 2 ^ 63) :
    i64FromBits (u64OfI64 v) = v := by
  unfold i64FromBits u64OfI64
  split <;> omega

theorem u32OfI32_lt (v : Int) : u32OfI32 v < 2 ^ 32 := by
  unfold u32OfI32; omega

theorem i32FromBits_u32OfI32 {v : Int} (h1 : -(2 ^ 31) ≤ v) (h2 : v < 2 ^ 31) :
    i32FromBits (u32OfI32 v) = v := by
  unfold i32FromBits u32OfI32
  split <;> omega

theorem Argument.arg_read_write (a : Argument) (t : List Nat) (hv : a.validB = true) :
    Argument.read (a.writeBytes ++ t) = .ok (a, t) := by
  cases a with
  | null n =>
    have hnv : n.validB = true := by simpa [Argument.validB] using hv
    have hnw : (Argument.null n).encoding_num_words < 2 ^ 12 := by
      have := Argument.enc_lt (.null n); norm_num at this ⊢; omega
    have h1 := ArgumentType.at_toNat_lt ArgumentType.null
    have h3 := StringRef.to_field_lt n
    have hH := create_header_val .null n (Argument.null n).encoding_num_words 0 hnw
    have hHlt := @hdr4_lt _ _ _ 0 h1 hnw h3 (by norm_num)
    simp only [Argument.writeBytes, Argument.headerAndNameBytes, Argument.arg_type,
      Argument.name, hH, List.append_assoc]
    simp only [Argument.read, read_u64_word_app _ hHlt]
    simp only [hdr4_e0 h1, ArgumentType.at_tryFrom_toNat]
    simp only [hdr4_e16 h1 hnw h3, decodeStrFieldArg_round _ hnv]
  | int32 n v =>
    have hnv : n.validB = true := by
      simp only [Argument.validB, Bool.and_eq_true] at hv; exact hv.1.1
    have hvb : -(2 ^ 31) ≤ v ∧ v < 2 ^ 31 := by
      simp only [Argument.validB, Bool.and_eq_true, decide_eq_true_eq] at hv
      exact ⟨hv.1.2, hv.2⟩
    have hnw : (Argument.int32 n v).encoding_num_words < 2 ^ 12 := by
      have := Argument.enc_lt (.int32 n v); norm_num at this ⊢; omega
    have h1 := ArgumentType.at_toNat_lt ArgumentType.int32
    have h3 := StringRef.to_field_lt n
    have hd := u32OfI32_lt v
    have hH := create_header_val .int32 n (Argument.int32 n v).encoding_num_words
      (u32OfI32 v) hnw
    have hHlt := hdr4_lt h1 hnw h3 hd
    simp only [Argument.writeBytes, Argument.headerAndNameBytes, Argument.arg_type,
      Argument.name, hH, List.append_assoc]
    simp only [Argument.read, read_u64_word_app _ hHlt]
    simp only [hdr4_e0 h1, ArgumentType.at_tryFrom_toNat]
    simp only [hdr4_e16 h1 hnw h3, decodeStrFieldArg_round _ hnv]
    simp only [hdr4_e32 h1 hnw h3 hd, i32FromBits_u32OfI32 hvb.1 hvb.2]
  | uint32 n v =>
    have hnv : n.validB = true := by
      simp only [Argument.validB, Bool.and_eq_true] at hv; exact hv.1
    have hd : v < 2 ^ 32 := by
      simp only [Argument.validB, Bool.and_eq_true, decide_eq_true_eq] at hv
      exact hv.2
    have hnw : (Argument.uint32 n v).encoding_num_words < 2 ^ 12 := by
      have := Argument.enc_lt (.uint32 n v); norm_num at this ⊢; omega
    have h1 := ArgumentType.at_toNat_lt ArgumentType.uint32
    have h3 := StringRef.to_field_lt n
    have hH := create_header_val .uint32 n (Argument.uint32 n v).encoding_num_words v hnw
    have hHlt := hdr4_lt h1 hnw h3 hd
    simp only [Argument.writeBytes, Argument.headerAndNameBytes, Argument.arg_type,
      Argument.name, hH, List.append_assoc]
    simp only [Argument.read, read_u64_word_app _ hHlt]
    simp only [hdr4_e0 h1, ArgumentType.at_tryFrom_toNat]
    simp only [hdr4_e16 h1 hnw h3, decodeStrFieldArg_round _ hnv]
    simp only [hdr4_e32 h1 hnw h3 hd]
  | int64 n v =>
    have hnv : n.validB = true := by
      simp only [Argument.validB, Bool.and_eq_true] at hv; exact hv.1.1
    have hvb : -(2 ^ 63) ≤ v ∧ v < 2 ^ 63 := by
      simp only [Argument.validB, Bool.and_eq_true, decide_eq_true_eq] at hv
      exact ⟨hv.1.2, hv.2⟩
    have hnw : (Argument.int64 n v).encoding_num_words < 2 ^ 12 := by
      have := Argument.enc_lt (.int64 n v); norm_num at this ⊢; omega
    have h1 := ArgumentType.at_toNat_lt ArgumentType.int64
    have h3 := StringRef.to_field_lt n
    have hH := create_header_val .int64 n (Argument.int64 n v).encoding_num_words 0 hnw
    have hHlt := @hdr4_lt _ _ _ 0 h1 hnw h3 (by norm_num)
    simp only [Argument.writeBytes, Argument.headerAndNameBytes, Argument.arg_type,
      Argument.name, hH, List.append_assoc]
    simp only [Argument.read, read_u64_word_app _ hHlt]
    simp only [hdr4_e0 h1, ArgumentType.at_tryFrom_toNat]
    simp only [hdr4_e16 h1 hnw h3, decodeStrFieldArg_round _ hnv]
    simp only [read_u64_word_app _ (u64OfI64_lt v), i64FromBits_u64OfI64 hvb.1 hvb.2]
  | uint64 n v =>
    have hnv : n.validB = true := by
      simp only [Argument.validB, Bool.and_eq_true] at hv; exact hv.1
    have hd : v < 2 ^ 64 := by
      simp only [Argument.validB, Bool.and_eq_true, decide_eq_true_eq] at hv
      exact hv.2
    have hnw : (Argument.uint64 n v).encoding_num_words < 2 ^ 12 := by
      have := Argument.enc_lt (.uint64 n v); norm_num at this ⊢; omega
    have h1 := ArgumentType.at_toNat_lt ArgumentType.uint64
    have h3 := StringRef.to_field_lt n
    have hH := create_header_val .uint64 n (Argument.uint64 n v).encoding_num_words 0 hnw
    have hHlt := @hdr4_lt _ _ _ 0 h1 hnw h3 (by norm_num)
    simp only [Argument.writeBytes, Argument.headerAndNameBytes, Argument.arg_type,
      Argument.name, hH, List.append_assoc]
    simp only [Argument.read, read_u64_word_app _ hHlt]
    simp only [hdr4_e0 h1, ArgumentType.at_tryFrom_toNat]
    simp only [hdr4_e16 h1 hnw h3, decodeStrFieldArg_round _ hnv]
    simp only [read_u64_word_app _ hd]
  | float n b =>
    have hnv : n.validB = true := by
      simp only [Argument.validB, Bool.and_eq_true] at hv; exact hv.1
    have hd : b < 2 ^ 64 := by
      simp only [Argument.validB, Bool.and_eq_true, decide_eq_true_eq] at hv
      exact hv.2
    have hnw : (Argument.float n b).encoding_num_words < 2 ^ 12 := by
      have := Argument.enc_lt (.float n b); norm_num at this ⊢; omega
    have h1 := ArgumentType.at_toNat_lt ArgumentType.float
    have h3 := StringRef.to_field_lt n
    have hH := create_header_val .float n (Argument.float n b).encoding_num_words 0 hnw
    have hHlt := @hdr4_lt _ _ _ 0 h1 hnw h3 (by norm_num)
    simp only [Argument.writeBytes, Argument.headerAndNameBytes, Argument.arg_type,
      Argument.name, hH, List.append_assoc]
    simp only [Argument.read, read_u64_word_app _ hHlt]
    simp only [hdr4_e0 h1, ArgumentType.at_tryFrom_toNat]
    simp only [hdr4_e16 h1 hnw h3, decodeStrFieldArg_round _ hnv]
    simp only [read_u64_word_app _ hd]
  | str n v =>
    have hnv : n.validB = true := by
      simp only [Argument.validB, Bool.and_eq_true] at hv; exact hv.1.1
    have hvv : v.validB = true := by
      simp only [Argument.validB, Bool.and_eq_true] at hv; exact hv.1.2
    have hnw : (Argument.str n v).encoding_num_words < 2 ^ 12 := by
      have := Argument.enc_lt (.str n v); norm_num at this ⊢; omega
    have h1 := ArgumentType.at_toNat_lt ArgumentType.str
    have h3 := StringRef.to_field_lt n
    have hd16 := StringRef.to_field_lt v
    have hd : v.to_field < 2 ^ 32 := by norm_num at hd16 ⊢; omega
    have hH := create_header_val .str n (Argument.str n v).encoding_num_words
      v.to_field hnw
    have hHlt := hdr4_lt h1 hnw h3 hd
    simp only [Argument.writeBytes, Argument.headerAndNameBytes, Argument.arg_type,
      Argument.name, hH, List.append_assoc]
    simp only [Argument.read, read_u64_word_app _ hHlt]
    simp only [hdr4_e0 h1, ArgumentType.at_tryFrom_toNat]
    simp only [hdr4_e16 h1 hnw h3, decodeStrFieldArg_round _ hnv]
    simp only [hdr4_e32_16 h1 hnw h3 hd16, decodeStrFieldArg_round _ hvv]
  | pointer n v =>
    have hnv : n.validB = true := by
      simp only [Argument.validB, Bool.and_eq_true] at hv; exact hv.1
    have hd : v < 2 ^ 64 := by
      simp only [Argument.validB, Bool.and_eq_true, decide_eq_true_eq] at hv
      exact hv.2
    have hnw : (Argument.pointer n v).encoding_num_words < 2 ^ 12 := by
      have := Argument.enc_lt (.pointer n v); norm_num at this ⊢; omega
    have h1 := ArgumentType.at_toNat_lt ArgumentType.pointer
    have h3 := StringRef.to_field_lt n
    have hH := create_header_val .pointer n (Argument.pointer n v).encoding_num_words 0 hnw
    have hHlt := @hdr4_lt _ _ _ 0 h1 hnw h3 (by norm_num)
    simp only [Argument.writeBytes, Argument.headerAndNameBytes, Argument.arg_type,
      Argument.name, hH, List.append_assoc]
    simp only [Argument.read, read_u64_word_app _ hHlt]
    simp only [hdr4_e0 h1, ArgumentType.at_tryFrom_toNat]
    simp only [hdr4_e16 h1 hnw h3, decodeStrFieldArg_round _ hnv]
    simp only [read_u64_word_app _ hd]
  | kernelObjectId n v =>
    have hnv : n.validB = true := by
      simp only [Argument.validB, Bool.and_eq_true] at hv; exact hv.1
    have hd : v < 2 ^ 64 := by
      simp only [Argument.validB, Bool.and_eq_true, decide_eq_true_eq] at hv
      exact hv.2
    have hnw : (Argument.kernelObjectId n v).encoding_num_words < 2 ^ 12 := by
      have := Argument.enc_lt (.kernelObjectId n v); norm_num at this ⊢; omega
    have h1 := ArgumentType.at_toNat_lt ArgumentType.kernelObjectId
    have h3 := StringRef.to_field_lt n
    have hH := create_header_val .kernelObjectId n
      (Argument.kernelObjectId n v).encoding_num_words 0 hnw
    have hHlt := @hdr4_lt _ _ _ 0 h1 hnw h3 (by norm_num)
    simp only [Argument.writeBytes, Argument.headerAndNameBytes, Argument.arg_type,
      Argument.name, hH, List.append_assoc]
    simp only [Argument.read, read_u64_word_app _ hHlt]
    simp only [hdr4_e0 h1, ArgumentType.at_tryFrom_toNat]
    simp only [hdr4_e16 h1 hnw h3, decodeStrFieldArg_round _ hnv]
    simp only [read_u64_word_app _ hd]
  | boolean n v =>
    have hnv : n.validB = true := by simpa [Argument.validB] using hv
    have hnw : (Argument.boolean n v).encoding_num_words < 2 ^ 12 := by
      have := Argument.enc_lt (.boolean n v); norm_num at this ⊢; omega
    have h1 := ArgumentType.at_toNat_lt ArgumentType.boolean
    have h3 := StringRef.to_field_lt n
    have hd : (if v then 1 else 0) < 2 := by cases v <;> norm_num
    have hH := create_header_val .boolean n (Argument.boolean n v).encoding_num_words
      (if v then 1 else 0) hnw
    have hd32 : (if v then 1 else 0) < 2 ^ 32 := by split <;> norm_num
    have hHlt := hdr4_lt h1 hnw h3 hd32
    simp only [Argument.writeBytes, Argument.headerAndNameBytes, Argument.arg_type,
      Argument.name, hH, List.append_assoc]
    simp only [Argument.read, read_u64_word_app _ hHlt]
    simp only [hdr4_e0 h1, ArgumentType.at_tryFrom_toNat]
    simp only [hdr4_e16 h1 hnw h3, decodeStrFieldArg_round _ hnv]
    simp only [hdr4_e32_1 h1 hnw h3 hd]
    cases v <;> simp

/-! ## Event round-trip -/

theorem EventType.et_toNat_lt (t : EventType) : t.toNat < 2 ^ 4 := by
  cases t <;> simp [EventType.toNat]

theorem event_header_val (et na tid cid nid sz : Nat)
    (het : et < 2 ^ 4) (hna : na < 2 ^ 4) (htid : tid < 2 ^ 8)
    (hcid : cid < 2 ^ 16) (hnid : nid < 2 ^ 16) (hsz : sz < 2 ^ 8) :
    buildFields (4 + 12) [⟨4, et⟩, ⟨4, na⟩, ⟨8, tid⟩, ⟨16, cid⟩, ⟨16, nid⟩]
      (RecordType.event.toNat ||| sz <<< 4) =
    4 + sz * 2 ^ 4 + et * 2 ^ 16 + na * 2 ^ 20 + tid * 2 ^ 24 +
      cid * 2 ^ 32 + nid * 2 ^ 48 := by
  have hbase : RecordType.event.toNat ||| sz <<< 4 = 4 + sz * 2 ^ 4 := by
    have := lor_shift_eq_add (a := RecordType.event.toNat) sz 4
      (by norm_num [RecordType.toNat])
    simpa [RecordType.toNat] using this
  rw [show (4 + 12) = 16 from rfl, hbase,
    buildFields_eq_add _ 16 _ (by norm_num at hsz ⊢; omega) (by simp [sumWidths])]
  simp only [packF, mask_length, sumWidths,
    Nat.mod_eq_of_lt het, Nat.mod_eq_of_lt hna, Nat.mod_eq_of_lt htid,
    Nat.mod_eq_of_lt hcid, Nat.mod_eq_of_lt hnid]
  ring

theorem evtHdr_e0 {et na tid cid nid sz : Nat} :
    extract_bits (4 + sz * 2 ^ 4 + et * 2 ^ 16 + na * 2 ^ 20 + tid * 2 ^ 24 +
      cid * 2 ^ 32 + nid * 2 ^ 48) 0 3 = 4 := by
  have hre : 4 + sz * 2 ^ 4 + et * 2 ^ 16 + na * 2 ^ 20 + tid * 2 ^ 24 +
      cid * 2 ^ 32 + nid * 2 ^ 48 =
      0 + 2 ^ 0 * (4 + 2 ^ 4 * (sz + 2 ^ 12 *
        (et + 2 ^ 4 * (na + 2 ^ 4 * (tid + 2 ^ 8 * (cid + 2 ^ 16 * nid)))))) := by
    ring
  rw [hre]
  have := extract_mid 0 4 (sz + 2 ^ 12 *
      (et + 2 ^ 4 * (na + 2 ^ 4 * (tid + 2 ^ 8 * (cid + 2 ^ 16 * nid))))) 0 4
    (by norm_num) (by norm_num) (by norm_num)
  simpa using this

theorem evtHdr_e4 {et na tid cid nid sz : Nat} (hsz : sz < 2 ^ 8) :
    extract_bits (4 + sz * 2 ^ 4 + et * 2 ^ 16 + na * 2 ^ 20 + tid * 2 ^ 24 +
      cid * 2 ^ 32 + nid * 2 ^ 48) 4 15 = sz := by
  have hre : 4 + sz * 2 ^ 4 + et * 2 ^ 16 + na * 2 ^ 20 + tid * 2 ^ 24 +
      cid * 2 ^ 32 + nid * 2 ^ 48 =
      4 + 2 ^ 4 * (sz + 2 ^ 12 *
        (et + 2 ^ 4 * (na + 2 ^ 4 * (tid + 2 ^ 8 * (cid + 2 ^ 16 * nid))))) := by
    ring
  rw [hre]
  have := extract_mid 4 sz (et + 2 ^ 4 * (na + 2 ^ 4 * (tid + 2 ^ 8 *
      (cid + 2 ^ 16 * nid)))) 4 12 (by norm_num) (by norm_num at hsz ⊢; omega)
    (by norm_num)
  simpa using this

theorem evtHdr_e16 {et na tid cid nid sz : Nat} (hsz : sz < 2 ^ 8)
    (het : et < 2 ^ 4) :
    extract_bits (4 + sz * 2 ^ 4 + et * 2 ^ 16 + na * 2 ^ 20 + tid * 2 ^ 24 +
      cid * 2 ^ 32 + nid * 2 ^ 48) 16 19 = et := by
  have hre : 4 + sz * 2 ^ 4 + et * 2 ^ 16 + na * 2 ^ 20 + tid * 2 ^ 24 +
      cid * 2 ^ 32 + nid * 2 ^ 48 =
      (4 + sz * 2 ^ 4) + 2 ^ 16 * (et + 2 ^ 4 *
        (na + 2 ^ 4 * (tid + 2 ^ 8 * (cid + 2 ^ 16 * nid)))) := by ring
  rw [hre]
  have := extract_mid (4 + sz * 2 ^ 4)
    et (na + 2 ^ 4 * (tid + 2 ^ 8 * (cid + 2 ^ 16 * nid))) 16 4
    (by norm_num at hsz ⊢; omega) het (by norm_num)
  simpa using this

theorem evtHdr_e20 {et na tid cid nid sz : Nat} (hsz : sz < 2 ^ 8)
    (het : et < 2 ^ 4) (hna : na < 2 ^ 4) :
    extract_bits (4 + sz * 2 ^ 4 + et * 2 ^ 16 + na * 2 ^ 20 + tid * 2 ^ 24 +
      cid * 2 ^ 32 + nid * 2 ^ 48) 20 23 = na := by
  have hre : 4 + sz * 2 ^ 4 + et * 2 ^ 16 + na * 2 ^ 20 + tid * 2 ^ 24 +
      cid * 2 ^ 32 + nid * 2 ^ 48 =
      (4 + sz * 2 ^ 4 + et * 2 ^ 16) + 2 ^ 20 * (na + 2 ^ 4 *
        (tid + 2 ^ 8 * (cid + 2 ^ 16 * nid))) := by ring
  rw [hre]
  have := extract_mid (4 + sz * 2 ^ 4 + et * 2 ^ 16)
    na (tid + 2 ^ 8 * (cid + 2 ^ 16 * nid)) 20 4
    (by norm_num at hsz het ⊢; omega) hna (by norm_num)
  simpa using this

theorem evtHdr_e24 {et na tid cid nid sz : Nat} (hsz : sz < 2 ^ 8)
    (het : et < 2 ^ 4) (hna : na < 2 ^ 4) (htid : tid < 2 ^ 8) :
    extract_bits (4 + sz * 2 ^ 4 + et * 2 ^ 16 + na * 2 ^ 20 + tid * 2 ^ 24 +
      cid * 2 ^ 32 + nid * 2 ^ 48) 24 31 = tid := by
  have hre : 4 + sz * 2 ^ 4 + et * 2 ^ 16 + na * 2 ^ 20 + tid * 2 ^ 24 +
      cid * 2 ^ 32 + nid * 2 ^ 48 =
      (4 + sz * 2 ^ 4 + et * 2 ^ 16 + na * 2 ^ 20) + 2 ^ 24 *
        (tid + 2 ^ 8 * (cid + 2 ^ 16 * nid)) := by ring
  rw [hre]
  have := extract_mid (4 + sz * 2 ^ 4 + et * 2 ^ 16 + na * 2 ^ 20)
    tid (cid + 2 ^ 16 * nid) 24 8
    (by norm_num at hsz het hna ⊢; omega) htid (by norm_num)
  simpa using this

theorem evtHdr_e32 {et na tid cid nid sz : Nat} (hsz : sz < 2 ^ 8)
    (het : et < 2 ^ 4) (hna : na < 2 ^ 4) (htid : tid < 2 ^ 8)
    (hcid : cid < 2 ^ 16) :
    extract_bits (4 + sz * 2 ^ 4 + et * 2 ^ 16 + na * 2 ^ 20 + tid * 2 ^ 24 +
      cid * 2 ^ 32 + nid * 2 ^ 48) 32 47 = cid := by
  have hre : 4 + sz * 2 ^ 4 + et * 2 ^ 16 + na * 2 ^ 20 + tid * 2 ^ 24 +
      cid * 2 ^ 32 + nid * 2 ^ 48 =
      (4 + sz * 2 ^ 4 + et * 2 ^ 16 + na * 2 ^ 20 + tid * 2 ^ 24) + 2 ^ 32 *
        (cid + 2 ^ 16 * nid) := by ring
  rw [hre]
  have := extract_mid (4 + sz * 2 ^ 4 + et * 2 ^ 16 + na * 2 ^ 20 + tid * 2 ^ 24)
    cid nid 32 16 (by norm_num at hsz het hna htid ⊢; omega) hcid (by norm_num)
  simpa using this

theorem evtHdr_e48 {et na tid cid nid sz : Nat} (hsz : sz < 2 ^ 8)
    (het : et < 2 ^ 4) (hna : na < 2 ^ 4) (htid : tid < 2 ^ 8)
    (hcid : cid < 2 ^ 16) (hnid : nid < 2 ^ 16) :
    extract_bits (4 + sz * 2 ^ 4 + et * 2 ^ 16 + na * 2 ^ 20 + tid * 2 ^ 24 +
      cid * 2 ^ 32 + nid * 2 ^ 48) 48 63 = nid := by
  have hre : 4 + sz * 2 ^ 4 + et * 2 ^ 16 + na * 2 ^ 20 + tid * 2 ^ 24 +
      cid * 2 ^ 32 + nid * 2 ^ 48 =
      (4 + sz * 2 ^ 4 + et * 2 ^ 16 + na * 2 ^ 20 + tid * 2 ^ 24 + cid * 2 ^ 32) +
        2 ^ 48 * (nid + 2 ^ 16 * 0) := by ring
  rw [hre]
  have := extract_mid
    (4 + sz * 2 ^ 4 + et * 2 ^ 16 + na * 2 ^ 20 + tid * 2 ^ 24 + cid * 2 ^ 32)
    nid 0 48 16 (by norm_num at hsz het hna htid hcid ⊢; omega) hnid (by norm_num)
  simpa using this

theorem evtHdr_lt {et na tid cid nid sz : Nat} (hsz : sz < 2 ^ 8)
    (het : et < 2 ^ 4) (hna : na < 2 ^ 4) (htid : tid < 2 ^ 8)
    (hcid : cid < 2 ^ 16) (hnid : nid < 2 ^ 16) :
    4 + sz * 2 ^ 4 + et * 2 ^ 16 + na * 2 ^ 20 + tid * 2 ^ 24 +
      cid * 2 ^ 32 + nid * 2 ^ 48 < 2 ^ 64 := by
  norm_num at *
  omega

theorem readArguments_write (args : List Argument) (t : List Nat)
    (hv : args.all Argument.validB = true) :
    readArguments args.length ((args.map Argument.writeBytes).flatten ++ t) =
      .ok (args, t) := by
  induction args with
  | nil => simp [readArguments]
  | cons a rest ih =>
    simp only [List.all_cons, Bool.and_eq_true] at hv
    simp only [List.map_cons, List.flatten_cons, List.length_cons,
      List.append_assoc, readArguments, Argument.arg_read_write a _ hv.1, ih hv.2]

theorem ThreadRef.to_field_lt_of_valid {th : ThreadRef} (hv : th.validB = true) :
    th.to_field < 2 ^ 8 := by
  cases th with
  | inline p k => simp [ThreadRef.to_field]
  | ref r =>
    simp only [ThreadRef.validB, Bool.and_eq_true, decide_eq_true_eq] at hv
    simp only [ThreadRef.to_field]
    omega

theorem parse_event_round (ts : Nat) (th : ThreadRef) (cat nm : StringRef)
    (args : List Argument) (et : EventType) (sz : Nat) (t : List Nat)
    (hsz : sz < 2 ^ 8)
    (hv : Event.validB ⟨ts, th, cat, nm, args⟩ = true) :
    EventRecord.parse_event
      (4 + sz * 2 ^ 4 + et.toNat * 2 ^ 16 + args.length * 2 ^ 20 +
        th.to_field * 2 ^ 24 + cat.to_field * 2 ^ 32 + nm.to_field * 2 ^ 48)
      (toLeBytes ts ++ th.payloadBytes ++ cat.payloadBytes ++ nm.payloadBytes ++
        (args.map Argument.writeBytes).flatten ++ t) =
      .ok ((et, ⟨ts, th, cat, nm, args⟩), t) := by
  simp only [Event.validB, Bool.and_eq_true, decide_eq_true_eq] at hv
  obtain ⟨⟨⟨⟨⟨hts, hth⟩, hcat⟩, hnm⟩, hlen⟩, hargs⟩ := hv
  have het := EventType.et_toNat_lt et
  have hna : args.length < 2 ^ 4 := by omega
  have htid := ThreadRef.to_field_lt_of_valid hth
  have hcid := StringRef.to_field_lt cat
  have hnid := StringRef.to_field_lt nm
  unfold EventRecord.parse_event
  dsimp only
  rw [evtHdr_e16 hsz het, evtHdr_e20 hsz het hna, evtHdr_e24 hsz het hna htid,
    evtHdr_e32 hsz het hna htid hcid, evtHdr_e48 hsz het hna htid hcid hnid]
  simp only [EventType.et_tryFrom_toNat, List.append_assoc, read_u64_word_app _ hts]
  cases th with
  | inline p k =>
    simp only [ThreadRef.validB, Bool.and_eq_true, decide_eq_true_eq] at hth
    simp only [ThreadRef.to_field, ThreadRef.payloadBytes, List.append_assoc,
      if_true, read_u64_word_app _ hth.1, read_u64_word_app _ hth.2]
    cases cat with
    | ref ccat =>
      simp only [StringRef.validB, decide_eq_true_eq] at hcat
      rw [StringRef.to_field_ref hcat]
      simp only [StringRef.payloadBytes, List.nil_append]
      rw [if_pos (show ccat / 2 ^ 15 = 0 by omega)]
      cases nm with
      | ref cnm =>
        simp only [StringRef.validB, decide_eq_true_eq] at hnm
        rw [StringRef.to_field_ref hnm]
        simp only [StringRef.payloadBytes, List.nil_append]
        rw [if_pos (show cnm / 2 ^ 15 = 0 by omega)]
        simp only [List.nil_append, readArguments_write args t hargs]
      | inline snm =>
        simp only [StringRef.validB, Bool.and_eq_true, decide_eq_true_eq] at hnm
        rw [StringRef.to_field_inline hnm.1]
        simp only [StringRef.payloadBytes, List.append_assoc, List.nil_append]
        rw [if_neg (show ¬ (snm.length + 0x8000) / 2 ^ 15 = 0 by omega)]
        rw [show (snm.length + 0x8000) % 2 ^ 15 = snm.length by omega]
        simp only [read_aligned_str_round _ hnm.2, List.nil_append]
        simp only [List.nil_append, readArguments_write args t hargs]
    | inline scat =>
      simp only [StringRef.validB, Bool.and_eq_true, decide_eq_true_eq] at hcat
      rw [StringRef.to_field_inline hcat.1]
      simp only [StringRef.payloadBytes, List.append_assoc, List.nil_append]
      rw [if_neg (show ¬ (scat.length + 0x8000) / 2 ^ 15 = 0 by omega)]
      rw [show (scat.length + 0x8000) % 2 ^ 15 = scat.length by omega]
      simp only [read_aligned_str_round _ hcat.2, List.nil_append]
      cases nm with
      | ref cnm =>
        simp only [StringRef.validB, decide_eq_true_eq] at hnm
        rw [StringRef.to_field_ref hnm]
        simp only [StringRef.payloadBytes, List.nil_append]
        rw [if_pos (show cnm / 2 ^ 15 = 0 by omega)]
        simp only [List.nil_append, readArguments_write args t hargs]
      | inline snm =>
        simp only [StringRef.validB, Bool.and_eq_true, decide_eq_true_eq] at hnm
        rw [StringRef.to_field_inline hnm.1]
        simp only [StringRef.payloadBytes, List.append_assoc, List.nil_append]
        rw [if_neg (show ¬ (snm.length + 0x8000) / 2 ^ 15 = 0 by omega)]
        rw [show (snm.length + 0x8000) % 2 ^ 15 = snm.length by omega]
        simp only [read_aligned_str_round _ hnm.2, List.nil_append]
        simp only [List.nil_append, readArguments_write args t hargs]
  | ref r =>
    simp only [ThreadRef.validB, Bool.and_eq_true, decide_eq_true_eq] at hth
    have hr0 : ¬ (r = 0) := by omega
    simp only [ThreadRef.to_field, ThreadRef.payloadBytes, List.nil_append]
    rw [if_neg hr0]
    cases cat with
    | ref ccat =>
      simp only [StringRef.validB, decide_eq_true_eq] at hcat
      rw [StringRef.to_field_ref hcat]
      simp only [StringRef.payloadBytes, List.nil_append]
      rw [if_pos (show ccat / 2 ^ 15 = 0 by omega)]
      cases nm with
      | ref cnm =>
        simp only [StringRef.validB, decide_eq_true_eq] at hnm
        rw [StringRef.to_field_ref hnm]
        simp only [StringRef.payloadBytes, List.nil_append]
        rw [if_pos (show cnm / 2 ^ 15 = 0 by omega)]
        simp only [List.nil_append, readArguments_write args t hargs]
      | inline snm =>
        simp only [StringRef.validB, Bool.and_eq_true, decide_eq_true_eq] at hnm
        rw [StringRef.to_field_inline hnm.1]
        simp only [StringRef.payloadBytes, List.append_assoc, List.nil_append]
        rw [if_neg (show ¬ (snm.length + 0x8000) / 2 ^ 15 = 0 by omega)]
        rw [show (snm.length + 0x8000) % 2 ^ 15 = snm.length by omega]
        simp only [read_aligned_str_round _ hnm.2, List.nil_append]
        simp only [List.nil_append, readArguments_write args t hargs]
    | inline scat =>
      simp only [StringRef.validB, Bool.and_eq_true, decide_eq_true_eq] at hcat
      rw [StringRef.to_field_inline hcat.1]
      simp only [StringRef.payloadBytes, List.append_assoc, List.nil_append]
      rw [if_neg (show ¬ (scat.length + 0x8000) / 2 ^ 15 = 0 by omega)]
      rw [show (scat.length + 0x8000) % 2 ^ 15 = scat.length by omega]
      simp only [read_aligned_str_round _ hcat.2, List.nil_append]
      cases nm with
      | ref cnm =>
        simp only [StringRef.validB, decide_eq_true_eq] at hnm
        rw [StringRef.to_field_ref hnm]
        simp only [StringRef.payloadBytes, List.nil_append]
        rw [if_pos (show cnm / 2 ^ 15 = 0 by omega)]
        simp only [List.nil_append, readArguments_write args t hargs]
      | inline snm =>
        simp only [StringRef.validB, Bool.and_eq_true, decide_eq_true_eq] at hnm
        rw [StringRef.to_field_inline hnm.1]
        simp only [StringRef.payloadBytes, List.append_assoc, List.nil_append]
        rw [if_neg (show ¬ (snm.length + 0x8000) / 2 ^ 15 = 0 by omega)]
        rw [show (snm.length + 0x8000) % 2 ^ 15 = snm.length by omega]
        simp only [read_aligned_str_round _ hnm.2, List.nil_append]
        simp only [List.nil_append, readArguments_write args t hargs]

/-! ## Size accounting -/

theorem StringRef.sref_enc_eq_true_mod (x : StringRef) :
    x.encoding_num_words = x.trueWords % 256 := by
  cases x <;> rfl

theorem Argument.arg_enc_eq_true_mod (a : Argument) :
    a.encoding_num_words = a.trueWords % 256 := by
  cases a <;>
    simp only [Argument.encoding_num_words, Argument.trueWords, Argument.name,
      StringRef.sref_enc_eq_true_mod, Nat.mod_add_mod]

theorem argsum_enc_mod (args : List Argument) :
    (args.map Argument.encoding_num_words).sum % 256 =
      (args.map Argument.trueWords).sum % 256 := by
  induction args with
  | nil => rfl
  | cons a rest ih =>
    simp only [List.map_cons, List.sum_cons, Argument.arg_enc_eq_true_mod a]
    omega

theorem Event.num_words_eq (e : Event) :
    e.num_words = e.trueWords false % 256 := by
  have h := argsum_enc_mod e.arguments
  simp only [Event.num_words, Event.trueWords, StringRef.sref_enc_eq_true_mod,
    Bool.false_eq_true, if_false]
  omega

theorem size_field_eq (e : Event) (b : Bool) (h : e.trueWords b ≤ 255) :
    (e.num_words + (if b then 1 else 0)) % 256 = e.trueWords b := by
  have h1 := Event.num_words_eq e
  have h2 : e.trueWords b = e.trueWords false + (if b then 1 else 0) := by
    cases b <;> simp [Event.trueWords]
  omega

theorem StringRef.payload_length (x : StringRef) :
    x.payloadBytes.length = 8 * x.trueWords := by
  cases x with
  | ref r => rfl
  | inline s =>
    simp only [StringRef.payloadBytes, StringRef.trueWords, padStringBytes_length]
    omega

theorem Argument.writeBytes_length (a : Argument) (hv : a.validB = true) :
    a.writeBytes.length = 8 * a.trueWords := by
  cases a
  case str n v =>
    simp only [Argument.validB, Bool.and_eq_true] at hv
    cases v with
    | ref r =>
      simp only [Argument.writeBytes, Argument.headerAndNameBytes,
        Argument.trueWords, Argument.name, List.length_append, toLeBytes_length,
        show (StringRef.ref r).payloadBytes = [] from rfl,
        show StringRef.isInline (.ref r) = false from rfl,
        StringRef.payload_length, List.length_nil, Bool.false_eq_true, if_false]
      omega
    | inline sv =>
      have hb : 1 ≤ sv.length ∧ sv.length ≤ 8 := by
        simp only [Bool.and_eq_true, decide_eq_true_eq] at hv
        exact hv.2
      have h1 : (sv.length + 7) / 8 * 8 = 8 := by omega
      simp only [Argument.writeBytes, Argument.headerAndNameBytes,
        Argument.trueWords, Argument.name, List.length_append, toLeBytes_length,
        show (StringRef.inline sv).payloadBytes = padStringBytes sv from rfl,
        show StringRef.isInline (.inline sv) = true from rfl,
        StringRef.payload_length, padStringBytes_length, h1, if_true]
      omega
  all_goals
    simp only [Argument.writeBytes, Argument.headerAndNameBytes,
      Argument.trueWords, Argument.name, List.length_append, toLeBytes_length,
      StringRef.payload_length, List.length_nil]
    omega

theorem args_flatten_length (args : List Argument)
    (hv : args.all Argument.validB = true) :
    ((args.map Argument.writeBytes).flatten).length =
      8 * (args.map Argument.trueWords).sum := by
  induction args with
  | nil => rfl
  | cons a rest ih =>
    simp only [List.all_cons, Bool.and_eq_true] at hv
    simp only [List.map_cons, List.flatten_cons, List.length_append,
      Argument.writeBytes_length a hv.1, ih hv.2, List.sum_cons]
    ring

theorem Event.write_event_length (e : Event) (et : EventType) (extra : Option Nat)
    (hv : e.validB = true) :
    (e.write_event et extra).length = 8 * e.trueWords extra.isSome := by
  simp only [Event.validB, Bool.and_eq_true, decide_eq_true_eq] at hv
  have hargs := hv.2
  have hth : e.thread.payloadBytes.length = 8 * e.thread.inlineWords := by
    cases e.thread <;> simp [ThreadRef.payloadBytes, ThreadRef.inlineWords, toLeBytes_length]
  simp only [Event.write_event, List.length_append, toLeBytes_length,
    StringRef.payload_length, args_flatten_length e.arguments hargs, hth,
    Event.trueWords]
  cases extra <;> simp [toLeBytes_length] <;> ring

/-! ## Event record round-trips -/

theorem EventRecord.read_write_instant (e : Event) (t : List Nat)
    (hv : e.validB = true) (hw : e.trueWords false ≤ 255) :
    Record.read (e.write_event .instant none ++ t) =
      .ok (.event (.instant ⟨e⟩), t) ∧
    (e.write_event .instant none).length =
      8 * extract_bits (fromLeBytes ((e.write_event .instant none).take 8)) 4 15 := by
  obtain ⟨ts, th, cat, nm, args⟩ := e
  have hv' := hv
  simp only [Event.validB, Bool.and_eq_true, decide_eq_true_eq] at hv'
  obtain ⟨⟨⟨⟨⟨hts, hth⟩, hcat⟩, hnm⟩, hlen⟩, hargs⟩ := hv'
  have hszeq : (Event.num_words ⟨ts, th, cat, nm, args⟩ +
      (if (none : Option Nat).isSome = true then 1 else 0)) % 256 =
      Event.trueWords ⟨ts, th, cat, nm, args⟩ false := by
    have := size_field_eq ⟨ts, th, cat, nm, args⟩ false hw
    simpa using this
  have hsz : Event.trueWords ⟨ts, th, cat, nm, args⟩ false < 2 ^ 8 := by
    norm_num; omega
  have het := EventType.et_toNat_lt EventType.instant
  have hna : args.length < 2 ^ 4 := by omega
  have htid := ThreadRef.to_field_lt_of_valid hth
  have hcid := StringRef.to_field_lt cat
  have hnid := StringRef.to_field_lt nm
  have hH := event_header_val EventType.instant.toNat args.length th.to_field
    cat.to_field nm.to_field _ het hna htid hcid hnid hsz
  have hHlt := evtHdr_lt hsz het hna htid hcid hnid
  have hbytes : Event.write_event ⟨ts, th, cat, nm, args⟩ .instant none =
      toLeBytes (4 + Event.trueWords ⟨ts, th, cat, nm, args⟩ false * 2 ^ 4 +
        EventType.instant.toNat * 2 ^ 16 + args.length * 2 ^ 20 +
        th.to_field * 2 ^ 24 + cat.to_field * 2 ^ 32 + nm.to_field * 2 ^ 48) ++
      (toLeBytes ts ++ (th.payloadBytes ++ (cat.payloadBytes ++
        (nm.payloadBytes ++ ((args.map Argument.writeBytes).flatten))))) := by
    simp only [Event.write_event, hszeq, hH, List.append_assoc, List.append_nil]
  constructor
  · rw [hbytes]
    simp only [List.append_assoc, Record.read, read_u64_word_app _ hHlt]
    rw [@evtHdr_e0 (EventType.instant.toNat) _ _ _ _ _]
    simp only [show RecordType.tryFrom 4 = .ok .event from rfl]
    have hpe := parse_event_round ts th cat nm args .instant
      (Event.trueWords ⟨ts, th, cat, nm, args⟩ false) (t) hsz hv
    simp only [List.append_assoc] at hpe
    simp only [EventRecord.parse, hpe]
  · have hl := Event.write_event_length ⟨ts, th, cat, nm, args⟩ .instant none hv
    rw [hbytes] at hl ⊢
    have htk := take_app (toLeBytes (4 +
        Event.trueWords ⟨ts, th, cat, nm, args⟩ false * 2 ^ 4 +
        EventType.instant.toNat * 2 ^ 16 + args.length * 2 ^ 20 +
        th.to_field * 2 ^ 24 + cat.to_field * 2 ^ 32 + nm.to_field * 2 ^ 48))
      (toLeBytes ts ++ (th.payloadBytes ++ (cat.payloadBytes ++
        (nm.payloadBytes ++ ((args.map Argument.writeBytes).flatten)))))
    rw [toLeBytes_length] at htk
    rw [htk, fromLeBytes_toLeBytes hHlt, evtHdr_e4 hsz]
    simpa using hl

theorem EventRecord.read_write_durationBegin (e : Event) (t : List Nat)
    (hv : e.validB = true) (hw : e.trueWords false ≤ 255) :
    Record.read (e.write_event .durationBegin none ++ t) =
      .ok (.event (.durationBegin ⟨e⟩), t) ∧
    (e.write_event .durationBegin none).length =
      8 * extract_bits (fromLeBytes ((e.write_event .durationBegin none).take 8)) 4 15 := by
  obtain ⟨ts, th, cat, nm, args⟩ := e
  have hv' := hv
  simp only [Event.validB, Bool.and_eq_true, decide_eq_true_eq] at hv'
  obtain ⟨⟨⟨⟨⟨hts, hth⟩, hcat⟩, hnm⟩, hlen⟩, hargs⟩ := hv'
  have hszeq : (Event.num_words ⟨ts, th, cat, nm, args⟩ +
      (if (none : Option Nat).isSome = true then 1 else 0)) % 256 =
      Event.trueWords ⟨ts, th, cat, nm, args⟩ false := by
    have := size_field_eq ⟨ts, th, cat, nm, args⟩ false hw
    simpa using this
  have hsz : Event.trueWords ⟨ts, th, cat, nm, args⟩ false < 2 ^ 8 := by
    norm_num; omega
  have het := EventType.et_toNat_lt EventType.durationBegin
  have hna : args.length < 2 ^ 4 := by omega
  have htid := ThreadRef.to_field_lt_of_valid hth
  have hcid := StringRef.to_field_lt cat
  have hnid := StringRef.to_field_lt nm
  have hH := event_header_val EventType.durationBegin.toNat args.length th.to_field
    cat.to_field nm.to_field _ het hna htid hcid hnid hsz
  have hHlt := evtHdr_lt hsz het hna htid hcid hnid
  have hbytes : Event.write_event ⟨ts, th, cat, nm, args⟩ .durationBegin none =
      toLeBytes (4 + Event.trueWords ⟨ts, th, cat, nm, args⟩ false * 2 ^ 4 +
        EventType.durationBegin.toNat * 2 ^ 16 + args.length * 2 ^ 20 +
        th.to_field * 2 ^ 24 + cat.to_field * 2 ^ 32 + nm.to_field * 2 ^ 48) ++
      (toLeBytes ts ++ (th.payloadBytes ++ (cat.payloadBytes ++
        (nm.payloadBytes ++ ((args.map Argument.writeBytes).flatten))))) := by
    simp only [Event.write_event, hszeq, hH, List.append_assoc, List.append_nil]
  constructor
  · rw [hbytes]
    simp only [List.append_assoc, Record.read, read_u64_word_app _ hHlt]
    rw [@evtHdr_e0 (EventType.durationBegin.toNat) _ _ _ _ _]
    simp only [show RecordType.tryFrom 4 = .ok .event from rfl]
    have hpe := parse_event_round ts th cat nm args .durationBegin
      (Event.trueWords ⟨ts, th, cat, nm, args⟩ false) (t) hsz hv
    simp only [List.append_assoc] at hpe
    simp only [EventRecord.parse, hpe]
  · have hl := Event.write_event_length ⟨ts, th, cat, nm, args⟩ .durationBegin none hv
    rw [hbytes] at hl ⊢
    have htk := take_app (toLeBytes (4 +
        Event.trueWords ⟨ts, th, cat, nm, args⟩ false * 2 ^ 4 +
        EventType.durationBegin.toNat * 2 ^ 16 + args.length * 2 ^ 20 +
        th.to_field * 2 ^ 24 + cat.to_field * 2 ^ 32 + nm.to_field * 2 ^ 48))
      (toLeBytes ts ++ (th.payloadBytes ++ (cat.payloadBytes ++
        (nm.payloadBytes ++ ((args.map Argument.writeBytes).flatten)))))
    rw [toLeBytes_length] at htk
    rw [htk, fromLeBytes_toLeBytes hHlt, evtHdr_e4 hsz]
    simpa using hl

theorem EventRecord.read_write_durationEnd (e : Event) (t : List Nat)
    (hv : e.validB = true) (hw : e.trueWords false ≤ 255) :
    Record.read (e.write_event .durationEnd none ++ t) =
      .ok (.event (.durationEnd ⟨e⟩), t) ∧
    (e.write_event .durationEnd none).length =
      8 * extract_bits (fromLeBytes ((e.write_event .durationEnd none).take 8)) 4 15 := by
  obtain ⟨ts, th, cat, nm, args⟩ := e
  have hv' := hv
  simp only [Event.validB, Bool.and_eq_true, decide_eq_true_eq] at hv'
  obtain ⟨⟨⟨⟨⟨hts, hth⟩, hcat⟩, hnm⟩, hlen⟩, hargs⟩ := hv'
  have hszeq : (Event.num_words ⟨ts, th, cat, nm, args⟩ +
      (if (none : Option Nat).isSome = true then 1 else 0)) % 256 =
      Event.trueWords ⟨ts, th, cat, nm, args⟩ false := by
    have := size_field_eq ⟨ts, th, cat, nm, args⟩ false hw
    simpa using this
  have hsz : Event.trueWords ⟨ts, th, cat, nm, args⟩ false < 2 ^ 8 := by
    norm_num; omega
  have het := EventType.et_toNat_lt EventType.durationEnd
  have hna : args.length < 2 ^ 4 := by omega
  have htid := ThreadRef.to_field_lt_of_valid hth
  have hcid := StringRef.to_field_lt cat
  have hnid := StringRef.to_field_lt nm
  have hH := event_header_val EventType.durationEnd.toNat args.length th.to_field
    cat.to_field nm.to_field _ het hna htid hcid hnid hsz
  have hHlt := evtHdr_lt hsz het hna htid hcid hnid
  have hbytes : Event.write_event ⟨ts, th, cat, nm, args⟩ .durationEnd none =
      toLeBytes (4 + Event.trueWords ⟨ts, th, cat, nm, args⟩ false * 2 ^ 4 +
        EventType.durationEnd.toNat * 2 ^ 16 + args.length * 2 ^ 20 +
        th.to_field * 2 ^ 24 + cat.to_field * 2 ^ 32 + nm.to_field * 2 ^ 48) ++
      (toLeBytes ts ++ (th.payloadBytes ++ (cat.payloadBytes ++
        (nm.payloadBytes ++ ((args.map Argument.writeBytes).flatten))))) := by
    simp only [Event.write_event, hszeq, hH, List.append_assoc, List.append_nil]
  constructor
  · rw [hbytes]
    simp only [List.append_assoc, Record.read, read_u64_word_app _ hHlt]
    rw [@evtHdr_e0 (EventType.durationEnd.toNat) _ _ _ _ _]
    simp only [show RecordType.tryFrom 4 = .ok .event from rfl]
    have hpe := parse_event_round ts th cat nm args .durationEnd
      (Event.trueWords ⟨ts, th, cat, nm, args⟩ false) (t) hsz hv
    simp only [List.append_assoc] at hpe
    simp only [EventRecord.parse, hpe]
  · have hl := Event.write_event_length ⟨ts, th, cat, nm, args⟩ .durationEnd none hv
    rw [hbytes] at hl ⊢
    have htk := take_app (toLeBytes (4 +
        Event.trueWords ⟨ts, th, cat, nm, args⟩ false * 2 ^ 4 +
        EventType.durationEnd.toNat * 2 ^ 16 + args.length * 2 ^ 20 +
        th.to_field * 2 ^ 24 + cat.to_field * 2 ^ 32 + nm.to_field * 2 ^ 48))
      (toLeBytes ts ++ (th.payloadBytes ++ (cat.payloadBytes ++
        (nm.payloadBytes ++ ((args.map Argument.writeBytes).flatten)))))
    rw [toLeBytes_length] at htk
    rw [htk, fromLeBytes_toLeBytes hHlt, evtHdr_e4 hsz]
    simpa using hl

theorem EventRecord.read_write_counter (e : Event) (cid : Nat) (t : List Nat)
    (hv : e.validB = true) (hcv : cid < 2 ^ 64) (hw : e.trueWords true ≤ 255) :
    Record.read (e.write_event .counter (some cid) ++ t) =
      .ok (.event (.counter ⟨e, cid⟩), t) ∧
    (e.write_event .counter (some cid)).length =
      8 * extract_bits (fromLeBytes ((e.write_event .counter (some cid)).take 8)) 4 15 := by
  obtain ⟨ts, th, cat, nm, args⟩ := e
  have hv' := hv
  simp only [Event.validB, Bool.and_eq_true, decide_eq_true_eq] at hv'
  obtain ⟨⟨⟨⟨⟨hts, hth⟩, hcat⟩, hnm⟩, hlen⟩, hargs⟩ := hv'
  have hszeq : (Event.num_words ⟨ts, th, cat, nm, args⟩ +
      (if ((some cid) : Option Nat).isSome = true then 1 else 0)) % 256 =
      Event.trueWords ⟨ts, th, cat, nm, args⟩ true := by
    have := size_field_eq ⟨ts, th, cat, nm, args⟩ true hw
    simpa using this
  have hsz : Event.trueWords ⟨ts, th, cat, nm, args⟩ true < 2 ^ 8 := by
    norm_num; omega
  have het := EventType.et_toNat_lt EventType.counter
  have hna : args.length < 2 ^ 4 := by omega
  have htid := ThreadRef.to_field_lt_of_valid hth
  have hcid := StringRef.to_field_lt cat
  have hnid := StringRef.to_field_lt nm
  have hH := event_header_val EventType.counter.toNat args.length th.to_field
    cat.to_field nm.to_field _ het hna htid hcid hnid hsz
  have hHlt := evtHdr_lt hsz het hna htid hcid hnid
  have hbytes : Event.write_event ⟨ts, th, cat, nm, args⟩ .counter (some cid) =
      toLeBytes (4 + Event.trueWords ⟨ts, th, cat, nm, args⟩ true * 2 ^ 4 +
        EventType.counter.toNat * 2 ^ 16 + args.length * 2 ^ 20 +
        th.to_field * 2 ^ 24 + cat.to_field * 2 ^ 32 + nm.to_field * 2 ^ 48) ++
      (toLeBytes ts ++ (th.payloadBytes ++ (cat.payloadBytes ++
        (nm.payloadBytes ++ ((args.map Argument.writeBytes).flatten ++ toLeBytes cid))))) := by
    simp only [Event.write_event, hszeq, hH, List.append_assoc, List.append_nil]
  constructor
  · rw [hbytes]
    simp only [List.append_assoc, Record.read, read_u64_word_app _ hHlt]
    rw [@evtHdr_e0 (EventType.counter.toNat) _ _ _ _ _]
    simp only [show RecordType.tryFrom 4 = .ok .event from rfl]
    have hpe := parse_event_round ts th cat nm args .counter
      (Event.trueWords ⟨ts, th, cat, nm, args⟩ true) (toLeBytes cid ++ t) hsz hv
    simp only [List.append_assoc] at hpe
    simp only [EventRecord.parse, hpe, read_u64_word_app _ hcv]
  · have hl := Event.write_event_length ⟨ts, th, cat, nm, args⟩ .counter (some cid) hv
    rw [hbytes] at hl ⊢
    have htk := take_app (toLeBytes (4 +
        Event.trueWords ⟨ts, th, cat, nm, args⟩ true * 2 ^ 4 +
        EventType.counter.toNat * 2 ^ 16 + args.length * 2 ^ 20 +
        th.to_field * 2 ^ 24 + cat.to_field * 2 ^ 32 + nm.to_field * 2 ^ 48))
      (toLeBytes ts ++ (th.payloadBytes ++ (cat.payloadBytes ++
        (nm.payloadBytes ++ ((args.map Argument.writeBytes).flatten ++ toLeBytes cid)))))
    rw [toLeBytes_length] at htk
    rw [htk, fromLeBytes_toLeBytes hHlt, evtHdr_e4 hsz]
    simpa using hl

theorem EventRecord.read_write_durationComplete (e : Event) (ets : Nat) (t : List Nat)
    (hv : e.validB = true) (hcv : ets < 2 ^ 64) (hw : e.trueWords true ≤ 255) :
    Record.read (e.write_event .durationComplete (some ets) ++ t) =
      .ok (.event (.durationComplete ⟨e, ets⟩), t) ∧
    (e.write_event .durationComplete (some ets)).length =
      8 * extract_bits (fromLeBytes ((e.write_event .durationComplete (some ets)).take 8)) 4 15 := by
  obtain ⟨ts, th, cat, nm, args⟩ := e
  have hv' := hv
  simp only [Event.validB, Bool.and_eq_true, decide_eq_true_eq] at hv'
  obtain ⟨⟨⟨⟨⟨hts, hth⟩, hcat⟩, hnm⟩, hlen⟩, hargs⟩ := hv'
  have hszeq : (Event.num_words ⟨ts, th, cat, nm, args⟩ +
      (if ((some ets) : Option Nat).isSome = true then 1 else 0)) % 256 =
      Event.trueWords ⟨ts, th, cat, nm, args⟩ true := by
    have := size_field_eq ⟨ts, th, cat, nm, args⟩ true hw
    simpa using this
  have hsz : Event.trueWords ⟨ts, th, cat, nm, args⟩ true < 2 ^ 8 := by
    norm_num; omega
  have het := EventType.et_toNat_lt EventType.durationComplete
  have hna : args.length < 2 ^ 4 := by omega
  have htid := ThreadRef.to_field_lt_of_valid hth
  have hcid := StringRef.to_field_lt cat
  have hnid := StringRef.to_field_lt nm
  have hH := event_header_val EventType.durationComplete.toNat args.length th.to_field
    cat.to_field nm.to_field _ het hna htid hcid hnid hsz
  have hHlt := evtHdr_lt hsz het hna htid hcid hnid
  have hbytes : Event.write_event ⟨ts, th, cat, nm, args⟩ .durationComplete (some ets) =
      toLeBytes (4 + Event.trueWords ⟨ts, th, cat, nm, args⟩ true * 2 ^ 4 +
        EventType.durationComplete.toNat * 2 ^ 16 + args.length * 2 ^ 20 +
        th.to_field * 2 ^ 24 + cat.to_field * 2 ^ 32 + nm.to_field * 2 ^ 48) ++
      (toLeBytes ts ++ (th.payloadBytes ++ (cat.payloadBytes ++
        (nm.payloadBytes ++ ((args.map Argument.writeBytes).flatten ++ toLeBytes ets))))) := by
    simp only [Event.write_event, hszeq, hH, List.append_assoc, List.append_nil]
  constructor
  · rw [hbytes]
    simp only [List.append_assoc, Record.read, read_u64_word_app _ hHlt]
    rw [@evtHdr_e0 (EventType.durationComplete.toNat) _ _ _ _ _]
    simp only [show RecordType.tryFrom 4 = .ok .event from rfl]
    have hpe := parse_event_round ts th cat nm args .durationComplete
      (Event.trueWords ⟨ts, th, cat, nm, args⟩ true) (toLeBytes ets ++ t) hsz hv
    simp only [List.append_assoc] at hpe
    simp only [EventRecord.parse, hpe, read_u64_word_app _ hcv]
  · have hl := Event.write_event_length ⟨ts, th, cat, nm, args⟩ .durationComplete (some ets) hv
    rw [hbytes] at hl ⊢
    have htk := take_app (toLeBytes (4 +
        Event.trueWords ⟨ts, th, cat, nm, args⟩ true * 2 ^ 4 +
        EventType.durationComplete.toNat * 2 ^ 16 + args.length * 2 ^ 20 +
        th.to_field * 2 ^ 24 + cat.to_field * 2 ^ 32 + nm.to_field * 2 ^ 48))
      (toLeBytes ts ++ (th.payloadBytes ++ (cat.payloadBytes ++
        (nm.payloadBytes ++ ((args.map Argument.writeBytes).flatten ++ toLeBytes ets)))))
    rw [toLeBytes_length] at htk
    rw [htk, fromLeBytes_toLeBytes hHlt, evtHdr_e4 hsz]
    simpa using hl

/-! ## Record-level round-trips -/

theorem magic_read_gen (t : List Nat) (M : Nat) (hm : M < 2 ^ 64)
    (he0 : extract_bits M 0 3 = 0) (hmagic : M = MAGIC_NUMBER_RECORD) :
    Record.read (toLeBytes M ++ t) = .ok (.metadata .magicNumber, t) := by
  unfold Record.read
  simp only [read_u64_word_app t hm, he0,
    show RecordType.tryFrom 0 = .ok .metadata from rfl]
  unfold MetadataRecord.parse
  rw [if_pos hmagic]

theorem magic_read (t : List Nat) :
    Record.read (toLeBytes MAGIC_NUMBER_RECORD ++ t) =
      .ok (.metadata .magicNumber, t) :=
  magic_read_gen t MAGIC_NUMBER_RECORD
    (by norm_num [MAGIC_NUMBER_RECORD])
    (by norm_num [extract_bits, MAGIC_NUMBER_RECORD]) rfl

theorem init_read_write (r : InitializationRecord) (t : List Nat)
    (hv : r.ticks_per_second < 2 ^ 64) :
    Record.read (r.writeBytes ++ t) = .ok (.initialization r, t) ∧
    r.writeBytes.length =
      8 * extract_bits (fromLeBytes (r.writeBytes.take 8)) 4 15 := by
  have hhdr : buildFields (4 + 12) []
      (RecordType.initialization.toNat ||| 2 <<< 4) = 33 := by decide
  constructor
  · simp only [InitializationRecord.writeBytes, hhdr, List.append_assoc]
    unfold Record.read
    simp only [read_u64_word_app _ (show (33:Nat) < 2 ^ 64 by norm_num),
      show extract_bits 33 0 3 = 1 from by norm_num [extract_bits],
      show RecordType.tryFrom 1 = .ok .initialization from rfl]
    simp only [InitializationRecord.parse, read_u64_word_app _ hv]
  · simp only [InitializationRecord.writeBytes, hhdr]
    have htk := take_app (toLeBytes 33) (toLeBytes r.ticks_per_second)
    rw [toLeBytes_length] at htk
    rw [htk, fromLeBytes_toLeBytes (by norm_num),
      show extract_bits 33 4 15 = 2 from by norm_num [extract_bits]]
    simp [toLeBytes_length]

theorem thread_read_write (r : ThreadRecord) (t : List Nat)
    (hv : Record.validB (.thread r) = true) :
    Record.read (r.writeBytes ++ t) = .ok (.thread r, t) ∧
    r.writeBytes.length =
      8 * extract_bits (fromLeBytes (r.writeBytes.take 8)) 4 15 := by
  obtain ⟨idx, pk, tk⟩ := r
  simp only [Record.validB, Bool.and_eq_true, decide_eq_true_eq] at hv
  obtain ⟨⟨hidx, hpk⟩, htk⟩ := hv
  have hhdr : buildFields (4 + 12) [⟨8, idx⟩]
      (RecordType.thread.toNat ||| 3 <<< 4) = 51 + 2 ^ 16 * idx := by
    have hbase : RecordType.thread.toNat ||| 3 <<< 4 = 51 := by decide
    rw [hbase, buildFields_eq_add _ 16 _ (by norm_num) (by simp [sumWidths])]
    simp only [packF, sumWidths, mask_length]
    omega
  have hHlt : 51 + 2 ^ 16 * idx < 2 ^ 64 := by norm_num; omega
  have he0 : extract_bits (51 + 2 ^ 16 * idx) 0 3 = 3 := by
    have h : 51 + 2 ^ 16 * idx = 0 + 2 ^ 0 * (3 + 2 ^ 4 * (3 + 2 ^ 12 * idx)) := by
      ring
    rw [h]
    have := extract_mid 0 3 (3 + 2 ^ 12 * idx) 0 4 (by norm_num) (by norm_num)
      (by norm_num)
    simpa using this
  have he16 : extract_bits (51 + 2 ^ 16 * idx) 16 23 = idx := by
    have h : 51 + 2 ^ 16 * idx = 51 + 2 ^ 16 * (idx + 2 ^ 8 * 0) := by ring
    rw [h]
    have := extract_mid 51 idx 0 16 8 (by norm_num) (by omega) (by norm_num)
    simpa using this
  have he4 : extract_bits (51 + 2 ^ 16 * idx) 4 15 = 3 := by
    have h : 51 + 2 ^ 16 * idx = 3 + 2 ^ 4 * (3 + 2 ^ 12 * idx) := by ring
    rw [h]
    have := extract_mid 3 3 idx 4 12 (by norm_num) (by norm_num) (by norm_num)
    simpa using this
  constructor
  · simp only [ThreadRecord.writeBytes, hhdr, List.append_assoc]
    unfold Record.read
    simp only [read_u64_word_app _ hHlt, he0,
      show RecordType.tryFrom 3 = .ok .thread from rfl]
    simp only [ThreadRecord.parse, read_u64_word_app _ hpk,
      read_u64_word_app _ htk, he16]
  · simp only [ThreadRecord.writeBytes, hhdr]
    have htake := take_app (toLeBytes (51 + 2 ^ 16 * idx))
      (toLeBytes pk ++ toLeBytes tk)
    rw [toLeBytes_length] at htake
    rw [List.append_assoc, htake, fromLeBytes_toLeBytes hHlt, he4]
    simp [toLeBytes_length]

theorem string_read_write (r : StringRecord) (t : List Nat)
    (hv : Record.validB (.string r) = true) :
    Record.read (r.writeBytes ++ t) = .ok (.string r, t) ∧
    r.writeBytes.length =
      8 * extract_bits (fromLeBytes (r.writeBytes.take 8)) 4 15 := by
  obtain ⟨idx, val⟩ := r
  simp only [Record.validB, Bool.and_eq_true, decide_eq_true_eq] at hv
  obtain ⟨⟨⟨hidx, hlen⟩, hutf⟩, hsz255⟩ := hv
  have hszm : (1 + (val.length + 7) / 8) % 256 = 1 + (val.length + 7) / 8 := by
    omega
  have hsz : 1 + (val.length + 7) / 8 < 2 ^ 8 := by norm_num; omega
  have hhdr : buildFields (4 + 12) [⟨15, idx⟩, ⟨1, 0⟩, ⟨15, val.length⟩]
      (RecordType.string.toNat ||| ((1 + (val.length + 7) / 8) % 256) <<< 4) =
      2 + (1 + (val.length + 7) / 8) * 2 ^ 4 + idx * 2 ^ 16 +
        val.length * 2 ^ 32 := by
    rw [hszm]
    have hbase : RecordType.string.toNat ||| (1 + (val.length + 7) / 8) <<< 4 =
        2 + (1 + (val.length + 7) / 8) * 2 ^ 4 :=
      lor_shift_eq_add _ 4 (by norm_num [RecordType.toNat])
    rw [hbase, buildFields_eq_add _ 16 _ (by norm_num at hsz ⊢; omega)
      (by simp [sumWidths])]
    simp only [packF, sumWidths, mask_length]
    have h1 : idx % 2 ^ 15 = idx := Nat.mod_eq_of_lt (by omega)
    have h2 : val.length % 2 ^ 15 = val.length := Nat.mod_eq_of_lt (by omega)
    rw [h1, h2]
    ring
  have hHlt : 2 + (1 + (val.length + 7) / 8) * 2 ^ 4 + idx * 2 ^ 16 +
      val.length * 2 ^ 32 < 2 ^ 64 := by norm_num at hsz ⊢; omega
  have he0 : extract_bits (2 + (1 + (val.length + 7) / 8) * 2 ^ 4 + idx * 2 ^ 16 +
      val.length * 2 ^ 32) 0 3 = 2 := by
    have h : 2 + (1 + (val.length + 7) / 8) * 2 ^ 4 + idx * 2 ^ 16 +
        val.length * 2 ^ 32 =
        0 + 2 ^ 0 * (2 + 2 ^ 4 * ((1 + (val.length + 7) / 8) +
          2 ^ 12 * (idx + 2 ^ 16 * val.length))) := by ring
    rw [h]
    have := extract_mid 0 2 ((1 + (val.length + 7) / 8) +
        2 ^ 12 * (idx + 2 ^ 16 * val.length)) 0 4 (by norm_num) (by norm_num)
      (by norm_num)
    simpa using this
  have he4 : extract_bits (2 + (1 + (val.length + 7) / 8) * 2 ^ 4 + idx * 2 ^ 16 +
      val.length * 2 ^ 32) 4 15 = 1 + (val.length + 7) / 8 := by
    have h : 2 + (1 + (val.length + 7) / 8) * 2 ^ 4 + idx * 2 ^ 16 +
        val.length * 2 ^ 32 =
        2 + 2 ^ 4 * ((1 + (val.length + 7) / 8) +
          2 ^ 12 * (idx + 2 ^ 16 * val.length)) := by ring
    rw [h]
    have := extract_mid 2 (1 + (val.length + 7) / 8)
      (idx + 2 ^ 16 * val.length) 4 12 (by norm_num)
      (by norm_num at hsz ⊢; omega) (by norm_num)
    simpa using this
  have he16 : extract_bits (2 + (1 + (val.length + 7) / 8) * 2 ^ 4 + idx * 2 ^ 16 +
      val.length * 2 ^ 32) 16 30 = idx := by
    have h : 2 + (1 + (val.length + 7) / 8) * 2 ^ 4 + idx * 2 ^ 16 +
        val.length * 2 ^ 32 =
        (2 + (1 + (val.length + 7) / 8) * 2 ^ 4) + 2 ^ 16 *
          (idx + 2 ^ 15 * (2 * val.length)) := by ring
    rw [h]
    have := extract_mid (2 + (1 + (val.length + 7) / 8) * 2 ^ 4) idx
      (2 * val.length) 16 15 (by norm_num at hsz ⊢; omega) (by omega)
      (by norm_num)
    simpa using this
  have he32 : extract_bits (2 + (1 + (val.length + 7) / 8) * 2 ^ 4 + idx * 2 ^ 16 +
      val.length * 2 ^ 32) 32 46 = val.length := by
    have h : 2 + (1 + (val.length + 7) / 8) * 2 ^ 4 + idx * 2 ^ 16 +
        val.length * 2 ^ 32 =
        (2 + (1 + (val.length + 7) / 8) * 2 ^ 4 + idx * 2 ^ 16) + 2 ^ 32 *
          (val.length + 2 ^ 15 * 0) := by ring
    rw [h]
    have := extract_mid (2 + (1 + (val.length + 7) / 8) * 2 ^ 4 + idx * 2 ^ 16)
      val.length 0 32 15 (by norm_num at hsz ⊢; omega) (by omega) (by norm_num)
    simpa using this
  constructor
  · simp only [StringRecord.writeBytes, hhdr, List.append_assoc]
    unfold Record.read
    simp only [read_u64_word_app _ hHlt, he0,
      show RecordType.tryFrom 2 = .ok .string from rfl]
    simp only [StringRecord.parse, he16, he32, read_aligned_str_round t hutf]
  · simp only [StringRecord.writeBytes, hhdr]
    have htake := take_app (toLeBytes (2 + (1 + (val.length + 7) / 8) * 2 ^ 4 +
      idx * 2 ^ 16 + val.length * 2 ^ 32)) (padStringBytes val)
    rw [toLeBytes_length] at htake
    rw [htake, fromLeBytes_toLeBytes hHlt, he4]
    simp only [List.length_append, toLeBytes_length, padStringBytes_length]
    omega

theorem traceinfo_read_write (ty d : Nat) (t : List Nat)
    (hv : MetadataRecord.validB (.traceInfo ⟨ty, d⟩) = true) :
    Record.read ((TraceInfo.writeBytes ⟨ty, d⟩) ++ t) =
      .ok (.metadata (.traceInfo ⟨ty, d⟩), t) ∧
    (TraceInfo.writeBytes ⟨ty, d⟩).length =
      8 * extract_bits (fromLeBytes ((TraceInfo.writeBytes ⟨ty, d⟩).take 8)) 4 15 := by
  simp only [MetadataRecord.validB, Bool.and_eq_true, Bool.not_eq_true',
    Bool.and_eq_false_iff, decide_eq_true_eq, decide_eq_false_iff_not] at hv
  obtain ⟨⟨hty, hd⟩, hmask⟩ := hv
  have hhdr : buildFields (4 + 12)
      [⟨4, MetadataType.traceInfo.toNat⟩, ⟨4, ty⟩, ⟨40, d⟩]
      (RecordType.metadata.toNat ||| 1 <<< 4) =
      16 + 4 * 2 ^ 16 + ty * 2 ^ 20 + d * 2 ^ 24 := by
    have hbase : RecordType.metadata.toNat ||| 1 <<< 4 = 16 := by decide
    rw [hbase, buildFields_eq_add _ 16 _ (by norm_num) (by simp [sumWidths])]
    simp only [packF, sumWidths, mask_length, MetadataType.toNat]
    have h1 : ty % 2 ^ 4 = ty := Nat.mod_eq_of_lt (by omega)
    have h2 : d % 2 ^ 40 = d := Nat.mod_eq_of_lt (by omega)
    rw [h1, h2]
    ring
  have hHlt : 16 + 4 * 2 ^ 16 + ty * 2 ^ 20 + d * 2 ^ 24 < 2 ^ 64 := by
    norm_num at hd ⊢; omega
  have he0 : extract_bits (16 + 4 * 2 ^ 16 + ty * 2 ^ 20 + d * 2 ^ 24) 0 3 = 0 := by
    have h : 16 + 4 * 2 ^ 16 + ty * 2 ^ 20 + d * 2 ^ 24 =
        0 + 2 ^ 0 * (0 + 2 ^ 4 * (1 + 2 ^ 12 * (4 + 16 * ty + 256 * d))) := by ring
    rw [h]
    have := extract_mid 0 0 (1 + 2 ^ 12 * (4 + 16 * ty + 256 * d)) 0 4
      (by norm_num) (by norm_num) (by norm_num)
    simpa using this
  have he4 : extract_bits (16 + 4 * 2 ^ 16 + ty * 2 ^ 20 + d * 2 ^ 24) 4 15 = 1 := by
    have h : 16 + 4 * 2 ^ 16 + ty * 2 ^ 20 + d * 2 ^ 24 =
        0 + 2 ^ 4 * (1 + 2 ^ 12 * (4 + 16 * ty + 256 * d)) := by ring
    rw [h]
    have := extract_mid 0 1 (4 + 16 * ty + 256 * d) 4 12 (by norm_num)
      (by norm_num) (by norm_num)
    simpa using this
  have he16 : extract_bits (16 + 4 * 2 ^ 16 + ty * 2 ^ 20 + d * 2 ^ 24) 16 19 = 4 := by
    have h : 16 + 4 * 2 ^ 16 + ty * 2 ^ 20 + d * 2 ^ 24 =
        16 + 2 ^ 16 * (4 + 2 ^ 4 * (ty + 2 ^ 4 * d)) := by ring
    rw [h]
    have := extract_mid 16 4 (ty + 2 ^ 4 * d) 16 4 (by norm_num) (by norm_num)
      (by norm_num)
    simpa using this
  have he20 : extract_bits (16 + 4 * 2 ^ 16 + ty * 2 ^ 20 + d * 2 ^ 24) 20 23 = ty := by
    have h : 16 + 4 * 2 ^ 16 + ty * 2 ^ 20 + d * 2 ^ 24 =
        (16 + 4 * 2 ^ 16) + 2 ^ 20 * (ty + 2 ^ 4 * d) := by ring
    rw [h]
    have := extract_mid (16 + 4 * 2 ^ 16) ty d 20 4 (by norm_num) (by omega)
      (by norm_num)
    simpa using this
  have he24 : extract_bits (16 + 4 * 2 ^ 16 + ty * 2 ^ 20 + d * 2 ^ 24) 24 63 = d := by
    have h : 16 + 4 * 2 ^ 16 + ty * 2 ^ 20 + d * 2 ^ 24 =
        (16 + 4 * 2 ^ 16 + ty * 2 ^ 20) + 2 ^ 24 * (d + 2 ^ 40 * 0) := by ring
    rw [h]
    have := extract_mid (16 + 4 * 2 ^ 16 + ty * 2 ^ 20) d 0 24 40
      (by norm_num at hty ⊢; omega) (by omega) (by norm_num)
    simpa using this
  have hne : ¬ (16 + 4 * 2 ^ 16 + ty * 2 ^ 20 + d * 2 ^ 24 =
      MAGIC_NUMBER_RECORD) := by
    intro h
    norm_num [MAGIC_NUMBER_RECORD] at h
    rcases hmask with h0 | h0 <;> omega
  constructor
  · simp only [TraceInfo.writeBytes, hhdr]
    unfold Record.read
    simp only [read_u64_word_app _ hHlt, he0,
      show RecordType.tryFrom 0 = .ok .metadata from rfl]
    unfold MetadataRecord.parse
    rw [if_neg hne]
    simp only [he16, show MetadataType.tryFrom 4 = .ok .traceInfo from rfl,
      he20, he24]
  · simp only [TraceInfo.writeBytes, hhdr]
    have htake : (toLeBytes (16 + 4 * 2 ^ 16 + ty * 2 ^ 20 + d * 2 ^ 24)).take 8 =
        toLeBytes (16 + 4 * 2 ^ 16 + ty * 2 ^ 20 + d * 2 ^ 24) := by
      apply List.take_of_length_le
      rw [toLeBytes_length]
    rw [htake, fromLeBytes_toLeBytes hHlt, he4]
    simp [toLeBytes_length]

theorem provinfo_read_write (id : Nat) (nm : List Nat) (t : List Nat)
    (hv : MetadataRecord.validB (.providerInfo ⟨id, nm⟩) = true) :
    Record.read ((ProviderInfo.writeBytes ⟨id, nm⟩) ++ t) =
      .ok (.metadata (.providerInfo ⟨id, nm⟩), t) ∧
    (ProviderInfo.writeBytes ⟨id, nm⟩).length =
      8 * extract_bits (fromLeBytes ((ProviderInfo.writeBytes ⟨id, nm⟩).take 8)) 4 15 := by
  simp only [MetadataRecord.validB, Bool.and_eq_true, decide_eq_true_eq] at hv
  obtain ⟨⟨hid, hlen⟩, hutf⟩ := hv
  have hszm : (1 + (nm.length + 7) / 8) % 256 = 1 + (nm.length + 7) / 8 := by omega
  have hsz : 1 + (nm.length + 7) / 8 < 2 ^ 8 := by norm_num; omega
  have hhdr : buildFields (4 + 12)
      [⟨4, MetadataType.providerInfo.toNat⟩, ⟨32, id⟩, ⟨8, nm.length⟩]
      (RecordType.metadata.toNat ||| ((1 + (nm.length + 7) / 8) % 256) <<< 4) =
      (1 + (nm.length + 7) / 8) * 2 ^ 4 + 2 ^ 16 + id * 2 ^ 20 +
        nm.length * 2 ^ 52 := by
    rw [hszm]
    have hbase : RecordType.metadata.toNat ||| (1 + (nm.length + 7) / 8) <<< 4 =
        (1 + (nm.length + 7) / 8) * 2 ^ 4 := by
      simp [RecordType.toNat, Nat.shiftLeft_eq]
    rw [hbase, buildFields_eq_add _ 16 _ (by norm_num at hsz ⊢; omega)
      (by simp [sumWidths])]
    simp only [packF, sumWidths, mask_length, MetadataType.toNat]
    have h1 : id % 2 ^ 32 = id := Nat.mod_eq_of_lt (by omega)
    have h2 : nm.length % 2 ^ 8 = nm.length := Nat.mod_eq_of_lt (by omega)
    rw [h1, h2]
    ring
  have hHlt : (1 + (nm.length + 7) / 8) * 2 ^ 4 + 2 ^ 16 + id * 2 ^ 20 +
      nm.length * 2 ^ 52 < 2 ^ 64 := by norm_num at hsz hid ⊢; omega
  have he0 : extract_bits ((1 + (nm.length + 7) / 8) * 2 ^ 4 + 2 ^ 16 +
      id * 2 ^ 20 + nm.length * 2 ^ 52) 0 3 = 0 := by
    have h : (1 + (nm.length + 7) / 8) * 2 ^ 4 + 2 ^ 16 + id * 2 ^ 20 +
        nm.length * 2 ^ 52 =
        0 + 2 ^ 0 * (0 + 2 ^ 4 * ((1 + (nm.length + 7) / 8) +
          2 ^ 12 * (1 + 2 ^ 4 * (id + 2 ^ 32 * nm.length)))) := by ring
    rw [h]
    have := extract_mid 0 0 ((1 + (nm.length + 7) / 8) +
        2 ^ 12 * (1 + 2 ^ 4 * (id + 2 ^ 32 * nm.length))) 0 4
      (by norm_num) (by norm_num) (by norm_num)
    simpa using this
  have he4 : extract_bits ((1 + (nm.length + 7) / 8) * 2 ^ 4 + 2 ^ 16 +
      id * 2 ^ 20 + nm.length * 2 ^ 52) 4 15 = 1 + (nm.length + 7) / 8 := by
    have h : (1 + (nm.length + 7) / 8) * 2 ^ 4 + 2 ^ 16 + id * 2 ^ 20 +
        nm.length * 2 ^ 52 =
        0 + 2 ^ 4 * ((1 + (nm.length + 7) / 8) +
          2 ^ 12 * (1 + 2 ^ 4 * (id + 2 ^ 32 * nm.length))) := by ring
    rw [h]
    have := extract_mid 0 (1 + (nm.length + 7) / 8)
      (1 + 2 ^ 4 * (id + 2 ^ 32 * nm.length)) 4 12 (by norm_num)
      (by norm_num at hsz ⊢; omega) (by norm_num)
    simpa using this
  have he16 : extract_bits ((1 + (nm.length + 7) / 8) * 2 ^ 4 + 2 ^ 16 +
      id * 2 ^ 20 + nm.length * 2 ^ 52) 16 19 = 1 := by
    have h : (1 + (nm.length + 7) / 8) * 2 ^ 4 + 2 ^ 16 + id * 2 ^ 20 +
        nm.length * 2 ^ 52 =
        ((1 + (nm.length + 7) / 8) * 2 ^ 4) + 2 ^ 16 *
          (1 + 2 ^ 4 * (id + 2 ^ 32 * nm.length)) := by ring
    rw [h]
    have := extract_mid ((1 + (nm.length + 7) / 8) * 2 ^ 4) 1
      (id + 2 ^ 32 * nm.length) 16 4 (by norm_num at hsz ⊢; omega) (by norm_num)
      (by norm_num)
    simpa using this
  have he20 : extract_bits ((1 + (nm.length + 7) / 8) * 2 ^ 4 + 2 ^ 16 +
      id * 2 ^ 20 + nm.length * 2 ^ 52) 20 51 = id := by
    have h : (1 + (nm.length + 7) / 8) * 2 ^ 4 + 2 ^ 16 + id * 2 ^ 20 +
        nm.length * 2 ^ 52 =
        ((1 + (nm.length + 7) / 8) * 2 ^ 4 + 2 ^ 16) + 2 ^ 20 *
          (id + 2 ^ 32 * nm.length) := by ring
    rw [h]
    have := extract_mid ((1 + (nm.length + 7) / 8) * 2 ^ 4 + 2 ^ 16) id
      nm.length 20 32 (by norm_num at hsz ⊢; omega) (by omega) (by norm_num)
    simpa using this
  have he52 : extract_bits ((1 + (nm.length + 7) / 8) * 2 ^ 4 + 2 ^ 16 +
      id * 2 ^ 20 + nm.length * 2 ^ 52) 52 59 = nm.length := by
    have h : (1 + (nm.length + 7) / 8) * 2 ^ 4 + 2 ^ 16 + id * 2 ^ 20 +
        nm.length * 2 ^ 52 =
        ((1 + (nm.length + 7) / 8) * 2 ^ 4 + 2 ^ 16 + id * 2 ^ 20) + 2 ^ 52 *
          (nm.length + 2 ^ 8 * 0) := by ring
    rw [h]
    have := extract_mid ((1 + (nm.length + 7) / 8) * 2 ^ 4 + 2 ^ 16 + id * 2 ^ 20)
      nm.length 0 52 8 (by norm_num at hsz hid ⊢; omega) (by omega) (by norm_num)
    simpa using this
  have hne : ¬ ((1 + (nm.length + 7) / 8) * 2 ^ 4 + 2 ^ 16 + id * 2 ^ 20 +
      nm.length * 2 ^ 52 = MAGIC_NUMBER_RECORD) := by
    intro h
    have h4 : extract_bits MAGIC_NUMBER_RECORD 16 19 = 4 := by
      norm_num [extract_bits, MAGIC_NUMBER_RECORD]
    rw [h] at he16
    omega
  constructor
  · simp only [ProviderInfo.writeBytes, hhdr, List.append_assoc, pad_to_multiple_eq]
    unfold Record.read
    simp only [read_u64_word_app _ hHlt, he0,
      show RecordType.tryFrom 0 = .ok .metadata from rfl]
    unfold MetadataRecord.parse
    rw [if_neg hne]
    simp only [he16, show MetadataType.tryFrom 1 = .ok .providerInfo from rfl,
      he20, he52, read_aligned_str_round t hutf]
  · simp only [ProviderInfo.writeBytes, hhdr, pad_to_multiple_eq]
    have htake := take_app (toLeBytes ((1 + (nm.length + 7) / 8) * 2 ^ 4 + 2 ^ 16 +
      id * 2 ^ 20 + nm.length * 2 ^ 52)) (padStringBytes nm)
    rw [toLeBytes_length] at htake
    rw [htake, fromLeBytes_toLeBytes hHlt, he4]
    simp only [List.length_append, toLeBytes_length, padStringBytes_length]
    omega

theorem provsection_read_write (id : Nat) (t : List Nat)
    (hid : id < 2 ^ 32) :
    Record.read ((ProviderSection.writeBytes ⟨id⟩) ++ t) =
      .ok (.metadata (.providerSection ⟨id⟩), t) ∧
    (ProviderSection.writeBytes ⟨id⟩).length =
      8 * extract_bits (fromLeBytes ((ProviderSection.writeBytes ⟨id⟩).take 8)) 4 15 := by
  have hhdr : buildFields (4 + 12)
      [⟨4, MetadataType.providerSection.toNat⟩, ⟨32, id⟩]
      (RecordType.metadata.toNat ||| 1 <<< 4) =
      16 + 2 * 2 ^ 16 + id * 2 ^ 20 := by
    have hbase : RecordType.metadata.toNat ||| 1 <<< 4 = 16 := by decide
    rw [hbase, buildFields_eq_add _ 16 _ (by norm_num) (by simp [sumWidths])]
    simp only [packF, sumWidths, mask_length, MetadataType.toNat]
    have h1 : id % 2 ^ 32 = id := Nat.mod_eq_of_lt (by omega)
    rw [h1]
    ring
  have hHlt : 16 + 2 * 2 ^ 16 + id * 2 ^ 20 < 2 ^ 64 := by
    norm_num at hid ⊢; omega
  have he0 : extract_bits (16 + 2 * 2 ^ 16 + id * 2 ^ 20) 0 3 = 0 := by
    have h : 16 + 2 * 2 ^ 16 + id * 2 ^ 20 =
        0 + 2 ^ 0 * (0 + 2 ^ 4 * (1 + 2 ^ 12 * (2 + 16 * id))) := by ring
    rw [h]
    have := extract_mid 0 0 (1 + 2 ^ 12 * (2 + 16 * id)) 0 4 (by norm_num)
      (by norm_num) (by norm_num)
    simpa using this
  have he4 : extract_bits (16 + 2 * 2 ^ 16 + id * 2 ^ 20) 4 15 = 1 := by
    have h : 16 + 2 * 2 ^ 16 + id * 2 ^ 20 =
        0 + 2 ^ 4 * (1 + 2 ^ 12 * (2 + 16 * id)) := by ring
    rw [h]
    have := extract_mid 0 1 (2 + 16 * id) 4 12 (by norm_num) (by norm_num)
      (by norm_num)
    simpa using this
  have he16 : extract_bits (16 + 2 * 2 ^ 16 + id * 2 ^ 20) 16 19 = 2 := by
    have h : 16 + 2 * 2 ^ 16 + id * 2 ^ 20 =
        16 + 2 ^ 16 * (2 + 2 ^ 4 * id) := by ring
    rw [h]
    have := extract_mid 16 2 id 16 4 (by norm_num) (by norm_num) (by norm_num)
    simpa using this
  have he20 : extract_bits (16 + 2 * 2 ^ 16 + id * 2 ^ 20) 20 51 = id := by
    have h : 16 + 2 * 2 ^ 16 + id * 2 ^ 20 =
        (16 + 2 * 2 ^ 16) + 2 ^ 20 * (id + 2 ^ 32 * 0) := by ring
    rw [h]
    have := extract_mid (16 + 2 * 2 ^ 16) id 0 20 32 (by norm_num) (by omega)
      (by norm_num)
    simpa using this
  have hne : ¬ (16 + 2 * 2 ^ 16 + id * 2 ^ 20 = MAGIC_NUMBER_RECORD) := by
    intro h
    have h4 : extract_bits MAGIC_NUMBER_RECORD 16 19 = 4 := by
      norm_num [extract_bits, MAGIC_NUMBER_RECORD]
    rw [h] at he16
    omega
  constructor
  · simp only [ProviderSection.writeBytes, hhdr]
    unfold Record.read
    simp only [read_u64_word_app _ hHlt, he0,
      show RecordType.tryFrom 0 = .ok .metadata from rfl]
    unfold MetadataRecord.parse
    rw [if_neg hne]
    simp only [he16, show MetadataType.tryFrom 2 = .ok .providerSection from rfl,
      he20]
  · simp only [ProviderSection.writeBytes, hhdr]
    have htake : (toLeBytes (16 + 2 * 2 ^ 16 + id * 2 ^ 20)).take 8 =
        toLeBytes (16 + 2 * 2 ^ 16 + id * 2 ^ 20) := by
      apply List.take_of_length_le
      rw [toLeBytes_length]
    rw [htake, fromLeBytes_toLeBytes hHlt, he4]
    simp [toLeBytes_length]

theorem provevent_read_write (id ev : Nat) (t : List Nat)
    (hid : id < 2 ^ 32) (hev : ev < 16) :
    Record.read ((ProviderEvent.writeBytes ⟨id, ev⟩) ++ t) =
      .ok (.metadata (.providerEvent ⟨id, ev⟩), t) ∧
    (ProviderEvent.writeBytes ⟨id, ev⟩).length =
      8 * extract_bits (fromLeBytes ((ProviderEvent.writeBytes ⟨id, ev⟩).take 8)) 4 15 := by
  have hhdr : buildFields (4 + 12)
      [⟨4, MetadataType.providerEvent.toNat⟩, ⟨32, id⟩, ⟨4, ev⟩]
      (RecordType.metadata.toNat ||| 1 <<< 4) =
      16 + 3 * 2 ^ 16 + id * 2 ^ 20 + ev * 2 ^ 52 := by
    have hbase : RecordType.metadata.toNat ||| 1 <<< 4 = 16 := by decide
    rw [hbase, buildFields_eq_add _ 16 _ (by norm_num) (by simp [sumWidths])]
    simp only [packF, sumWidths, mask_length, MetadataType.toNat]
    have h1 : id % 2 ^ 32 = id := Nat.mod_eq_of_lt (by omega)
    have h2 : ev % 2 ^ 4 = ev := Nat.mod_eq_of_lt (by omega)
    rw [h1, h2]
    ring
  have hHlt : 16 + 3 * 2 ^ 16 + id * 2 ^ 20 + ev * 2 ^ 52 < 2 ^ 64 := by
    norm_num at hid ⊢; omega
  have he0 : extract_bits (16 + 3 * 2 ^ 16 + id * 2 ^ 20 + ev * 2 ^ 52) 0 3 = 0 := by
    have h : 16 + 3 * 2 ^ 16 + id * 2 ^ 20 + ev * 2 ^ 52 =
        0 + 2 ^ 0 * (0 + 2 ^ 4 * (1 + 2 ^ 12 *
          (3 + 2 ^ 4 * (id + 2 ^ 32 * ev)))) := by ring
    rw [h]
    have := extract_mid 0 0 (1 + 2 ^ 12 * (3 + 2 ^ 4 * (id + 2 ^ 32 * ev))) 0 4
      (by norm_num) (by norm_num) (by norm_num)
    simpa using this
  have he4 : extract_bits (16 + 3 * 2 ^ 16 + id * 2 ^ 20 + ev * 2 ^ 52) 4 15 = 1 := by
    have h : 16 + 3 * 2 ^ 16 + id * 2 ^ 20 + ev * 2 ^ 52 =
        0 + 2 ^ 4 * (1 + 2 ^ 12 * (3 + 2 ^ 4 * (id + 2 ^ 32 * ev))) := by ring
    rw [h]
    have := extract_mid 0 1 (3 + 2 ^ 4 * (id + 2 ^ 32 * ev)) 4 12 (by norm_num)
      (by norm_num) (by norm_num)
    simpa using this
  have he16 : extract_bits (16 + 3 * 2 ^ 16 + id * 2 ^ 20 + ev * 2 ^ 52) 16 19 = 3 := by
    have h : 16 + 3 * 2 ^ 16 + id * 2 ^ 20 + ev * 2 ^ 52 =
        16 + 2 ^ 16 * (3 + 2 ^ 4 * (id + 2 ^ 32 * ev)) := by ring
    rw [h]
    have := extract_mid 16 3 (id + 2 ^ 32 * ev) 16 4 (by norm_num) (by norm_num)
      (by norm_num)
    simpa using this
  have he20 : extract_bits (16 + 3 * 2 ^ 16 + id * 2 ^ 20 + ev * 2 ^ 52) 20 51 = id := by
    have h : 16 + 3 * 2 ^ 16 + id * 2 ^ 20 + ev * 2 ^ 52 =
        (16 + 3 * 2 ^ 16) + 2 ^ 20 * (id + 2 ^ 32 * ev) := by ring
    rw [h]
    have := extract_mid (16 + 3 * 2 ^ 16) id ev 20 32 (by norm_num) (by omega)
      (by norm_num)
    simpa using this
  have he52 : extract_bits (16 + 3 * 2 ^ 16 + id * 2 ^ 20 + ev * 2 ^ 52) 52 55 = ev := by
    have h : 16 + 3 * 2 ^ 16 + id * 2 ^ 20 + ev * 2 ^ 52 =
        (16 + 3 * 2 ^ 16 + id * 2 ^ 20) + 2 ^ 52 * (ev + 2 ^ 4 * 0) := by ring
    rw [h]
    have := extract_mid (16 + 3 * 2 ^ 16 + id * 2 ^ 20) ev 0 52 4
      (by norm_num at hid ⊢; omega) (by omega) (by norm_num)
    simpa using this
  have hne : ¬ (16 + 3 * 2 ^ 16 + id * 2 ^ 20 + ev * 2 ^ 52 =
      MAGIC_NUMBER_RECORD) := by
    intro h
    have h4 : extract_bits MAGIC_NUMBER_RECORD 16 19 = 4 := by
      norm_num [extract_bits, MAGIC_NUMBER_RECORD]
    rw [h] at he16
    omega
  constructor
  · simp only [ProviderEvent.writeBytes, hhdr]
    unfold Record.read
    simp only [read_u64_word_app _ hHlt, he0,
      show RecordType.tryFrom 0 = .ok .metadata from rfl]
    unfold MetadataRecord.parse
    rw [if_neg hne]
    simp only [he16, show MetadataType.tryFrom 3 = .ok .providerEvent from rfl,
      he20, he52]
  · simp only [ProviderEvent.writeBytes, hhdr]
    have htake : (toLeBytes (16 + 3 * 2 ^ 16 + id * 2 ^ 20 + ev * 2 ^ 52)).take 8 =
        toLeBytes (16 + 3 * 2 ^ 16 + id * 2 ^ 20 + ev * 2 ^ 52) := by
      apply List.take_of_length_le
      rw [toLeBytes_length]
    rw [htake, fromLeBytes_toLeBytes hHlt, he4]
    simp [toLeBytes_length]

theorem Record.record_read_write (r : Record) (t : List Nat) (hv : r.validB = true) :
    ∃ bs, Record.write r = .ok bs ∧ Record.read (bs ++ t) = .ok (r, t) ∧
      bs.length = 8 * extract_bits (fromLeBytes (bs.take 8)) 4 15 := by
  cases r with
  | metadata m =>
    cases m with
    | magicNumber =>
      refine ⟨toLeBytes MAGIC_NUMBER_RECORD, rfl, magic_read t, ?_⟩
      have htake : (toLeBytes MAGIC_NUMBER_RECORD).take 8 =
          toLeBytes MAGIC_NUMBER_RECORD := by
        apply List.take_of_length_le
        rw [toLeBytes_length]
      rw [htake, fromLeBytes_toLeBytes (by norm_num [MAGIC_NUMBER_RECORD])]
      rw [show extract_bits MAGIC_NUMBER_RECORD 4 15 = 1 from by
        norm_num [extract_bits, MAGIC_NUMBER_RECORD]]
      simp [toLeBytes_length]
    | traceInfo ti =>
      obtain ⟨ty, d⟩ := ti
      have h := traceinfo_read_write ty d t (by simpa [Record.validB] using hv)
      exact ⟨_, rfl, h.1, h.2⟩
    | providerInfo p =>
      obtain ⟨id, nm⟩ := p
      have h := provinfo_read_write id nm t (by simpa [Record.validB] using hv)
      exact ⟨_, rfl, h.1, h.2⟩
    | providerSection p =>
      obtain ⟨id⟩ := p
      have hid : id < 2 ^ 32 := by
        simpa [Record.validB, MetadataRecord.validB] using hv
      have h := provsection_read_write id t hid
      exact ⟨_, rfl, h.1, h.2⟩
    | providerEvent p =>
      obtain ⟨id, ev⟩ := p
      have hv' : id < 2 ^ 32 ∧ ev < 16 := by
        simpa [Record.validB, MetadataRecord.validB] using hv
      have h := provevent_read_write id ev t hv'.1 hv'.2
      exact ⟨_, rfl, h.1, h.2⟩
  | initialization i =>
    have h := init_read_write i t (by simpa [Record.validB] using hv)
    exact ⟨_, rfl, h.1, h.2⟩
  | string s =>
    have h := string_read_write s t hv
    exact ⟨_, rfl, h.1, h.2⟩
  | thread th =>
    have h := thread_read_write th t hv
    exact ⟨_, rfl, h.1, h.2⟩
  | event er =>
    cases er with
    | instant e =>
      obtain ⟨ev⟩ := e
      have hv' : ev.validB = true ∧ ev.trueWords false ≤ 255 := by
        simpa [Record.validB, EventRecord.validB] using hv
      have h := EventRecord.read_write_instant ev t hv'.1 hv'.2
      exact ⟨_, rfl, h.1, h.2⟩
    | counter e =>
      obtain ⟨ev, cid⟩ := e
      have hv' : (ev.validB = true ∧ cid < 2 ^ 64) ∧ ev.trueWords true ≤ 255 := by
        simpa [Record.validB, EventRecord.validB] using hv
      have h := EventRecord.read_write_counter ev cid t hv'.1.1 hv'.1.2 hv'.2
      exact ⟨_, rfl, h.1, h.2⟩
    | durationBegin e =>
      obtain ⟨ev⟩ := e
      have hv' : ev.validB = true ∧ ev.trueWords false ≤ 255 := by
        simpa [Record.validB, EventRecord.validB] using hv
      have h := EventRecord.read_write_durationBegin ev t hv'.1 hv'.2
      exact ⟨_, rfl, h.1, h.2⟩
    | durationEnd e =>
      obtain ⟨ev⟩ := e
      have hv' : ev.validB = true ∧ ev.trueWords false ≤ 255 := by
        simpa [Record.validB, EventRecord.validB] using hv
      have h := EventRecord.read_write_durationEnd ev t hv'.1 hv'.2
      exact ⟨_, rfl, h.1, h.2⟩
    | durationComplete e =>
      obtain ⟨ev, ets⟩ := e
      have hv' : (ev.validB = true ∧ ets < 2 ^ 64) ∧ ev.trueWords true ≤ 255 := by
        simpa [Record.validB, EventRecord.validB] using hv
      have h := EventRecord.read_write_durationComplete ev ets t hv'.1.1 hv'.1.2 hv'.2
      exact ⟨_, rfl, h.1, h.2⟩
    | asyncBegin => simp [Record.validB, EventRecord.validB] at hv
    | asyncEnd => simp [Record.validB, EventRecord.validB] at hv
    | asyncInstant => simp [Record.validB, EventRecord.validB] at hv
    | flowBegin => simp [Record.validB, EventRecord.validB] at hv
    | flowEnd => simp [Record.validB, EventRecord.validB] at hv
    | flowStep => simp [Record.validB, EventRecord.validB] at hv
  | blob => simp [Record.validB] at hv
  | userspace => simp [Record.validB] at hv
  | kernel => simp [Record.validB] at hv
  | scheduling => simp [Record.validB] at hv
  | log => simp [Record.validB] at hv
  | largeBlob => simp [Record.validB] at hv

/-! ## Stream-consumption bounds, archive-level reading, and size-field independence -/


theorem read_u64_word_le {s s' : List Nat} {v : Nat}
    (h : read_u64_word s = .ok (v, s')) : s'.length + 8 ≤ s.length := by
  unfold read_u64_word at h
  split at h
  · cases h
  · simp only [Except.ok.injEq, Prod.mk.injEq] at h
    obtain ⟨-, h2⟩ := h
    subst h2
    simp only [List.length_drop]
    omega

theorem read_aligned_str_le {len : Nat} {s s' res : List Nat}
    (h : read_aligned_str len s = .ok (res, s')) : s'.length ≤ s.length := by
  unfold read_aligned_str at h
  dsimp only at h
  by_cases hlen : s.length < (len + 7) / 8 * 8
  · rw [if_pos hlen] at h; cases h
  · rw [if_neg hlen] at h
    by_cases h8 : len % 8 = 0
    · rw [if_pos h8] at h
      split at h
      · simp only [Except.ok.injEq, Prod.mk.injEq] at h
        obtain ⟨-, h2⟩ := h
        subst h2
        simp [List.length_drop]
      · cases h
    · rw [if_neg h8] at h
      split at h
      · simp only [Except.ok.injEq, Prod.mk.injEq] at h
        obtain ⟨-, h2⟩ := h
        subst h2
        simp [List.length_drop]
      · cases h

theorem decodeStrFieldArg_le {f : Nat} {s s' : List Nat} {x : StringRef}
    (h : decodeStrFieldArg f s = .ok (x, s')) : s'.length ≤ s.length := by
  unfold decodeStrFieldArg at h
  split at h
  · simp only [Except.ok.injEq, Prod.mk.injEq] at h
    obtain ⟨-, h2⟩ := h
    subst h2
    exact le_refl _
  · split at h
    · cases h
    · rename_i heq
      simp only [Except.ok.injEq, Prod.mk.injEq] at h
      obtain ⟨-, h2⟩ := h
      subst h2
      exact read_aligned_str_le heq

theorem Argument.read_le {s s' : List Nat} {a : Argument}
    (h : Argument.read s = .ok (a, s')) : s'.length + 8 ≤ s.length := by
  unfold Argument.read at h
  split at h
  · cases h
  · rename_i heq0
    have h0 := read_u64_word_le heq0
    split at h
    · cases h
    · split at h
      · cases h
      · rename_i heq1
        have h1 := decodeStrFieldArg_le heq1
        split at h
        all_goals
          first
          | (simp only [Except.ok.injEq, Prod.mk.injEq] at h
             obtain ⟨-, h2⟩ := h
             subst h2
             omega)
          | (split at h
             · cases h
             · rename_i heq2
               have h2 := read_u64_word_le heq2
               simp only [Except.ok.injEq, Prod.mk.injEq] at h
               obtain ⟨-, h3⟩ := h
               subst h3
               omega)
          | (split at h
             · cases h
             · rename_i heq2
               have h2 := decodeStrFieldArg_le heq2
               simp only [Except.ok.injEq, Prod.mk.injEq] at h
               obtain ⟨-, h3⟩ := h
               subst h3
               omega)

theorem readArguments_le {n : Nat} {s s' : List Nat} {args : List Argument}
    (h : readArguments n s = .ok (args, s')) : s'.length ≤ s.length := by
  induction n generalizing s s' args with
  | zero =>
    unfold readArguments at h
    simp only [Except.ok.injEq, Prod.mk.injEq] at h
    obtain ⟨-, h2⟩ := h
    subst h2
    exact le_refl _
  | succ m ih =>
    unfold readArguments at h
    split at h
    · cases h
    · rename_i heq1
      have h1 := Argument.read_le heq1
      split at h
      · cases h
      · rename_i heq2
        have h2 := ih heq2
        simp only [Except.ok.injEq, Prod.mk.injEq] at h
        obtain ⟨-, h3⟩ := h
        subst h3
        omega

theorem parse_event_le {hdr : Nat} {s s' : List Nat} {r : EventType × Event}
    (h : EventRecord.parse_event hdr s = .ok (r, s')) : s'.length + 8 ≤ s.length := by
  unfold EventRecord.parse_event at h
  dsimp only at h
  split at h
  · cases h
  · split at h
    · cases h
    · rename_i s1 heqts
      have hts := read_u64_word_le heqts
      split at h
      · cases h
      · rename_i th s2 heqth
        have hth : s2.length ≤ s1.length := by
          clear h
          split at heqth
          · split at heqth
            · cases heqth
            · rename_i heqa
              have ha := read_u64_word_le heqa
              split at heqth
              · cases heqth
              · rename_i heqb
                have hb := read_u64_word_le heqb
                simp only [Except.ok.injEq, Prod.mk.injEq] at heqth
                obtain ⟨-, h2⟩ := heqth
                subst h2
                omega
          · simp only [Except.ok.injEq, Prod.mk.injEq] at heqth
            obtain ⟨-, h2⟩ := heqth
            subst h2
            exact le_refl _
        split at h
        · cases h
        · rename_i cat s3 heqcat
          have hcat : s3.length ≤ s2.length := by
            clear h
            split at heqcat
            · simp only [Except.ok.injEq, Prod.mk.injEq] at heqcat
              obtain ⟨-, h2⟩ := heqcat
              subst h2
              exact le_refl _
            · split at heqcat
              · cases heqcat
              · rename_i heqa
                have ha := read_aligned_str_le heqa
                simp only [Except.ok.injEq, Prod.mk.injEq] at heqcat
                obtain ⟨-, h2⟩ := heqcat
                subst h2
                omega
          split at h
          · cases h
          · rename_i nm s4 heqnm
            have hnm : s4.length ≤ s3.length := by
              clear h
              split at heqnm
              · simp only [Except.ok.injEq, Prod.mk.injEq] at heqnm
                obtain ⟨-, h2⟩ := heqnm
                subst h2
                exact le_refl _
              · split at heqnm
                · cases heqnm
                · rename_i heqa
                  have ha := read_aligned_str_le heqa
                  simp only [Except.ok.injEq, Prod.mk.injEq] at heqnm
                  obtain ⟨-, h2⟩ := heqnm
                  subst h2
                  omega
            split at h
            · cases h
            · rename_i args s5 heqargs
              have hargs := readArguments_le heqargs
              simp only [Except.ok.injEq, Prod.mk.injEq] at h
              obtain ⟨-, h2⟩ := h
              subst h2
              omega

theorem EventRecord.event_parse_le {hdr : Nat} {s s' : List Nat} {r : EventRecord}
    (h : EventRecord.parse hdr s = .ok (r, s')) : s'.length + 8 ≤ s.length := by
  unfold EventRecord.parse at h
  split at h
  · cases h
  · rename_i pr s1 heqpe
    have hpe := parse_event_le heqpe
    split at h
    all_goals try cases h
    all_goals
      first
      | (simp only [Except.ok.injEq, Prod.mk.injEq] at h
         obtain ⟨-, h2⟩ := h
         subst h2
         omega)
      | (split at h
         · cases h
         · rename_i heqw
           have hw := read_u64_word_le heqw
           simp only [Except.ok.injEq, Prod.mk.injEq] at h
           obtain ⟨-, h2⟩ := h
           subst h2
           omega)
      | omega

theorem MetadataRecord.metadata_parse_le {hdr : Nat} {s s' : List Nat} {r : MetadataRecord}
    (h : MetadataRecord.parse hdr s = .ok (r, s')) : s'.length ≤ s.length := by
  unfold MetadataRecord.parse at h
  split at h
  · simp only [Except.ok.injEq, Prod.mk.injEq] at h
    obtain ⟨-, h2⟩ := h
    subst h2
    exact le_refl _
  · split at h
    · cases h
    · split at h
      all_goals
        first
        | (simp only [Except.ok.injEq, Prod.mk.injEq] at h
           obtain ⟨-, h2⟩ := h
           subst h2
           exact le_refl _)
        | (split at h
           · cases h
           · rename_i heqa
             have ha := read_aligned_str_le heqa
             simp only [Except.ok.injEq, Prod.mk.injEq] at h
             obtain ⟨-, h2⟩ := h
             subst h2
             omega)

theorem InitializationRecord.init_parse_le {s s' : List Nat} {r : InitializationRecord}
    (h : InitializationRecord.parse s = .ok (r, s')) : s'.length ≤ s.length := by
  unfold InitializationRecord.parse at h
  split at h
  · cases h
  · rename_i heqw
    have hw := read_u64_word_le heqw
    simp only [Except.ok.injEq, Prod.mk.injEq] at h
    obtain ⟨-, h2⟩ := h
    subst h2
    omega

theorem StringRecord.string_parse_le {hdr : Nat} {s s' : List Nat} {r : StringRecord}
    (h : StringRecord.parse hdr s = .ok (r, s')) : s'.length ≤ s.length := by
  unfold StringRecord.parse at h
  split at h
  · cases h
  · rename_i heqa
    have ha := read_aligned_str_le heqa
    simp only [Except.ok.injEq, Prod.mk.injEq] at h
    obtain ⟨-, h2⟩ := h
    subst h2
    omega

theorem ThreadRecord.thread_parse_le {hdr : Nat} {s s' : List Nat} {r : ThreadRecord}
    (h : ThreadRecord.parse hdr s = .ok (r, s')) : s'.length ≤ s.length := by
  unfold ThreadRecord.parse at h
  split at h
  · cases h
  · rename_i heqa
    have ha := read_u64_word_le heqa
    split at h
    · cases h
    · rename_i heqb
      have hb := read_u64_word_le heqb
      simp only [Except.ok.injEq, Prod.mk.injEq] at h
      obtain ⟨-, h2⟩ := h
      subst h2
      omega

theorem Record.read_lt {s s' : List Nat} {r : Record}
    (h : Record.read s = .ok (r, s')) : s'.length < s.length := by
  unfold Record.read at h
  split at h
  · cases h
  · rename_i hdr s1 heqw
    have hw := read_u64_word_le heqw
    split at h
    · cases h
    · split at h
      all_goals try cases h
      all_goals
        split at h
        · cases h
        · rename_i heqp
          first
          | have hp := MetadataRecord.metadata_parse_le heqp
          | have hp := InitializationRecord.init_parse_le heqp
          | have hp := StringRecord.string_parse_le heqp
          | have hp := ThreadRecord.thread_parse_le heqp
          | have hp := EventRecord.event_parse_le heqp
          simp only [Except.ok.injEq, Prod.mk.injEq] at h
          obtain ⟨-, h2⟩ := h
          subst h2
          omega

theorem Archive.readLoop_acc (fuel : Nat) (acc : List Record) (s : List Nat) :
    Archive.readLoop fuel acc s =
      (Archive.readLoop fuel [] s).map (fun l => acc.reverse ++ l) := by
  induction fuel generalizing acc s with
  | zero => simp [Archive.readLoop, Except.map]
  | succ n ih =>
    unfold Archive.readLoop
    cases hr : Record.read s with
    | ok p =>
      obtain ⟨r, s'⟩ := p
      simp only
      rw [ih (r :: acc) s', ih [r] s']
      cases Archive.readLoop n [] s' with
      | ok l => simp [Except.map]
      | error e => simp [Except.map]
    | error e => cases e <;> simp [Except.map]

theorem Archive.readLoop_fuel {f1 f2 : Nat} {s : List Nat} (acc : List Record)
    (h1 : s.length < f1) (h2 : s.length < f2) :
    Archive.readLoop f1 acc s = Archive.readLoop f2 acc s := by
  induction f1 generalizing f2 acc s with
  | zero => omega
  | succ n ih =>
    match f2, h2 with
    | m + 1, h2 =>
      unfold Archive.readLoop
      cases hr : Record.read s with
      | ok p =>
        obtain ⟨r, s'⟩ := p
        simp only
        have hlt := Record.read_lt hr
        exact ih (r :: acc) (by omega) (by omega)
      | error e => cases e <;> simp

theorem Archive.read_cons {s s' : List Nat} {r : Record}
    (h : Record.read s = .ok (r, s')) :
    Archive.read s = (Archive.read s').map (fun l => r :: l) := by
  unfold Archive.read
  show Archive.readLoop (s.length + 1) [] s = _
  unfold Archive.readLoop
  rw [h]
  simp only
  rw [Archive.readLoop_acc s.length [r] s']
  have hlt := Record.read_lt h
  rw [Archive.readLoop_fuel [] (show s'.length < s.length from hlt)
    (Nat.lt_succ_self _)]
  rfl

theorem Archive.read_eof {s : List Nat}
    (h : Record.read s = .error .ioUnexpectedEof) : Archive.read s = .ok [] := by
  unfold Archive.read Archive.readLoop
  rw [h]
  rfl

theorem Archive.read_err {s : List Nat} {e : FtfError}
    (h : Record.read s = .error e) (hne : e ≠ .ioUnexpectedEof) :
    Archive.read s = .error e := by
  unfold Archive.read Archive.readLoop
  rw [h]
  cases e with
  | ioUnexpectedEof => exact absurd rfl hne
  | ioOther => rfl
  | utf8 => rfl
  | invalidRecordType raw => rfl
  | invalidEventType raw => rfl
  | invalidMetadataType raw => rfl
  | invalidArgumentType raw => rfl
  | unsupportedRecordType t => rfl
  | unimplemented m => rfl
  | parseError m => rfl

theorem extract_low_agree {h1 h2 : Nat} (hlow : h1 % 16 = h2 % 16) :
    extract_bits h1 0 3 = extract_bits h2 0 3 := by
  simp only [extract_bits, pow_zero, Nat.div_one]
  norm_num
  omega

theorem extract_high_agree {h1 h2 : Nat} (hhigh : h1 / 2 ^ 16 = h2 / 2 ^ 16)
    (a b : Nat) (ha : 16 ≤ a) :
    extract_bits h1 a b = extract_bits h2 a b := by
  have key : ∀ v : Nat, v / 2 ^ a = v / 2 ^ 16 / 2 ^ (a - 16) := by
    intro v
    rw [Nat.div_div_eq_div_mul, ← pow_add]
    congr 2
    omega
  simp only [extract_bits, key, hhigh]

theorem EventRecord.parse_event_agree {h1 h2 : Nat} (s : List Nat)
    (hhigh : h1 / 2 ^ 16 = h2 / 2 ^ 16) :
    EventRecord.parse_event h1 s = EventRecord.parse_event h2 s := by
  unfold EventRecord.parse_event
  dsimp only
  rw [extract_high_agree hhigh 16 19 (by norm_num),
    extract_high_agree hhigh 20 23 (by norm_num),
    extract_high_agree hhigh 24 31 (by norm_num),
    extract_high_agree hhigh 32 47 (by norm_num),
    extract_high_agree hhigh 48 63 (by norm_num)]

theorem EventRecord.event_parse_agree {h1 h2 : Nat} (s : List Nat)
    (hhigh : h1 / 2 ^ 16 = h2 / 2 ^ 16) :
    EventRecord.parse h1 s = EventRecord.parse h2 s := by
  unfold EventRecord.parse
  rw [EventRecord.parse_event_agree s hhigh]

theorem MetadataRecord.metadata_parse_agree {h1 h2 : Nat} (s : List Nat)
    (hhigh : h1 / 2 ^ 16 = h2 / 2 ^ 16)
    (hm1 : h1 ≠ MAGIC_NUMBER_RECORD) (hm2 : h2 ≠ MAGIC_NUMBER_RECORD) :
    MetadataRecord.parse h1 s = MetadataRecord.parse h2 s := by
  unfold MetadataRecord.parse
  rw [if_neg hm1, if_neg hm2,
    extract_high_agree hhigh 16 19 (by norm_num),
    extract_high_agree hhigh 52 59 (by norm_num),
    extract_high_agree hhigh 20 51 (by norm_num),
    extract_high_agree hhigh 52 55 (by norm_num),
    extract_high_agree hhigh 20 23 (by norm_num),
    extract_high_agree hhigh 24 63 (by norm_num)]

theorem StringRecord.string_parse_agree {h1 h2 : Nat} (s : List Nat)
    (hhigh : h1 / 2 ^ 16 = h2 / 2 ^ 16) :
    StringRecord.parse h1 s = StringRecord.parse h2 s := by
  unfold StringRecord.parse
  rw [extract_high_agree hhigh 32 46 (by norm_num),
    extract_high_agree hhigh 16 30 (by norm_num)]

theorem ThreadRecord.thread_parse_agree {h1 h2 : Nat} (s : List Nat)
    (hhigh : h1 / 2 ^ 16 = h2 / 2 ^ 16) :
    ThreadRecord.parse h1 s = ThreadRecord.parse h2 s := by
  unfold ThreadRecord.parse
  rw [extract_high_agree hhigh 16 23 (by norm_num)]

theorem Argument.arg_read_agree {h1 h2 : Nat} (rest : List Nat)
    (hb1 : h1 < 2 ^ 64) (hb2 : h2 < 2 ^ 64)
    (hlow : h1 % 16 = h2 % 16) (hhigh : h1 / 2 ^ 16 = h2 / 2 ^ 16) :
    Argument.read (toLeBytes h1 ++ rest) = Argument.read (toLeBytes h2 ++ rest) := by
  unfold Argument.read
  rw [read_u64_word_app rest hb1, read_u64_word_app rest hb2]
  simp only
  rw [extract_low_agree hlow,
    extract_high_agree hhigh 16 31 (by norm_num),
    extract_high_agree hhigh 32 63 (by norm_num),
    extract_high_agree hhigh 32 47 (by norm_num),
    extract_high_agree hhigh 32 32 (by norm_num)]

theorem Record.record_read_agree {h1 h2 : Nat} (rest : List Nat)
    (hb1 : h1 < 2 ^ 64) (hb2 : h2 < 2 ^ 64)
    (hlow : h1 % 16 = h2 % 16) (hhigh : h1 / 2 ^ 16 = h2 / 2 ^ 16)
    (hm1 : h1 ≠ MAGIC_NUMBER_RECORD) (hm2 : h2 ≠ MAGIC_NUMBER_RECORD) :
    Record.read (toLeBytes h1 ++ rest) = Record.read (toLeBytes h2 ++ rest) := by
  unfold Record.read
  rw [read_u64_word_app rest hb1, read_u64_word_app rest hb2]
  simp only
  rw [extract_low_agree hlow]
  cases RecordType.tryFrom (extract_bits h2 0 3) with
  | error e => rfl
  | ok rt =>
    cases rt with
    | metadata =>
      simp only
      rw [MetadataRecord.metadata_parse_agree rest hhigh hm1 hm2]
    | initialization => rfl
    | string =>
      simp only
      rw [StringRecord.string_parse_agree rest hhigh]
    | thread =>
      simp only
      rw [ThreadRecord.thread_parse_agree rest hhigh]
    | event =>
      simp only
      rw [EventRecord.event_parse_agree rest hhigh]
    | blob => rfl
    | userspace => rfl
    | kernel => rfl
    | scheduling => rfl
    | log => rfl
    | largeBlob => rfl

theorem parse_event_type {hdr : Nat} {s s1 : List Nat} {et : EventType} {ev : Event}
    (h : EventRecord.parse_event hdr s = .ok ((et, ev), s1)) :
    EventType.tryFrom (extract_bits hdr 16 19) = .ok et := by
  unfold EventRecord.parse_event at h
  dsimp only at h
  split at h
  · cases h
  · rename_i et' heq
    split at h
    · cases h
    · rename_i s2 heqts
      split at h
      · cases h
      · rename_i th s3 heqth
        split at h
        · cases h
        · rename_i cat s4 heqcat
          split at h
          · cases h
          · rename_i nm s5 heqnm
            split at h
            · cases h
            · rename_i args s6 heqargs
              simp only [Except.ok.injEq, Prod.mk.injEq] at h
              obtain ⟨⟨het, -⟩, -⟩ := h
              rw [← het]
              exact heq

theorem parse_event_thread0 {hdr : Nat} {s s1 : List Nat} {et : EventType} {ev : Event}
    (h : EventRecord.parse_event hdr s = .ok ((et, ev), s1))
    (h0 : extract_bits hdr 24 31 = 0) :
    ∃ p k, ev.thread = ThreadRef.inline p k := by
  unfold EventRecord.parse_event at h
  dsimp only at h
  rw [h0] at h
  simp only [if_pos] at h
  split at h
  · cases h
  · rename_i et' heq
    split at h
    · cases h
    · rename_i s2 heqts
      split at h
      · cases h
      · rename_i th s3 heqth
        have hth : ∃ p k, th = ThreadRef.inline p k := by
          clear h
          split at heqth
          · cases heqth
          · rename_i pk s4 heqa
            split at heqth
            · cases heqth
            · rename_i tk s5 heqb
              simp only [Except.ok.injEq, Prod.mk.injEq] at heqth
              exact ⟨pk, tk, heqth.1.symm⟩
        split at h
        · cases h
        · rename_i cat s6 heqcat
          split at h
          · cases h
          · rename_i nm s7 heqnm
            split at h
            · cases h
            · rename_i args s8 heqargs
              simp only [Except.ok.injEq, Prod.mk.injEq] at h
              obtain ⟨⟨-, hev⟩, -⟩ := h
              obtain ⟨p, k, hpk⟩ := hth
              refine ⟨p, k, ?_⟩
              rw [← hev]
              exact hpk

theorem EventRecord.parse_thread0 {hdr : Nat} {s s1 : List Nat} {er : EventRecord}
    (h : EventRecord.parse hdr s = .ok (er, s1))
    (h0 : extract_bits hdr 24 31 = 0) :
    ∃ p k, er.threadOf = ThreadRef.inline p k := by
  unfold EventRecord.parse at h
  split at h
  · cases h
  · rename_i pr s2 heqpe
    obtain ⟨p, k, hpk⟩ := parse_event_thread0 heqpe h0
    split at h
    all_goals try cases h
    all_goals
      first
      | (simp only [Except.ok.injEq, Prod.mk.injEq] at h
         obtain ⟨her, -⟩ := h
         subst her
         exact ⟨p, k, hpk⟩)
      | (split at h
         · cases h
         · rename_i heqw
           simp only [Except.ok.injEq, Prod.mk.injEq] at h
           obtain ⟨her, -⟩ := h
           subst her
           exact ⟨p, k, hpk⟩)
      | exact ⟨p, k, hpk⟩

theorem read_event_thread0 {e : Event} {ty : EventType} {extra : Option Nat}
    {t s' : List Nat} {r : Record}
    (h0 : e.thread = .ref 0) (harg : e.arguments.length ≤ 15)
    (hr : Record.read (e.write_event ty extra ++ t) = .ok (r, s')) :
    ∃ er, r = .event er ∧ ∃ p k, er.threadOf = ThreadRef.inline p k := by
  obtain ⟨ts, th, cat, nm, args⟩ := e
  simp only at h0 harg
  subst h0
  have hsz : (Event.num_words ⟨ts, .ref 0, cat, nm, args⟩ +
      (if extra.isSome then 1 else 0)) % 256 < 2 ^ 8 :=
    Nat.mod_lt _ (by norm_num)
  have het := EventType.et_toNat_lt ty
  have hna : args.length < 2 ^ 4 := by norm_num; omega
  have hcid := StringRef.to_field_lt cat
  have hnid := StringRef.to_field_lt nm
  have hH := event_header_val ty.toNat args.length 0
    cat.to_field nm.to_field _ het hna (by norm_num) hcid hnid hsz
  have hHlt := evtHdr_lt hsz het hna (show (0:Nat) < 2 ^ 8 by norm_num) hcid hnid
  simp only [Event.write_event, show (ThreadRef.ref 0).to_field = 0 from rfl,
    show (ThreadRef.ref 0).payloadBytes = [] from rfl, List.nil_append,
    hH, List.append_assoc] at hr
  simp only [Record.read, read_u64_word_app _ hHlt] at hr
  rw [@evtHdr_e0 ty.toNat _ _ _ _ _] at hr
  simp only [show RecordType.tryFrom 4 = .ok .event from rfl] at hr
  split at hr
  · cases hr
  · rename_i er s2 heqp
    simp only [Except.ok.injEq, Prod.mk.injEq] at hr
    obtain ⟨hrE, -⟩ := hr
    have h24 : extract_bits (4 +
        (Event.num_words ⟨ts, .ref 0, cat, nm, args⟩ +
          (if extra.isSome then 1 else 0)) % 256 * 2 ^ 4 +
        ty.toNat * 2 ^ 16 + args.length * 2 ^ 20 + 0 * 2 ^ 24 +
        cat.to_field * 2 ^ 32 + nm.to_field * 2 ^ 48) 24 31 = 0 :=
      evtHdr_e24 hsz het hna (by norm_num)
    obtain ⟨p, k, hpk⟩ := EventRecord.parse_thread0 heqp h24
    exact ⟨er, hrE.symm, p, k, hpk⟩

theorem packF_field_extract (base : Nat) (F : List CustomField) (i : Nat)
    (hi : i < F.length) (hbase : base < 2 ^ 16)
    (hw1 : 1 ≤ (F.get ⟨i, hi⟩).width) :
    extract_bits (base + 2 ^ 16 * packF F) (16 + sumWidths (F.take i))
      (16 + sumWidths (F.take i) + (F.get ⟨i, hi⟩).width - 1) =
    mask_length (F.get ⟨i, hi⟩).value (F.get ⟨i, hi⟩).width := by
  have hdecomp : F = F.take i ++ F.get ⟨i, hi⟩ :: F.drop (i + 1) := by
    conv_lhs => rw [← List.take_append_drop i F]
    rw [List.drop_eq_getElem_cons hi]
    rfl
  have hpk : packF F = packF (F.take i) + 2 ^ sumWidths (F.take i) *
      (mask_length (F.get ⟨i, hi⟩).value (F.get ⟨i, hi⟩).width +
        2 ^ (F.get ⟨i, hi⟩).width * packF (F.drop (i + 1))) := by
    conv_lhs => rw [hdecomp]
    rw [packF_append]
    rfl
  have hval : base + 2 ^ 16 * packF F =
      (base + 2 ^ 16 * packF (F.take i)) + 2 ^ (16 + sumWidths (F.take i)) *
        (mask_length (F.get ⟨i, hi⟩).value (F.get ⟨i, hi⟩).width +
          2 ^ (F.get ⟨i, hi⟩).width * packF (F.drop (i + 1))) := by
    rw [hpk, pow_add]
    ring
  have hA : base + 2 ^ 16 * packF (F.take i) < 2 ^ (16 + sumWidths (F.take i)) := by
    have h1 := packF_lt (F.take i)
    have h2 : 2 ^ 16 * (packF (F.take i) + 1) ≤
        2 ^ 16 * 2 ^ sumWidths (F.take i) := mul_le_mul_left' (by omega) _
    rw [pow_add]
    rw [Nat.mul_succ] at h2
    omega
  have hm : mask_length (F.get ⟨i, hi⟩).value (F.get ⟨i, hi⟩).width <
      2 ^ (F.get ⟨i, hi⟩).width := by
    simpa [mask_length] using Nat.mod_lt _ (Nat.pos_pow_of_pos _ (by norm_num))
  rw [hval]
  exact extract_mid _ _ _ _ _ hA hm hw1

theorem traceInfo_writeBytes_val (ty d : Nat) (hty : ty < 16) (hd : d < 2 ^ 40) :
    TraceInfo.writeBytes ⟨ty, d⟩ =
      toLeBytes (16 + 4 * 2 ^ 16 + ty * 2 ^ 20 + d * 2 ^ 24) := by
  have hhdr : buildFields (4 + 12)
      [⟨4, MetadataType.traceInfo.toNat⟩, ⟨4, ty⟩, ⟨40, d⟩]
      (RecordType.metadata.toNat ||| 1 <<< 4) =
      16 + 4 * 2 ^ 16 + ty * 2 ^ 20 + d * 2 ^ 24 := by
    have hbase : RecordType.metadata.toNat ||| 1 <<< 4 = 16 := by decide
    rw [hbase, buildFields_eq_add _ 16 _ (by norm_num) (by simp [sumWidths])]
    simp only [packF, sumWidths, mask_length, MetadataType.toNat]
    have h1 : ty % 2 ^ 4 = ty := Nat.mod_eq_of_lt (by omega)
    have h2 : d % 2 ^ 40 = d := Nat.mod_eq_of_lt (by omega)
    rw [h1, h2]
    ring
  simp only [TraceInfo.writeBytes, hhdr]

/-- C3 (confirmed): a header built from record type `T`, size `S` and custom
fields `F` (fields of positive width whose widths fit the word) parses back
to type `T` and size `S`, and each field decodes from its consecutive bit
range, starting at bit 16, to its width-masked value. -/
theorem claim_C3 (T : RecordType) (S : Nat) (F : List CustomField)
    (hS : S < 256) (hfit : 16 + sumWidths F ≤ 64)
    (hw : ∀ f ∈ F, 1 ≤ f.width) :
    ∃ h, RecordHeader.build T S F = .ok h ∧
      h.record_type = .ok T ∧ h.size = S ∧
      ∀ i (hi : i < F.length),
        extract_bits h.value (16 + sumWidths (F.take i))
          (16 + sumWidths (F.take i) + (F.get ⟨i, hi⟩).width - 1) =
        mask_length (F.get ⟨i, hi⟩).value (F.get ⟨i, hi⟩).width := by
  refine ⟨⟨T.toNat + 2 ^ 4 * (S + 2 ^ 12 * packF F)⟩,
    build_val T S F hS hfit, ?_, ?_, ?_⟩
  · show RecordType.tryFrom (extract_bits _ 0 3) = .ok T
    rw [extract_rt]
    exact RecordType.rt_tryFrom_toNat T
  · show extract_bits _ 4 15 = S
    exact extract_size T S _ (by omega)
  · intro i hi
    have hbase : T.toNat + 2 ^ 4 * S < 2 ^ 16 := by
      have := RecordType.rt_toNat_lt T
      norm_num at this ⊢
      omega
    have hval : T.toNat + 2 ^ 4 * (S + 2 ^ 12 * packF F) =
        (T.toNat + 2 ^ 4 * S) + 2 ^ 16 * packF F := by ring
    show extract_bits (T.toNat + 2 ^ 4 * (S + 2 ^ 12 * packF F)) _ _ = _
    rw [hval]
    exact packF_field_extract _ F i hi hbase (hw _ (F.get_mem i hi))

theorem claim_C3_witness :
    (1 : Nat) < 256 ∧ 16 + sumWidths [(⟨4, 2⟩ : CustomField), ⟨40, 0x1122334455⟩] ≤ 64 ∧
    (∀ f ∈ [(⟨4, 2⟩ : CustomField), ⟨40, 0x1122334455⟩], 1 ≤ f.width) ∧
    (∃ h, RecordHeader.build .metadata 1 [(⟨4, 2⟩ : CustomField), ⟨40, 0x1122334455⟩] = .ok h ∧
      h.record_type = .ok .metadata ∧ h.size = 1 ∧
      ∀ i (hi : i < [(⟨4, 2⟩ : CustomField), ⟨40, 0x1122334455⟩].length),
        extract_bits h.value
          (16 + sumWidths ([(⟨4, 2⟩ : CustomField), ⟨40, 0x1122334455⟩].take i))
          (16 + sumWidths ([(⟨4, 2⟩ : CustomField), ⟨40, 0x1122334455⟩].take i) +
            ([(⟨4, 2⟩ : CustomField), ⟨40, 0x1122334455⟩].get ⟨i, hi⟩).width - 1) =
        mask_length ([(⟨4, 2⟩ : CustomField), ⟨40, 0x1122334455⟩].get ⟨i, hi⟩).value
          ([(⟨4, 2⟩ : CustomField), ⟨40, 0x1122334455⟩].get ⟨i, hi⟩).width) :=
  ⟨by norm_num, by norm_num [sumWidths], by decide,
    claim_C3 .metadata 1 _ (by norm_num) (by norm_num [sumWidths]) (by decide)⟩

/-- C4 (confirmed): a valid `StringRef` (inline length or ref index at most
32767; inline payload valid UTF-8, as Rust's `String` type guarantees)
decodes from its encoded 16-bit field back to itself, and the field's high
bit (0x8000) is set exactly when the reference is inline. -/
theorem claim_C4 (x : StringRef) (t : List Nat) (hv : x.validB = true) :
    decodeStrFieldArg x.to_field (x.payloadBytes ++ t) = .ok (x, t) ∧
    StringRef.field_is_ref x.to_field = !x.isInline := by
  refine ⟨decodeStrFieldArg_round t hv, ?_⟩
  cases x with
  | ref r =>
    simp only [StringRef.validB, decide_eq_true_eq] at hv
    rw [StringRef.to_field_ref hv, StringRef.field_is_ref_iff (by norm_num; omega)]
    simp [StringRef.isInline]
    omega
  | inline s =>
    simp only [StringRef.validB, Bool.and_eq_true, decide_eq_true_eq] at hv
    rw [StringRef.to_field_inline hv.1,
      StringRef.field_is_ref_iff (by norm_num; omega)]
    simp [StringRef.isInline]

theorem claim_C4_witness :
    StringRef.validB (.inline [99, 97, 116]) = true ∧
    (decodeStrFieldArg (StringRef.inline [99, 97, 116]).to_field
        ((StringRef.inline [99, 97, 116]).payloadBytes ++ [7]) =
      .ok (.inline [99, 97, 116], [7]) ∧
    StringRef.field_is_ref (StringRef.inline [99, 97, 116]).to_field =
      !(StringRef.inline [99, 97, 116]).isInline) :=
  ⟨by decide, claim_C4 (.inline [99, 97, 116]) [7] (by decide)⟩

/-- C6 (confirmed): writing an Instant event with thread `ThreadRef::Ref(5)`,
category `StringRef::Ref(10)`, name `StringRef::Ref(15)`, no arguments and
timestamp 1000000 produces exactly 16 bytes: a header word with
record-type 4, size 2, subtype 0, argument count 0, thread 5, category 10,
name 15, followed by the timestamp as a little-endian u64. -/
theorem claim_C6 :
    Record.write (Record.create_instant_event 1000000 (.ref 5) (.ref 10) (.ref 15) []) =
      .ok ([36, 0, 0, 5, 10, 0, 15, 0] ++ toLeBytes 1000000) ∧
    ([36, 0, 0, 5, 10, 0, 15, 0] ++ toLeBytes 1000000).length = 16 ∧
    extract_bits (fromLeBytes [36, 0, 0, 5, 10, 0, 15, 0]) 0 3 = 4 ∧
    extract_bits (fromLeBytes [36, 0, 0, 5, 10, 0, 15, 0]) 4 15 = 2 ∧
    extract_bits (fromLeBytes [36, 0, 0, 5, 10, 0, 15, 0]) 16 19 = 0 ∧
    extract_bits (fromLeBytes [36, 0, 0, 5, 10, 0, 15, 0]) 20 23 = 0 ∧
    extract_bits (fromLeBytes [36, 0, 0, 5, 10, 0, 15, 0]) 24 31 = 5 ∧
    extract_bits (fromLeBytes [36, 0, 0, 5, 10, 0, 15, 0]) 32 47 = 10 ∧
    extract_bits (fromLeBytes [36, 0, 0, 5, 10, 0, 15, 0]) 48 63 = 15 ∧
    toLeBytes 1000000 = [64, 66, 15, 0, 0, 0, 0, 0] := by
  refine ⟨rfl, rfl, ?_, ?_, ?_, ?_, ?_, ?_, ?_, rfl⟩ <;> decide

/-- C7 (corrected): `TraceInfo::new` surfaces the five data bytes as a u64
below 2^40 read BIG-endian (`d0` most significant), not little-endian as
the spec claims; the record's size is 1 and it carries no payload words,
with the surfaced u64 occupying bits 24–63 of the single header word. -/
theorem claim_C7 (ty d0 d1 d2 d3 d4 : Nat) (hty : ty < 16) (h0 : d0 < 256)
    (h1 : d1 < 256) (h2 : d2 < 256) (h3 : d3 < 256) (h4 : d4 < 256) :
    (TraceInfo.new ty d0 d1 d2 d3 d4).data =
      d4 + 2 ^ 8 * d3 + 2 ^ 16 * d2 + 2 ^ 24 * d1 + 2 ^ 32 * d0 ∧
    (TraceInfo.writeBytes (TraceInfo.new ty d0 d1 d2 d3 d4)).length = 8 ∧
    extract_bits (fromLeBytes (TraceInfo.writeBytes (TraceInfo.new ty d0 d1 d2 d3 d4)))
      4 15 = 1 ∧
    extract_bits (fromLeBytes (TraceInfo.writeBytes (TraceInfo.new ty d0 d1 d2 d3 d4)))
      24 63 = (TraceInfo.new ty d0 d1 d2 d3 d4).data := by
  have hdata : (TraceInfo.new ty d0 d1 d2 d3 d4).data =
      d4 + 2 ^ 8 * d3 + 2 ^ 16 * d2 + 2 ^ 24 * d1 + 2 ^ 32 * d0 := by
    simp only [TraceInfo.new, fromBeBytes, List.foldl]
    ring
  have hdlt : (TraceInfo.new ty d0 d1 d2 d3 d4).data < 2 ^ 40 := by
    rw [hdata]; norm_num; omega
  have hnew : TraceInfo.new ty d0 d1 d2 d3 d4 =
      (⟨ty, (TraceInfo.new ty d0 d1 d2 d3 d4).data⟩ : TraceInfo) := rfl
  have hwb := traceInfo_writeBytes_val ty (TraceInfo.new ty d0 d1 d2 d3 d4).data
    hty hdlt
  have hHlt : 16 + 4 * 2 ^ 16 + ty * 2 ^ 20 +
      (TraceInfo.new ty d0 d1 d2 d3 d4).data * 2 ^ 24 < 2 ^ 64 := by
    norm_num at hdlt ⊢; omega
  refine ⟨hdata, ?_, ?_, ?_⟩
  · rw [hnew, hwb]
    exact toLeBytes_length _
  · rw [hnew, hwb, fromLeBytes_toLeBytes hHlt]
    have h : 16 + 4 * 2 ^ 16 + ty * 2 ^ 20 +
        (TraceInfo.new ty d0 d1 d2 d3 d4).data * 2 ^ 24 =
        0 + 2 ^ 4 * (1 + 2 ^ 12 * (4 + 16 * ty +
          256 * (TraceInfo.new ty d0 d1 d2 d3 d4).data)) := by ring
    rw [h]
    have := extract_mid 0 1 (4 + 16 * ty +
        256 * (TraceInfo.new ty d0 d1 d2 d3 d4).data) 4 12 (by norm_num)
      (by norm_num) (by norm_num)
    simpa using this
  · rw [hnew, hwb, fromLeBytes_toLeBytes hHlt]
    have h : 16 + 4 * 2 ^ 16 + ty * 2 ^ 20 +
        (TraceInfo.new ty d0 d1 d2 d3 d4).data * 2 ^ 24 =
        (16 + 4 * 2 ^ 16 + ty * 2 ^ 20) + 2 ^ 24 *
          ((TraceInfo.new ty d0 d1 d2 d3 d4).data + 2 ^ 40 * 0) := by ring
    rw [h]
    have := extract_mid (16 + 4 * 2 ^ 16 + ty * 2 ^ 20)
      (TraceInfo.new ty d0 d1 d2 d3 d4).data 0 24 40
      (by norm_num at hty ⊢; omega) hdlt (by norm_num)
    simpa using this

theorem claim_C7_counterexample :
    (TraceInfo.new 0 1 0 0 0 0).data ≠ specTraceInfoDataLE 1 0 0 0 0 ∧
    (TraceInfo.new 0 1 0 0 0 0).data = 2 ^ 32 ∧
    specTraceInfoDataLE 1 0 0 0 0 = 1 := by
  refine ⟨?_, ?_, ?_⟩ <;> decide

theorem claim_C7_witness :
    (0 : Nat) < 16 ∧ (1 : Nat) < 256 ∧
    ((TraceInfo.new 0 1 0 0 0 0).data =
      0 + 2 ^ 8 * 0 + 2 ^ 16 * 0 + 2 ^ 24 * 0 + 2 ^ 32 * 1 ∧
    (TraceInfo.writeBytes (TraceInfo.new 0 1 0 0 0 0)).length = 8 ∧
    extract_bits (fromLeBytes (TraceInfo.writeBytes (TraceInfo.new 0 1 0 0 0 0)))
      4 15 = 1 ∧
    extract_bits (fromLeBytes (TraceInfo.writeBytes (TraceInfo.new 0 1 0 0 0 0)))
      24 63 = (TraceInfo.new 0 1 0 0 0 0).data) :=
  ⟨by norm_num, by norm_num,
    claim_C7 0 1 0 0 0 0 (by norm_num) (by norm_num) (by norm_num)
      (by norm_num) (by norm_num) (by norm_num)⟩

/-- C8 (corrected): the record-header builder masks each custom field to its
declared width and ORs it in at the running offset starting at bit 16 (the
additive form below, with `packF` packing the masked fields), but it has no
overflow error path at all: it returns `Ok` for every input, including
field lists whose accumulated offsets exceed 64 bits (the embedded shifts
wrap modulo 2^64, and no `HeaderFieldOverflow` variant exists in the
source's error type). -/
theorem claim_C8 (T : RecordType) (S : Nat) (F : List CustomField)
    (hS : S < 256) (hfit : 16 + sumWidths F ≤ 64) :
    (∀ T2 S2 (F2 : List CustomField), ∃ h, RecordHeader.build T2 S2 F2 = .ok h) ∧
    RecordHeader.build T S F = .ok ⟨T.toNat + 2 ^ 4 * (S + 2 ^ 12 * packF F)⟩ := by
  exact ⟨fun T2 S2 F2 => ⟨_, rfl⟩, build_val T S F hS hfit⟩

theorem claim_C8_counterexample :
    RecordHeader.build .metadata 1 [⟨40, 1⟩, ⟨40, 1⟩] =
      .ok ⟨16 + 2 ^ 16 + 2 ^ 56⟩ ∧
    64 < 16 + sumWidths [(⟨40, 1⟩ : CustomField), ⟨40, 1⟩] := by
  exact ⟨rfl, by decide⟩

theorem claim_C8_witness :
    (3 : Nat) < 256 ∧ 16 + sumWidths [(⟨8, 7⟩ : CustomField)] ≤ 64 ∧
    ((∀ T2 S2 (F2 : List CustomField), ∃ h, RecordHeader.build T2 S2 F2 = .ok h) ∧
    RecordHeader.build .thread 3 [⟨8, 7⟩] =
      .ok ⟨RecordType.thread.toNat + 2 ^ 4 * (3 + 2 ^ 12 * packF [⟨8, 7⟩])⟩) :=
  ⟨by norm_num, by norm_num [sumWidths],
    claim_C8 .thread 3 [⟨8, 7⟩] (by norm_num) (by norm_num [sumWidths])⟩

/-- C10 (confirmed): no parser consults the header's size field (bits 4–15):
two record streams whose header words agree outside bits 4–15 (and neither
of which is the magic-number word) parse to the same result, and likewise
two argument streams whose argument-header words agree outside bits 4–15
decode to the same argument — payload extents come only from the
type-specific fields. -/
theorem claim_C10 (h1 h2 : Nat) (rest : List Nat)
    (hb1 : h1 < 2 ^ 64) (hb2 : h2 < 2 ^ 64)
    (hlow : h1 % 16 = h2 % 16) (hhigh : h1 / 2 ^ 16 = h2 / 2 ^ 16)
    (hm1 : h1 ≠ MAGIC_NUMBER_RECORD) (hm2 : h2 ≠ MAGIC_NUMBER_RECORD) :
    Record.read (toLeBytes h1 ++ rest) = Record.read (toLeBytes h2 ++ rest) ∧
    Argument.read (toLeBytes h1 ++ rest) = Argument.read (toLeBytes h2 ++ rest) :=
  ⟨Record.record_read_agree rest hb1 hb2 hlow hhigh hm1 hm2,
    Argument.arg_read_agree rest hb1 hb2 hlow hhigh⟩

theorem claim_C10_witness :
    (33 : Nat) < 2 ^ 64 ∧ (1 : Nat) < 2 ^ 64 ∧
    (33 : Nat) % 16 = 1 % 16 ∧ (33 : Nat) / 2 ^ 16 = 1 / 2 ^ 16 ∧
    (33 : Nat) ≠ MAGIC_NUMBER_RECORD ∧ (1 : Nat) ≠ MAGIC_NUMBER_RECORD ∧
    (Record.read (toLeBytes 33 ++ toLeBytes 7) =
       Record.read (toLeBytes 1 ++ toLeBytes 7) ∧
     Argument.read (toLeBytes 33 ++ toLeBytes 7) =
       Argument.read (toLeBytes 1 ++ toLeBytes 7)) :=
  ⟨by norm_num, by norm_num, by norm_num, by norm_num,
    by decide, by decide,
    claim_C10 33 1 (toLeBytes 7) (by norm_num) (by norm_num) (by norm_num)
      (by norm_num) (by decide) (by decide)⟩

/-- C1 (corrected): writing a one-record archive and reading it back yields
the record again, with the byte buffer's length equal to the header's size
field times 8 — but only for records the wire format can represent
faithfully (`Record.validB`): e.g. an event with the reserved thread
reference 0 writes successfully yet does not read back, so the claim fails
for arbitrary constructable records. -/
theorem claim_C1 (r : Record) (hv : r.validB = true) :
    ∃ bs, Archive.write [r] = .ok bs ∧ Archive.read bs = .ok [r] ∧
      bs.length = 8 * extract_bits (fromLeBytes (bs.take 8)) 4 15 := by
  obtain ⟨bs, hw, hr, hl⟩ := Record.record_read_write r [] hv
  rw [List.append_nil] at hr
  refine ⟨bs, ?_, ?_, hl⟩
  · simp only [Archive.write, hw, List.append_nil]
  · rw [Archive.read_cons hr]
    rfl

theorem claim_C1_witness :
    Record.validB (.initialization ⟨1000⟩) = true ∧
    (∃ bs, Archive.write [Record.initialization ⟨1000⟩] = .ok bs ∧
      Archive.read bs = .ok [Record.initialization ⟨1000⟩] ∧
      bs.length = 8 * extract_bits (fromLeBytes (bs.take 8)) 4 15) :=
  ⟨by decide, claim_C1 (.initialization ⟨1000⟩) (by decide)⟩

theorem claim_C1_counterexample :
    Archive.write [Record.event (.instant ⟨⟨0, .ref 0, .ref 1, .ref 1, []⟩⟩)] =
      .ok [36, 0, 0, 0, 1, 0, 1, 0, 0, 0, 0, 0, 0, 0, 0, 0] ∧
    Archive.read [36, 0, 0, 0, 1, 0, 1, 0, 0, 0, 0, 0, 0, 0, 0, 0] = .ok [] ∧
    ([] : List Record) ≠ [Record.event (.instant ⟨⟨0, .ref 0, .ref 1, .ref 1, []⟩⟩)] :=
  ⟨rfl, rfl, by decide⟩

/-- C2 (corrected): end-of-stream always terminates `Archive::read`
normally with the records accumulated so far — at a record boundary (the
header word itself unreadable) AND mid-record: the source breaks out of
its loop on any `UnexpectedEof`.  Only non-EOF errors are hard failures. -/
theorem claim_C2 (s s' : List Nat) (r : Record) (e : FtfError) :
    (s.length < 8 → Archive.read s = .ok []) ∧
    (Record.read s = .error .ioUnexpectedEof → Archive.read s = .ok []) ∧
    (Record.read s = .ok (r, s') →
      Archive.read s = (Archive.read s').map (fun l => r :: l)) ∧
    (Record.read s = .error e → e ≠ .ioUnexpectedEof →
      Archive.read s = .error e) := by
  refine ⟨?_, Archive.read_eof, Archive.read_cons, Archive.read_err⟩
  intro hlen
  apply Archive.read_eof
  have hw : read_u64_word s = .error .ioUnexpectedEof := by
    unfold read_u64_word
    rw [if_pos hlen]
  unfold Record.read
  rw [hw]

theorem claim_C2_witness :
    Record.read [33, 0, 0, 0, 0, 0, 0, 0] = .error .ioUnexpectedEof ∧
    Archive.read [33, 0, 0, 0, 0, 0, 0, 0] = .ok [] :=
  ⟨rfl, (claim_C2 [33, 0, 0, 0, 0, 0, 0, 0] [] (.initialization ⟨0⟩)
    .ioOther).2.1 rfl⟩

theorem claim_C2_counterexample :
    read_u64_word [33, 0, 0, 0, 0, 0, 0, 0] = .ok (33, []) ∧
    Record.read [33, 0, 0, 0, 0, 0, 0, 0] = .error .ioUnexpectedEof ∧
    Archive.read [33, 0, 0, 0, 0, 0, 0, 0] = .ok [] ∧
    ∀ e, Archive.read [33, 0, 0, 0, 0, 0, 0, 0] ≠ .error e := by
  refine ⟨rfl, rfl, rfl, ?_⟩
  intro e h
  rw [show Archive.read [33, 0, 0, 0, 0, 0, 0, 0] = .ok [] from rfl] at h
  exact Except.noConfusion h

/-- C5 (confirmed): writing any recognized-but-unimplemented record variant
or async/flow event returns `Unimplemented`; reading a stream whose first
header carries record-type tag 5 returns `UnsupportedRecordType Blob`; and
an event whose subtype tag is 5..=10 makes `EventRecord::parse` return
`Unimplemented` whenever the common event preamble parses. -/
theorem claim_C5 (h : Nat) (rest s : List Nat) (hdr : Nat) (et : EventType)
    (ev : Event) (s1 : List Nat) (hb : h < 2 ^ 64)
    (h5 : extract_bits h 0 3 = 5) :
    Record.write .blob = .error (.unimplemented "Write") ∧
    Record.write .userspace = .error (.unimplemented "Write") ∧
    Record.write .kernel = .error (.unimplemented "Write") ∧
    Record.write .scheduling = .error (.unimplemented "Write") ∧
    Record.write .log = .error (.unimplemented "Write") ∧
    Record.write .largeBlob = .error (.unimplemented "Write") ∧
    EventRecord.write .asyncBegin =
      .error (.unimplemented "Write not implemented for this type yet") ∧
    EventRecord.write .asyncEnd =
      .error (.unimplemented "Write not implemented for this type yet") ∧
    EventRecord.write .asyncInstant =
      .error (.unimplemented "Write not implemented for this type yet") ∧
    EventRecord.write .flowBegin =
      .error (.unimplemented "Write not implemented for this type yet") ∧
    EventRecord.write .flowEnd =
      .error (.unimplemented "Write not implemented for this type yet") ∧
    EventRecord.write .flowStep =
      .error (.unimplemented "Write not implemented for this type yet") ∧
    Record.read (toLeBytes h ++ rest) = .error (.unsupportedRecordType .blob) ∧
    (5 ≤ extract_bits hdr 16 19 → extract_bits hdr 16 19 ≤ 10 →
      EventRecord.parse_event hdr s = .ok ((et, ev), s1) →
      ∃ m, EventRecord.parse hdr s = .error (.unimplemented m)) := by
  refine ⟨rfl, rfl, rfl, rfl, rfl, rfl, rfl, rfl, rfl, rfl, rfl, rfl, ?_, ?_⟩
  · simp only [Record.read, read_u64_word_app rest hb, h5,
      show RecordType.tryFrom 5 = .ok .blob from rfl]
  · intro ha hb10 hpe
    have hty := parse_event_type hpe
    have hcases : extract_bits hdr 16 19 = 5 ∨ extract_bits hdr 16 19 = 6 ∨
        extract_bits hdr 16 19 = 7 ∨ extract_bits hdr 16 19 = 8 ∨
        extract_bits hdr 16 19 = 9 ∨ extract_bits hdr 16 19 = 10 := by omega
    unfold EventRecord.parse
    rw [hpe]
    rcases hcases with hk | hk | hk | hk | hk | hk <;>
      rw [hk] at hty <;>
      simp only [EventType.tryFrom, Except.ok.injEq] at hty <;>
      subst hty <;>
      exact ⟨_, rfl⟩

theorem claim_C5_witness :
    (5 : Nat) < 2 ^ 64 ∧ extract_bits 5 0 3 = 5 ∧
    (Record.write .blob = .error (.unimplemented "Write") ∧
    Record.write .userspace = .error (.unimplemented "Write") ∧
    Record.write .kernel = .error (.unimplemented "Write") ∧
    Record.write .scheduling = .error (.unimplemented "Write") ∧
    Record.write .log = .error (.unimplemented "Write") ∧
    Record.write .largeBlob = .error (.unimplemented "Write") ∧
    EventRecord.write .asyncBegin =
      .error (.unimplemented "Write not implemented for this type yet") ∧
    EventRecord.write .asyncEnd =
      .error (.unimplemented "Write not implemented for this type yet") ∧
    EventRecord.write .asyncInstant =
      .error (.unimplemented "Write not implemented for this type yet") ∧
    EventRecord.write .flowBegin =
      .error (.unimplemented "Write not implemented for this type yet") ∧
    EventRecord.write .flowEnd =
      .error (.unimplemented "Write not implemented for this type yet") ∧
    EventRecord.write .flowStep =
      .error (.unimplemented "Write not implemented for this type yet") ∧
    Record.read (toLeBytes 5 ++ []) = .error (.unsupportedRecordType .blob) ∧
    (5 ≤ extract_bits (5 * 2 ^ 16) 16 19 → extract_bits (5 * 2 ^ 16) 16 19 ≤ 10 →
      EventRecord.parse_event (5 * 2 ^ 16) [] =
        .ok ((.instant, ⟨0, .ref 1, .ref 1, .ref 1, []⟩), []) →
      ∃ m, EventRecord.parse (5 * 2 ^ 16) [] = .error (.unimplemented m))) :=
  ⟨by norm_num, by decide,
    claim_C5 5 [] [] (5 * 2 ^ 16) .instant ⟨0, .ref 1, .ref 1, .ref 1, []⟩ []
      (by norm_num) (by decide)⟩

/-- C9 (confirmed): `ThreadRef::Ref(0)` encodes as thread-ref field 0 with
no inline koid words, but a reader decodes field 0 as an inline thread
(consuming two koid words), so writing any event whose thread is `Ref(0)`
and reading the result never returns the original record. -/
theorem claim_C9 (e : Event) (cid ets : Nat) (t s' : List Nat) (r : Record)
    (h0 : e.thread = .ref 0) (harg : e.arguments.length ≤ 15) :
    (ThreadRef.ref 0).to_field = 0 ∧
    (ThreadRef.ref 0).payloadBytes = [] ∧
    (∀ hdr s er s1, EventRecord.parse hdr s = .ok (er, s1) →
      extract_bits hdr 24 31 = 0 →
      ∃ p k, EventRecord.threadOf er = ThreadRef.inline p k) ∧
    (Record.read (e.write_event .instant none ++ t) = .ok (r, s') →
      r ≠ .event (.instant ⟨e⟩)) ∧
    (Record.read (e.write_event .counter (some cid) ++ t) = .ok (r, s') →
      r ≠ .event (.counter ⟨e, cid⟩)) ∧
    (Record.read (e.write_event .durationBegin none ++ t) = .ok (r, s') →
      r ≠ .event (.durationBegin ⟨e⟩)) ∧
    (Record.read (e.write_event .durationEnd none ++ t) = .ok (r, s') →
      r ≠ .event (.durationEnd ⟨e⟩)) ∧
    (Record.read (e.write_event .durationComplete (some ets) ++ t) = .ok (r, s') →
      r ≠ .event (.durationComplete ⟨e, ets⟩)) := by
  refine ⟨rfl, rfl, ?_, ?_, ?_, ?_, ?_, ?_⟩
  · intro hdr s er s1 hp h24
    exact EventRecord.parse_thread0 hp h24
  all_goals
    intro hr heq
    obtain ⟨er, hrE, p, k, hpk⟩ := read_event_thread0 h0 harg hr
    rw [heq] at hrE
    injection hrE with h2
    rw [← h2] at hpk
    first
    | rw [show (EventRecord.instant ⟨e⟩).threadOf = e.thread from rfl, h0] at hpk
    | rw [show (EventRecord.counter ⟨e, cid⟩).threadOf = e.thread from rfl, h0] at hpk
    | rw [show (EventRecord.durationBegin ⟨e⟩).threadOf = e.thread from rfl, h0] at hpk
    | rw [show (EventRecord.durationEnd ⟨e⟩).threadOf = e.thread from rfl, h0] at hpk
    | rw [show (EventRecord.durationComplete ⟨e, ets⟩).threadOf = e.thread from rfl, h0] at hpk
    exact ThreadRef.noConfusion hpk

theorem claim_C9_witness :
    (⟨0, .ref 0, .ref 1, .ref 1, []⟩ : Event).thread = .ref 0 ∧
    (⟨0, .ref 0, .ref 1, .ref 1, []⟩ : Event).arguments.length ≤ 15 ∧
    ((ThreadRef.ref 0).to_field = 0 ∧
    (ThreadRef.ref 0).payloadBytes = [] ∧
    (∀ hdr s er s1, EventRecord.parse hdr s = .ok (er, s1) →
      extract_bits hdr 24 31 = 0 →
      ∃ p k, EventRecord.threadOf er = ThreadRef.inline p k) ∧
    (Record.read ((⟨0, .ref 0, .ref 1, .ref 1, []⟩ : Event).write_event
        .instant none ++ []) = .ok (.metadata .magicNumber, []) →
      Record.metadata .magicNumber ≠
        .event (.instant ⟨⟨0, .ref 0, .ref 1, .ref 1, []⟩⟩)) ∧
    (Record.read ((⟨0, .ref 0, .ref 1, .ref 1, []⟩ : Event).write_event
        .counter (some 0) ++ []) = .ok (.metadata .magicNumber, []) →
      Record.metadata .magicNumber ≠
        .event (.counter ⟨⟨0, .ref 0, .ref 1, .ref 1, []⟩, 0⟩)) ∧
    (Record.read ((⟨0, .ref 0, .ref 1, .ref 1, []⟩ : Event).write_event
        .durationBegin none ++ []) = .ok (.metadata .magicNumber, []) →
      Record.metadata .magicNumber ≠
        .event (.durationBegin ⟨⟨0, .ref 0, .ref 1, .ref 1, []⟩⟩)) ∧
    (Record.read ((⟨0, .ref 0, .ref 1, .ref 1, []⟩ : Event).write_event
        .durationEnd none ++ []) = .ok (.metadata .magicNumber, []) →
      Record.metadata .magicNumber ≠
        .event (.durationEnd ⟨⟨0, .ref 0, .ref 1, .ref 1, []⟩⟩)) ∧
    (Record.read ((⟨0, .ref 0, .ref 1, .ref 1, []⟩ : Event).write_event
        .durationComplete (some 0) ++ []) = .ok (.metadata .magicNumber, []) →
      Record.metadata .magicNumber ≠
        .event (.durationComplete ⟨⟨0, .ref 0, .ref 1, .ref 1, []⟩, 0⟩))) :=
  ⟨rfl, by norm_num,
    claim_C9 ⟨0, .ref 0, .ref 1, .ref 1, []⟩ 0 0 [] []
      (.metadata .magicNumber) rfl (by norm_num)⟩
